import Mathlib

/-!
Verification of the Avalanche render-graph core: a shallow embedding of the
render graph (`crates/libs/rendering/src/graph/*.rs`), the graph runner
(`crates/libs/rendering/src/runner.rs`), the per-frame context
(`crates/libs/rendering/src/extract/frame.rs`) and the swapchain
present/resize protocol (`crates/libs/hlvk/src/swapchain.rs`), together with
proofs about the embedded operations.

Modelling conventions:
* `NodeId` (a process-unique atomic counter in the source) is a `Nat`.
* Rust `HashMap`s are association lists; iteration order of a `HashMap` is
  unspecified in Rust, the model fixes insertion order.
* Rust `&mut self` methods returning `Result` are functions returning the
  new state together with `Option` of the error (`none` = success), so that
  partially-mutated error states are representable.
* GPU resource handles (buffers, image views, samplers, semaphores) are
  opaque `Nat` identifiers; freshly created objects take ids from a counter.
* Indexing panics and `unwrap`/`expect` in the source are modelled by
  explicit `panicked` outcomes.
-/

namespace Avalanche

/-- Node identifier: `define_atomic_id!(NodeId)`, process-unique. -/
abbrev NodeId := Nat

/-- `SlotType` from `node_slot.rs`: the closed set of resource slot types. -/
inductive SlotType where
  | buffer
  | imageView
  | sampler
  | entity
deriving DecidableEq, Repr

/-- `SlotValue` from `node_slot.rs`: a tagged resource handle. -/
inductive SlotValue where
  | buffer (handle : Nat)
  | imageView (handle : Nat)
  | sampler (handle : Nat)
  | entity (handle : Nat)
deriving DecidableEq, Repr

/-- `SlotValue::slot_type`. -/
def SlotValue.slot_type : SlotValue → SlotType
  | .buffer _ => .buffer
  | .imageView _ => .imageView
  | .sampler _ => .sampler
  | .entity _ => .entity

/-- `SlotLabel` from `node_slot.rs`. -/
inductive SlotLabel where
  | index (i : Nat)
  | name (n : String)
deriving DecidableEq, Repr

/-- `SlotInfo` from `node_slot.rs`. -/
structure SlotInfo where
  name : String
  slot_type : SlotType
deriving DecidableEq, Repr

/-- `SlotInfos::get_slot_index`: positional index lookup by label. -/
def get_slot_index (slots : List SlotInfo) (label : SlotLabel) : Option Nat :=
  match label with
  | .index i => if i < slots.length then some i else none
  | .name n => slots.findIdx? (fun s => s.name = n)

/-- `SlotInfos::get_slot`. -/
def get_slot (slots : List SlotInfo) (label : SlotLabel) : Option SlotInfo :=
  (get_slot_index slots label).bind (fun i => slots[i]?)

/-- `NodeLabel` from `node.rs`. -/
inductive NodeLabel where
  | id (i : NodeId)
  | name (n : String)
deriving DecidableEq, Repr

/-- `Edge` from `edge.rs`. -/
inductive Edge where
  | slotEdge (input_node : NodeId) (input_index : Nat)
      (output_node : NodeId) (output_index : Nat)
  | nodeEdge (input_node : NodeId) (output_node : NodeId)
deriving DecidableEq, Repr

/-- `Edge::get_input_node`. -/
def Edge.get_input_node : Edge → NodeId
  | .slotEdge i _ _ _ => i
  | .nodeEdge i _ => i

/-- `Edge::get_output_node`. -/
def Edge.get_output_node : Edge → NodeId
  | .slotEdge _ _ o _ => o
  | .nodeEdge _ o => o

/-- `EdgeExistence` from `edge.rs`. -/
inductive EdgeExistence where
  | exist
  | doesNotExist
deriving DecidableEq, Repr

/-- `RenderGraphError` from `error.rs`. -/
inductive RenderGraphError where
  | invalidNode (label : NodeLabel)
  | invalidOutputNodeSlot (label : SlotLabel)
  | invalidInputNodeSlot (label : SlotLabel)
  | wrongNodeType
  | mismatchedNodeSlots (output_node : NodeId) (output_slot : Nat)
      (input_node : NodeId) (input_slot : Nat)
  | edgeAlreadyExists (e : Edge)
  | edgeDoesNotExist (e : Edge)
  | unconnectedNodeInputSlot (node : NodeId) (input_slot : Nat)
  | unconnectedNodeOutputSlot (node : NodeId) (output_slot : Nat)
  | nodeInputSlotAlreadyOccupied (node : NodeId) (input_slot : Nat)
      (occupied_by_node : NodeId)
deriving DecidableEq, Repr

/-- `Vec::swap_remove(i)`: replace element `i` with the last element and pop. -/
def swapRemove (l : List α) (i : Nat) : List α :=
  match l.getLast? with
  | none => []
  | some last => (l.set i last).dropLast

/-- `EdgeInfo` from `edge.rs`: per-node edge bookkeeping. -/
structure EdgeInfo where
  id : NodeId
  input_edges : List Edge
  output_edges : List Edge
deriving DecidableEq, Repr

/-- `EdgeInfo::has_input_edge`. -/
def EdgeInfo.has_input_edge (info : EdgeInfo) (edge : Edge) : Prop :=
  edge ∈ info.input_edges

instance (info : EdgeInfo) (edge : Edge) : Decidable (info.has_input_edge edge) := by
  unfold EdgeInfo.has_input_edge; infer_instance

/-- `EdgeInfo::has_output_edge`. -/
def EdgeInfo.has_output_edge (info : EdgeInfo) (edge : Edge) : Prop :=
  edge ∈ info.output_edges

instance (info : EdgeInfo) (edge : Edge) : Decidable (info.has_output_edge edge) := by
  unfold EdgeInfo.has_output_edge; infer_instance

/-- `EdgeInfo::add_input_edge`: error on duplicate, otherwise `Vec::push`. -/
def EdgeInfo.add_input_edge (info : EdgeInfo) (edge : Edge) :
    Except RenderGraphError EdgeInfo :=
  if edge ∈ info.input_edges then .error (.edgeAlreadyExists edge)
  else .ok { info with input_edges := info.input_edges ++ [edge] }

/-- `EdgeInfo::remove_input_edge`: `position` + `swap_remove`. -/
def EdgeInfo.remove_input_edge (info : EdgeInfo) (edge : Edge) :
    Except RenderGraphError EdgeInfo :=
  match info.input_edges.findIdx? (fun e => decide (e = edge)) with
  | some i => .ok { info with input_edges := swapRemove info.input_edges i }
  | none => .error (.edgeDoesNotExist edge)

/-- `EdgeInfo::add_output_edge`. -/
def EdgeInfo.add_output_edge (info : EdgeInfo) (edge : Edge) :
    Except RenderGraphError EdgeInfo :=
  if edge ∈ info.output_edges then .error (.edgeAlreadyExists edge)
  else .ok { info with output_edges := info.output_edges ++ [edge] }

/-- `EdgeInfo::remove_output_edge`. -/
def EdgeInfo.remove_output_edge (info : EdgeInfo) (edge : Edge) :
    Except RenderGraphError EdgeInfo :=
  match info.output_edges.findIdx? (fun e => decide (e = edge)) with
  | some i => .ok { info with output_edges := swapRemove info.output_edges i }
  | none => .error (.edgeDoesNotExist edge)

/-- `NodeState` from `node.rs` (the boxed `dyn Node` itself is kept outside
the state; node behaviour is a separate parameter of the runner). -/
structure NodeState where
  id : NodeId
  name : Option String
  type_name : String
  input_slots : List SlotInfo
  output_slots : List SlotInfo
  edges : EdgeInfo
deriving DecidableEq, Repr

/-- `RenderGraph` from `graph.rs`: nodes, name map, sub-graphs, input node.
Recursive because sub-graphs are full render graphs. -/
inductive RenderGraph where
  | mk (nodes : List NodeState) (node_names : List (String × NodeId))
      (sub_graphs : List (String × RenderGraph)) (input_node : Option NodeId)

/-- Field accessor: the node map. -/
def RenderGraph.nodes : RenderGraph → List NodeState
  | .mk n _ _ _ => n

/-- Field accessor: the name map. -/
def RenderGraph.node_names : RenderGraph → List (String × NodeId)
  | .mk _ m _ _ => m

/-- Field accessor: the sub-graph map. -/
def RenderGraph.sub_graphs : RenderGraph → List (String × RenderGraph)
  | .mk _ _ s _ => s

/-- Field accessor: the designated input node. -/
def RenderGraph.input_node : RenderGraph → Option NodeId
  | .mk _ _ _ i => i

/-- Rebuild with a new node list. -/
def RenderGraph.setNodes (g : RenderGraph) (ns : List NodeState) : RenderGraph :=
  .mk ns g.node_names g.sub_graphs g.input_node

/-- `RenderGraph::default()`: the empty graph. -/
def RenderGraph.empty : RenderGraph := .mk [] [] [] none

/-- `HashMap::get` on the node map. -/
def RenderGraph.get_node_state? (g : RenderGraph) (id : NodeId) : Option NodeState :=
  g.nodes.find? (fun n => decide (n.id = id))

/-- Update the node stored under `id` (the effect of writing through
`get_node_state_mut`). -/
def RenderGraph.modifyNode (g : RenderGraph) (id : NodeId)
    (f : NodeState → NodeState) : RenderGraph :=
  g.setNodes (g.nodes.map (fun n => if n.id = id then f n else n))

/-- Association-list lookup on the name map. -/
def lookupName (m : List (String × NodeId)) (k : String) : Option NodeId :=
  (m.find? (fun p => decide (p.1 = k))).map (·.2)

/-- `RenderGraph::get_node_id`: an id label is returned unchecked, a name is
looked up in the name map. -/
def RenderGraph.get_node_id (g : RenderGraph) (label : NodeLabel) :
    Except RenderGraphError NodeId :=
  match label with
  | .id i => .ok i
  | .name n =>
    match lookupName g.node_names n with
    | some id => .ok id
    | none => .error (.invalidNode label)

/-- `RenderGraph::get_node_state`. -/
def RenderGraph.get_node_state (g : RenderGraph) (label : NodeLabel) :
    Except RenderGraphError NodeState :=
  match g.get_node_id label with
  | .error e => .error e
  | .ok id =>
    match g.get_node_state? id with
    | some n => .ok n
    | none => .error (.invalidNode label)

/-- `RenderGraph::get_input_node`. -/
def RenderGraph.get_input_node (g : RenderGraph) : Option NodeState :=
  g.input_node.bind (fun id =>
    match g.get_node_state (.id id) with
    | .ok n => some n
    | .error _ => none)

/-- `RenderGraph::has_edge`: the edge is present in the output-edge list of
its output node and the input-edge list of its input node. -/
def RenderGraph.has_edge (g : RenderGraph) (edge : Edge) : Bool :=
  match g.get_node_state? edge.get_output_node with
  | some outState =>
    if edge ∈ outState.edges.output_edges then
      match g.get_node_state? edge.get_input_node with
      | some inState => decide (edge ∈ inState.edges.input_edges)
      | none => false
    else false
  | none => false

/-- `RenderGraph::validate_edge` (returns `none` when valid). -/
def RenderGraph.validate_edge (g : RenderGraph) (edge : Edge)
    (should_exist : EdgeExistence) : Option RenderGraphError :=
  if should_exist = .exist ∧ ¬ g.has_edge edge then
    some (.edgeDoesNotExist edge)
  else if should_exist = .doesNotExist ∧ g.has_edge edge then
    some (.edgeAlreadyExists edge)
  else
    match edge with
    | .nodeEdge _ _ => none
    | .slotEdge input_node input_index output_node output_index =>
      match g.get_node_state? output_node with
      | none => some (.invalidNode (.id output_node))
      | some output_node_state =>
      match g.get_node_state? input_node with
      | none => some (.invalidNode (.id input_node))
      | some input_node_state =>
      match get_slot output_node_state.output_slots (.index output_index) with
      | none => some (.invalidOutputNodeSlot (.index output_index))
      | some output_slot =>
      match get_slot input_node_state.input_slots (.index input_index) with
      | none => some (.invalidInputNodeSlot (.index input_index))
      | some input_slot =>
      match input_node_state.edges.input_edges.find? (fun e =>
          match e with
          | .slotEdge _ current_input_index _ _ => decide (input_index = current_input_index)
          | .nodeEdge _ _ => false) with
      | some (.slotEdge _ _ current_output_node _) =>
        if should_exist = .doesNotExist then
          some (.nodeInputSlotAlreadyOccupied input_node input_index current_output_node)
        else if output_slot.slot_type ≠ input_slot.slot_type then
          some (.mismatchedNodeSlots output_node output_index input_node input_index)
        else none
      | _ =>
        if output_slot.slot_type ≠ input_slot.slot_type then
          some (.mismatchedNodeSlots output_node output_index input_node input_index)
        else none

/-- `RenderGraph::try_add_slot_edge`. Returns the (possibly mutated) graph
and `some` error on failure. -/
def RenderGraph.try_add_slot_edge (g : RenderGraph)
    (output_node : NodeLabel) (output_slot : SlotLabel)
    (input_node : NodeLabel) (input_slot : SlotLabel) :
    RenderGraph × Option RenderGraphError :=
  match g.get_node_id output_node with
  | .error e => (g, some e)
  | .ok output_node_id =>
  match g.get_node_id input_node with
  | .error e => (g, some e)
  | .ok input_node_id =>
  match g.get_node_state (.id output_node_id) with
  | .error e => (g, some e)
  | .ok outState =>
  match get_slot_index outState.output_slots output_slot with
  | none => (g, some (.invalidOutputNodeSlot output_slot))
  | some output_index =>
  match g.get_node_state (.id input_node_id) with
  | .error e => (g, some e)
  | .ok inState =>
  match get_slot_index inState.input_slots input_slot with
  | none => (g, some (.invalidInputNodeSlot input_slot))
  | some input_index =>
  let edge := Edge.slotEdge input_node_id input_index output_node_id output_index
  match g.validate_edge edge .doesNotExist with
  | some e => (g, some e)
  | none =>
  match g.get_node_state (.id output_node_id) with
  | .error e => (g, some e)
  | .ok outState2 =>
  match outState2.edges.add_output_edge edge with
  | .error e => (g, some e)
  | .ok newOutEdges =>
  let g1 := g.modifyNode output_node_id (fun n => { n with edges := newOutEdges })
  match g1.get_node_state (.id input_node_id) with
  | .error e => (g1, some e)
  | .ok inState2 =>
  match inState2.edges.add_input_edge edge with
  | .error e => (g1, some e)
  | .ok newInEdges =>
    (g1.modifyNode input_node_id (fun n => { n with edges := newInEdges }), none)

/-- `RenderGraph::try_add_node_edge`. -/
def RenderGraph.try_add_node_edge (g : RenderGraph)
    (output_node : NodeLabel) (input_node : NodeLabel) :
    RenderGraph × Option RenderGraphError :=
  match g.get_node_id output_node with
  | .error e => (g, some e)
  | .ok output_node_id =>
  match g.get_node_id input_node with
  | .error e => (g, some e)
  | .ok input_node_id =>
  let edge := Edge.nodeEdge input_node_id output_node_id
  match g.validate_edge edge .doesNotExist with
  | some e => (g, some e)
  | none =>
  match g.get_node_state (.id output_node_id) with
  | .error e => (g, some e)
  | .ok outState =>
  match outState.edges.add_output_edge edge with
  | .error e => (g, some e)
  | .ok newOutEdges =>
  let g1 := g.modifyNode output_node_id (fun n => { n with edges := newOutEdges })
  match g1.get_node_state (.id input_node_id) with
  | .error e => (g1, some e)
  | .ok inState =>
  match inState.edges.add_input_edge edge with
  | .error e => (g1, some e)
  | .ok newInEdges =>
    (g1.modifyNode input_node_id (fun n => { n with edges := newInEdges }), none)

/-- `RenderGraph::remove_slot_edge`. -/
def RenderGraph.remove_slot_edge (g : RenderGraph)
    (output_node : NodeLabel) (output_slot : SlotLabel)
    (input_node : NodeLabel) (input_slot : SlotLabel) :
    RenderGraph × Option RenderGraphError :=
  match g.get_node_id output_node with
  | .error e => (g, some e)
  | .ok output_node_id =>
  match g.get_node_id input_node with
  | .error e => (g, some e)
  | .ok input_node_id =>
  match g.get_node_state (.id output_node_id) with
  | .error e => (g, some e)
  | .ok outState =>
  match get_slot_index outState.output_slots output_slot with
  | none => (g, some (.invalidOutputNodeSlot output_slot))
  | some output_index =>
  match g.get_node_state (.id input_node_id) with
  | .error e => (g, some e)
  | .ok inState =>
  match get_slot_index inState.input_slots input_slot with
  | none => (g, some (.invalidInputNodeSlot input_slot))
  | some input_index =>
  let edge := Edge.slotEdge input_node_id input_index output_node_id output_index
  match g.validate_edge edge .exist with
  | some e => (g, some e)
  | none =>
  match g.get_node_state (.id output_node_id) with
  | .error e => (g, some e)
  | .ok outState2 =>
  match outState2.edges.remove_output_edge edge with
  | .error e => (g, some e)
  | .ok newOutEdges =>
  let g1 := g.modifyNode output_node_id (fun n => { n with edges := newOutEdges })
  match g1.get_node_state (.id input_node_id) with
  | .error e => (g1, some e)
  | .ok inState2 =>
  match inState2.edges.remove_input_edge edge with
  | .error e => (g1, some e)
  | .ok newInEdges =>
    (g1.modifyNode input_node_id (fun n => { n with edges := newInEdges }), none)

/-- `RenderGraph::remove_node_edge`. -/
def RenderGraph.remove_node_edge (g : RenderGraph)
    (output_node : NodeLabel) (input_node : NodeLabel) :
    RenderGraph × Option RenderGraphError :=
  match g.get_node_id output_node with
  | .error e => (g, some e)
  | .ok output_node_id =>
  match g.get_node_id input_node with
  | .error e => (g, some e)
  | .ok input_node_id =>
  let edge := Edge.nodeEdge input_node_id output_node_id
  match g.validate_edge edge .exist with
  | some e => (g, some e)
  | none =>
  match g.get_node_state (.id output_node_id) with
  | .error e => (g, some e)
  | .ok outState =>
  match outState.edges.remove_output_edge edge with
  | .error e => (g, some e)
  | .ok newOutEdges =>
  let g1 := g.modifyNode output_node_id (fun n => { n with edges := newOutEdges })
  match g1.get_node_state (.id input_node_id) with
  | .error e => (g1, some e)
  | .ok inState =>
  match inState.edges.remove_input_edge edge with
  | .error e => (g1, some e)
  | .ok newInEdges =>
    (g1.modifyNode input_node_id (fun n => { n with edges := newInEdges }), none)

/-- `HashMap::insert` on the node map: replace the entry with the same id if
present, otherwise add. -/
def insertNode (ns : List NodeState) (st : NodeState) : List NodeState :=
  if ns.any (fun n => decide (n.id = st.id)) then
    ns.map (fun n => if n.id = st.id then st else n)
  else ns ++ [st]

/-- `HashMap::insert` on the name map. -/
def insertName (m : List (String × NodeId)) (k : String) (v : NodeId) :
    List (String × NodeId) :=
  if m.any (fun p => decide (p.1 = k)) then
    m.map (fun p => if p.1 = k then (k, v) else p)
  else m ++ [(k, v)]

/-- `RenderGraph::add_node`: always succeeds; the fresh `NodeId` produced by
the atomic counter is passed in, the node's declared slots come from its
`input()`/`output()` methods. -/
def RenderGraph.add_node (g : RenderGraph) (id : NodeId) (name : String)
    (type_name : String) (input_slots output_slots : List SlotInfo) : RenderGraph :=
  .mk
    (insertNode g.nodes
      { id := id, name := some name, type_name := type_name,
        input_slots := input_slots, output_slots := output_slots,
        edges := { id := id, input_edges := [], output_edges := [] } })
    (insertName g.node_names name id)
    g.sub_graphs
    g.input_node

/-- `RenderGraph::set_input`: creates the `GraphInputNode` (whose output
schema equals its input schema); `none` models the `assert!` panic when an
input node already exists. -/
def RenderGraph.set_input (g : RenderGraph) (id : NodeId)
    (inputs : List SlotInfo) : Option RenderGraph :=
  match g.input_node with
  | some _ => none
  | none =>
    let g' := g.add_node id "GraphInputNode" "GraphInputNode" inputs inputs
    some (.mk g'.nodes g'.node_names g'.sub_graphs (some id))

/-- One step of `remove_node`'s first loop: strip one input edge of the
removed node from its producer's output-edge list (silently skipped when the
producer is gone, error propagated by `?` otherwise). -/
def removeOutputEdgeOf (g : RenderGraph) (nid : NodeId) (e : Edge) :
    RenderGraph × Option RenderGraphError :=
  match g.get_node_state? nid with
  | none => (g, none)
  | some st =>
    match st.edges.remove_output_edge e with
    | .error err => (g, some err)
    | .ok newEdges => (g.modifyNode nid (fun n => { n with edges := newEdges }), none)

/-- One step of `remove_node`'s second loop: strip one output edge of the
removed node from its consumer's input-edge list. -/
def removeInputEdgeOf (g : RenderGraph) (nid : NodeId) (e : Edge) :
    RenderGraph × Option RenderGraphError :=
  match g.get_node_state? nid with
  | none => (g, none)
  | some st =>
    match st.edges.remove_input_edge e with
    | .error err => (g, some err)
    | .ok newEdges => (g.modifyNode nid (fun n => { n with edges := newEdges }), none)

/-- `remove_node`'s first loop over the removed node's input edges. -/
def stripInputEdges (g : RenderGraph) : List Edge → RenderGraph × Option RenderGraphError
  | [] => (g, none)
  | e :: es =>
    match removeOutputEdgeOf g e.get_output_node e with
    | (g', none) => stripInputEdges g' es
    | (g', some err) => (g', some err)

/-- `remove_node`'s second loop over the removed node's output edges. -/
def stripOutputEdges (g : RenderGraph) : List Edge → RenderGraph × Option RenderGraphError
  | [] => (g, none)
  | e :: es =>
    match removeInputEdgeOf g e.get_input_node e with
    | (g', none) => stripOutputEdges g' es
    | (g', some err) => (g', some err)

/-- `HashMap::remove` on the name map. -/
def removeName (m : List (String × NodeId)) (k : String) :
    List (String × NodeId) := m.filter (fun p => decide (p.1 ≠ k))

/-- `HashMap::remove` on the node map. -/
def removeNodeEntry (ns : List NodeState) (id : NodeId) : List NodeState :=
  ns.filter (fun n => decide (n.id ≠ id))

/-- `RenderGraph::remove_node`: missing name is a no-op; otherwise the node
is removed and every edge referencing it is stripped from its neighbours. -/
def RenderGraph.remove_node (g : RenderGraph) (name : String) :
    RenderGraph × Option RenderGraphError :=
  match lookupName g.node_names name with
  | none => (g, none)
  | some id =>
    let g0 : RenderGraph :=
      .mk (removeNodeEntry g.nodes id) (removeName g.node_names name)
        g.sub_graphs g.input_node
    match g.get_node_state? id with
    | none => (g0, none)
    | some node_state =>
      match stripInputEdges g0 node_state.edges.input_edges with
      | (g1, some err) => (g1, some err)
      | (g1, none) => stripOutputEdges g1 node_state.edges.output_edges

/-- `RenderGraph::add_node_edges`: add a node edge for every adjacent pair;
`EdgeAlreadyExists` is tolerated, any other error panics (`none`). -/
def RenderGraph.add_node_edges : RenderGraph → List String → Option RenderGraph
  | g, a :: b :: rest =>
    match g.try_add_node_edge (.name a) (.name b) with
    | (g', none) => g'.add_node_edges (b :: rest)
    | (g', some (.edgeAlreadyExists _)) => g'.add_node_edges (b :: rest)
    | (_, some _) => none
  | g, _ => some g

/-- `RenderGraph::get_sub_graph`. -/
def RenderGraph.get_sub_graph (g : RenderGraph) (name : String) : Option RenderGraph :=
  (g.sub_graphs.find? (fun p => decide (p.1 = name))).map (·.2)

/-- `InputSlotError` from `error.rs`. -/
inductive InputSlotError where
  | invalidSlot (label : SlotLabel)
  | mismatchedSlotType (label : SlotLabel) (expected : SlotType) (actual : SlotType)
deriving DecidableEq, Repr

/-- `OutputSlotError` from `error.rs`. Its display text reads: attempted to
output a value of type `actual` to output slot `label`, which has type
`expected`. -/
inductive OutputSlotError where
  | invalidSlot (label : SlotLabel)
  | mismatchedSlotType (label : SlotLabel) (expected : SlotType) (actual : SlotType)
deriving DecidableEq, Repr

/-- `RunSubGraphError` from `error.rs`. -/
inductive RunSubGraphError where
  | missingSubGraph (name : String)
  | subGraphHasNoInputs (name : String)
  | missingInput (slot_index : Nat) (slot_name : String) (graph_name : String)
  | mismatchedInputSlotType (graph_name : String) (slot_index : Nat)
      (label : SlotLabel) (expected : SlotType) (actual : SlotType)
deriving DecidableEq, Repr

/-- `NodeRunError` from `error.rs`. -/
inductive NodeRunError where
  | inputSlotError (e : InputSlotError)
  | outputSlotError (e : OutputSlotError)
  | runSubGraphError (e : RunSubGraphError)
deriving DecidableEq, Repr

/-- `RenderGraphContext::set_output` from `context.rs`, acting on the node's
declared output schema and the positional outputs array. The error fields
are assigned exactly as in the source: `actual := slot.slot_type` (the
declared type) and `expected := value.slot_type()` (the supplied value's
type). The second `match` arm models the source's `expect("slot is valid")`,
which is unreachable because the index comes from `get_slot_index`. -/
def set_output (output_slots : List SlotInfo) (outputs : List (Option SlotValue))
    (label : SlotLabel) (value : SlotValue) :
    Except OutputSlotError (List (Option SlotValue)) :=
  match get_slot_index output_slots label with
  | none => .error (.invalidSlot label)
  | some slot_index =>
    match get_slot output_slots (.index slot_index) with
    | none => .error (.invalidSlot label)
    | some slot =>
      if value.slot_type ≠ slot.slot_type then
        .error (.mismatchedSlotType label value.slot_type slot.slot_type)
      else
        .ok (outputs.set slot_index (some value))

/-- `RunSubGraph` from `context.rs`: one queued sub-graph run request. -/
structure RunSubGraphReq where
  name : String
  inputs : List SlotValue
  view_entity : Option Nat
deriving DecidableEq, Repr

/-- The input-validation loop of `RenderGraphContext::run_sub_graph`:
iterate the input node's slots with index `i`, checking `inputs.get(i)`.
Returns `none` when validation passes. -/
def checkSubInputs (graph_name : String) :
    List SlotInfo → List SlotValue → Nat → Option RunSubGraphError
  | [], _, _ => none
  | slot :: slots, inputs, i =>
    match inputs[i]? with
    | some v =>
      if slot.slot_type ≠ v.slot_type then
        some (.mismatchedInputSlotType graph_name i (.name slot.name)
          slot.slot_type v.slot_type)
      else checkSubInputs graph_name slots inputs (i + 1)
    | none => some (.missingInput i slot.name graph_name)

/-- `RenderGraphContext::run_sub_graph`: validate and queue (not execute) a
sub-graph run request. `queue` is the context's `run_sub_graphs` list. -/
def ctx_run_sub_graph (graph : RenderGraph) (queue : List RunSubGraphReq)
    (name : String) (inputs : List SlotValue) (view_entity : Option Nat) :
    Except RunSubGraphError (List RunSubGraphReq) :=
  match graph.get_sub_graph name with
  | none => .error (.missingSubGraph name)
  | some sub_graph =>
    match sub_graph.get_input_node with
    | some input_node =>
      match checkSubInputs name input_node.input_slots inputs 0 with
      | some e => .error e
      | none => .ok (queue ++ [⟨name, inputs, view_entity⟩])
    | none =>
      if inputs.isEmpty then .ok (queue ++ [⟨name, inputs, view_entity⟩])
      else .error (.subGraphHasNoInputs name)

/-- A node's `run` is modelled as the sequence of context operations it
performs: `set_output` calls and `run_sub_graph` requests (the GPU work a
node records is outside the graph state). -/
inductive NodeCmd where
  | setOutput (label : SlotLabel) (value : SlotValue)
  | runSubGraph (name : String) (inputs : List SlotValue) (view_entity : Option Nat)

/-- The mutable part of a `RenderGraphContext` during one node run. -/
structure CtxState where
  outputs : List (Option SlotValue)
  run_sub_graphs : List RunSubGraphReq

/-- Execute a node's context operations in order, with `?`-style
short-circuiting, wrapping slot errors as `NodeRunError`s. -/
def execCmds (g : RenderGraph) (node : NodeState) :
    List NodeCmd → CtxState → Except NodeRunError CtxState
  | [], st => .ok st
  | .setOutput label v :: cs, st =>
    match set_output node.output_slots st.outputs label v with
    | .error e => .error (.outputSlotError e)
    | .ok outs => execCmds g node cs { st with outputs := outs }
  | .runSubGraph name ins view :: cs, st =>
    match ctx_run_sub_graph g st.run_sub_graphs name ins view with
    | .error e => .error (.runSubGraphError e)
    | .ok q => execCmds g node cs { st with run_sub_graphs := q }

/-- A `Behavior` assigns to every node (the `dyn Node` dispatch) the context
operations its `run` performs, as a function of its positional inputs. -/
abbrev Behavior := NodeId → List SlotValue → List NodeCmd

/-- `RenderGraphRunnerError` from `runner.rs`. -/
inductive RenderGraphRunnerError where
  | nodeRunError (e : NodeRunError)
  | emptyNodeOutputSlot (type_name : String) (slot_index : Nat) (slot_name : String)
  | missingInput (slot_index : Nat) (slot_name : String) (graph_name : Option String)
  | mismatchedInputSlotType (slot_index : Nat) (label : SlotLabel)
      (expected : SlotType) (actual : SlotType)
  | mismatchedInputCount (node_name : Option String) (slot_count : Nat) (value_count : Nat)
  | submissionError
deriving DecidableEq, Repr

/-- `VecDeque::push_front`, as used by `run_graph`'s work list. The head of
the list is the front of the deque. -/
def dequePushFront (x : α) (q : List α) : List α := x :: q

/-- `VecDeque::pop_back`, as used by `run_graph`'s work list. -/
def dequePopBack (q : List α) : Option (α × List α) :=
  match q.getLast? with
  | none => none
  | some x => some (x, q.dropLast)

/-- Generic association-list lookup, modelling `HashMap::get`. -/
def assocLookup (l : List (Nat × β)) (k : Nat) : Option β :=
  (l.find? (fun p => decide (p.1 = k))).map (·.2)

/-- Generic association-list insert, modelling `HashMap::insert`. -/
def assocInsert (l : List (Nat × β)) (k : Nat) (v : β) : List (Nat × β) :=
  if l.any (fun p => decide (p.1 = k)) then
    l.map (fun p => if p.1 = k then (k, v) else p)
  else l ++ [(k, v)]

/-- Outcome of `run_graph`'s dependency check for one node (the loop over
`iter_node_inputs`): all dependencies ready with the gathered
`(input_index, value)` pairs, or not yet satisfied, or an indexing/lookup
panic. -/
inductive GatherResult where
  | ready (pairs : List (Nat × SlotValue))
  | blocked
  | panicked

/-- `run_graph`'s dependency check: a slot edge needs the producer's
recorded outputs (indexed by `output_index`), a node edge only needs the
producer to have run. The producer state lookup models
`get_node_state(..).unwrap()` in `iter_node_inputs`. -/
def gatherInputs (g : RenderGraph) (node_outputs : List (NodeId × List SlotValue)) :
    List Edge → GatherResult
  | [] => .ready []
  | e :: es =>
    match g.get_node_state? e.get_output_node with
    | none => .panicked
    | some _ =>
      match e with
      | .slotEdge _ input_index output_node output_index =>
        match assocLookup node_outputs output_node with
        | some outs =>
          match outs[output_index]? with
          | none => .panicked
          | some v =>
            match gatherInputs g node_outputs es with
            | .ready pairs => .ready ((input_index, v) :: pairs)
            | r => r
        | none => .blocked
      | .nodeEdge _ output_node =>
        match assocLookup node_outputs output_node with
        | some _ => gatherInputs g node_outputs es
        | none => .blocked

/-- Insert into a list sorted by first component, after all entries with a
key less than or equal (so that repeated insertion is a stable sort,
matching `sort_by_key`). -/
def insSorted (x : Nat × SlotValue) :
    List (Nat × SlotValue) → List (Nat × SlotValue)
  | [] => [x]
  | y :: ys => if y.1 ≤ x.1 then y :: insSorted x ys else x :: y :: ys

/-- `slot_indices_and_inputs.sort_by_key(|(index, _)| *index)` (stable). -/
def sortByKey (l : List (Nat × SlotValue)) : List (Nat × SlotValue) :=
  l.foldl (fun acc x => insSorted x acc) []

/-- The output-collection loop of `run_graph`: all slots set, or the index
of the first unset slot. -/
def collectOutputs : List (Option SlotValue) → Except Nat (List SlotValue)
  | [] => .ok []
  | none :: _ => .error 0
  | some v :: rest =>
    match collectOutputs rest with
    | .ok vs => .ok (v :: vs)
    | .error i => .error (i + 1)

/-- Enqueue (push_front) the consumer of every given output edge, in order;
`none` models the `get_node_state(..).unwrap()` panic in
`iter_node_outputs`. -/
def enqueueConsumers (g : RenderGraph) :
    List Edge → List NodeId → Option (List NodeId)
  | [], q => some q
  | e :: es, q =>
    match g.get_node_state? e.get_input_node with
    | none => none
    | some st => enqueueConsumers g es (dequePushFront st.id q)

/-- The validation loop over the input node's slots in `run_graph`
(enumerate slots, check `inputs.get(i)`, build `input_values`). -/
def runnerCheckInputs (graph_name : Option String) :
    List SlotInfo → List SlotValue → Nat → Except RenderGraphRunnerError (List SlotValue)
  | [], _, _ => .ok []
  | slot :: slots, inputs, i =>
    match inputs[i]? with
    | some v =>
      if slot.slot_type ≠ v.slot_type then
        .error (.mismatchedInputSlotType i (.name slot.name) slot.slot_type v.slot_type)
      else
        match runnerCheckInputs graph_name slots inputs (i + 1) with
        | .ok vs => .ok (v :: vs)
        | .error e => .error e
    | none => .error (.missingInput i slot.name graph_name)

/-- Result of (the embedding of) `RenderGraphRunner::run_graph`. `ok`
carries the final `node_outputs` map and the order in which nodes were
recorded into it (the input node's identity pass-through included); `err`
and `panicked` carry the nodes recorded before the abort; `outOfFuel` means
the fuel bound was hit (the source loops without any bound). -/
inductive RunResult where
  | ok (node_outputs : List (NodeId × List SlotValue)) (trace : List NodeId)
  | err (e : RenderGraphRunnerError) (trace : List NodeId)
  | panicked (trace : List NodeId)
  | outOfFuel
deriving Repr

mutual

/-- The `'handle_node` work-list loop of `run_graph`. One unit of fuel is
spent per iteration. -/
def runLoop (behave : Behavior) (fuel : Nat) (g : RenderGraph)
    (node_outputs : List (NodeId × List SlotValue)) (queue : List NodeId)
    (trace : List NodeId) : RunResult :=
  match fuel with
  | 0 => .outOfFuel
  | fuel' + 1 =>
    match dequePopBack queue with
    | none => .ok node_outputs trace
    | some (nid, rest) =>
      if (assocLookup node_outputs nid).isSome then
        runLoop behave fuel' g node_outputs rest trace
      else
        match g.get_node_state? nid with
        | none => .panicked trace
        | some node_state =>
          match gatherInputs g node_outputs node_state.edges.input_edges with
          | .panicked => .panicked trace
          | .blocked => runLoop behave fuel' g node_outputs (dequePushFront nid rest) trace
          | .ready pairs =>
            let inputs := (sortByKey pairs).map (·.2)
            if inputs.length ≠ node_state.input_slots.length then
              .err (.mismatchedInputCount node_state.name
                node_state.input_slots.length inputs.length) trace
            else
              match execCmds g node_state (behave nid inputs)
                  ⟨List.replicate node_state.output_slots.length none, []⟩ with
              | .error e => .err (.nodeRunError e) trace
              | .ok ctxSt =>
                match runSubs behave fuel' g ctxSt.run_sub_graphs with
                | some (.err e _) => .err e trace
                | some (.panicked _) => .panicked trace
                | some .outOfFuel => .outOfFuel
                | some (.ok o t) => .ok o t
                | none =>
                  match collectOutputs ctxSt.outputs with
                  | .error i =>
                    match get_slot node_state.output_slots (.index i) with
                    | none => .panicked trace
                    | some slotInfo =>
                      .err (.emptyNodeOutputSlot node_state.type_name i slotInfo.name) trace
                  | .ok values =>
                    let node_outputs' := assocInsert node_outputs nid values
                    let trace' := trace ++ [nid]
                    match enqueueConsumers g node_state.edges.output_edges rest with
                    | none => .panicked trace'
                    | some queue' => runLoop behave fuel' g node_outputs' queue' trace'

/-- The `for run_sub_graph in context.finish()` loop: run each queued
sub-graph recursively, aborting on the first failure (`none` = all
succeeded; successful inner outputs are local to the inner call and
discarded, as in the source). The missing-sub-graph case models the
`expect` (the request was validated when queued, but the expectation is the
source's, not the model's). -/
def runSubs (behave : Behavior) (fuel : Nat) (g : RenderGraph) :
    List RunSubGraphReq → Option RunResult
  | [] => none
  | req :: reqs =>
    match fuel with
    | 0 => some .outOfFuel
    | fuel' + 1 =>
      match g.get_sub_graph req.name with
      | none => some (.panicked [])
      | some sub =>
        match run_graph behave fuel' sub (some req.name) req.inputs req.view_entity with
        | .ok _ _ => runSubs behave fuel' g reqs
        | r => some r

/-- `RenderGraphRunner::run_graph`: seed the work list with nodes that have
no input slots, validate `inputs` against the input node's schema and record
its outputs as an identity pass-through, then run the work-list loop. -/
def run_graph (behave : Behavior) (fuel : Nat) (g : RenderGraph)
    (graph_name : Option String) (inputs : List SlotValue)
    (_view_entity : Option Nat) : RunResult :=
  match fuel with
  | 0 => .outOfFuel
  | fuel' + 1 =>
    let queue0 := (g.nodes.filter (fun n => n.input_slots.isEmpty)).map (·.id)
    match g.get_input_node with
    | none => runLoop behave fuel' g [] queue0 []
    | some input_node =>
      match runnerCheckInputs graph_name input_node.input_slots inputs 0 with
      | .error e => .err e []
      | .ok input_values =>
        let outs0 := assocInsert ([] : List (NodeId × List SlotValue)) input_node.id input_values
        match enqueueConsumers g input_node.edges.output_edges queue0 with
        | none => .panicked [input_node.id]
        | some queue1 => runLoop behave fuel' g outs0 queue1 [input_node.id]

end

/-- The result code enum of the underlying Vulkan present call, as seen at
this module's boundary (`ash` maps present success/failure to
`Result<bool, vk::Result>`; error codes other than the two soft ones are
collapsed into `other`). -/
inductive VkError where
  | errorOutOfDateKhr
  | suboptimalKhr
  | other (code : Int)
deriving DecidableEq, Repr

/-- `Swapchain::queue_present` from `swapchain.rs`, as a function of the
underlying present call's result: out-of-date and suboptimal are turned
into `Ok(false)`, any other failure propagates. -/
def queue_present (present_result : Except VkError Bool) : Except VkError Bool :=
  match present_result with
  | .ok result => .ok result
  | .error err =>
    if err = .errorOutOfDateKhr ∨ err = .suboptimalKhr then .ok false
    else .error err

/-- The parts of `Swapchain` state that `resize` touches. Vulkan objects
(images, semaphores) are opaque ids; `next_object_id` is the allocator for
freshly created objects. -/
structure Swapchain where
  images : List Nat
  acquire_semaphores : List Nat
  current_semaphores_index : Nat
  next_object_id : Nat
deriving DecidableEq, Repr

/-- `Swapchain::resize` (lines 160-235 of `swapchain.rs`), restricted to the
modelled state: the image list is replaced by the freshly created swapchain
images (supplied by the driver), the acquire-semaphore ring is rebuilt
unconditionally with one freshly created `Semaphore` per image, and the ring
index is reset to 0. -/
def Swapchain.resize (s : Swapchain) (new_images : List Nat) : Swapchain :=
  { images := new_images,
    acquire_semaphores :=
      (List.range new_images.length).map (fun i => s.next_object_id + i),
    current_semaphores_index := 0,
    next_object_id := s.next_object_id + new_images.length }

/-- `usize` wrap-around modulus. -/
def USIZE_MOD : Nat := 2 ^ 64

/-- The `static mut COUNTER: usize` inside `FrameContext::new`. -/
structure FrameCounter where
  counter : Nat
deriving DecidableEq, Repr

/-- The frame-counter logic of `FrameContext::new` (`extract/frame.rs` lines
25-50): the source computes `COUNTER.wrapping_add(1)` into the local
`current_frame` but never stores anything back into `COUNTER`, so the
returned state is the input state unchanged. Returns (static state after
the call, the new context's `current_frame`). -/
def frameContextNew (s : FrameCounter) : FrameCounter × Nat :=
  (s, (s.counter + 1) % USIZE_MOD)

/-- `FrameContext::active_command_pool`: `current_frame % INIT_COMMAND_POOL_NUM`.
The constant `INIT_COMMAND_POOL_NUM` is declared in this crate but its
definition is not part of the sources here; per the spec it is the fixed
pool count N chosen at startup, so it is a parameter. -/
def active_command_pool_index (current_frame : Nat) (pool_num : Nat) : Nat :=
  current_frame % pool_num

/-! Specification-side definitions used to state the properties. -/

/-- Push a whole list onto the front of the work-list deque, first element
first (the order in which `run_graph` pushes a node's consumers). -/
def dequePushAll (xs : List α) (q : List α) : List α :=
  xs.foldl (fun acc x => dequePushFront x acc) q

/-- Every edge recorded in a node's edge lists names that node on the
matching side, and whenever the opposite endpoint exists in the graph, the
edge is mirrored in that node's opposite list. (The mirror is conditional
on existence: `try_add_node_edge` can leave an edge whose input node id
does not name any node — see `validate_edge`, which checks nothing for node
edges — and node ids are never reused, so such a dangling endpoint never
comes back into existence.) -/
def EdgesWellPlaced (g : RenderGraph) : Prop :=
  ∀ n ∈ g.nodes,
    (∀ e ∈ n.edges.input_edges, e.get_input_node = n.id ∧
      ∀ m ∈ g.nodes, m.id = e.get_output_node → e ∈ m.edges.output_edges) ∧
    (∀ e ∈ n.edges.output_edges, e.get_output_node = n.id ∧
      ∀ m ∈ g.nodes, m.id = e.get_input_node → e ∈ m.edges.input_edges)

instance (g : RenderGraph) : Decidable (EdgesWellPlaced g) := by
  unfold EdgesWellPlaced
  infer_instance

/-- Structural well-formedness of a graph's bookkeeping: distinct node ids,
duplicate-free edge lists, and symmetric well-placed edges. -/
def GraphWF (g : RenderGraph) : Prop :=
  (g.nodes.map (·.id)).Nodup ∧
  (∀ n ∈ g.nodes, n.edges.input_edges.Nodup ∧ n.edges.output_edges.Nodup) ∧
  EdgesWellPlaced g

instance (g : RenderGraph) : Decidable (GraphWF g) := by
  unfold GraphWF
  infer_instance

/-- Every edge endpoint referenced in the graph names an existing node (the
situation before any dangling node edge has been created). -/
def ProducersPresent (g : RenderGraph) : Prop :=
  ∀ n ∈ g.nodes,
    (∀ e ∈ n.edges.input_edges, ∃ m ∈ g.nodes, m.id = e.get_output_node) ∧
    (∀ e ∈ n.edges.output_edges, ∃ m ∈ g.nodes, m.id = e.get_input_node)

instance (g : RenderGraph) : Decidable (ProducersPresent g) := by
  unfold ProducersPresent
  infer_instance

/-- `id` appears nowhere in the graph: it names no node and no edge
endpoint. `NodeId`s are produced by a process-unique monotonic counter and
never reused, so the id handed to `add_node` satisfies this for every id
the graph has ever seen. -/
def idUnreferenced (g : RenderGraph) (id : NodeId) : Prop :=
  (∀ n ∈ g.nodes, n.id ≠ id) ∧
  (∀ n ∈ g.nodes, ∀ e ∈ n.edges.input_edges ++ n.edges.output_edges,
    e.get_input_node ≠ id ∧ e.get_output_node ≠ id)

instance (g : RenderGraph) (id : NodeId) : Decidable (idUnreferenced g id) := by
  unfold idUnreferenced
  infer_instance

/-- The graphs reachable from the empty graph through the public mutation
operations. `add_node`/`set_input` receive the fresh id produced by the
process-unique atomic `NodeId` counter, hence the freshness premises. -/
inductive Reachable : RenderGraph → Prop where
  | empty : Reachable RenderGraph.empty
  | add_node {g} (id : NodeId) (name type_name : String)
      (input_slots output_slots : List SlotInfo) :
      Reachable g → idUnreferenced g id →
      Reachable (g.add_node id name type_name input_slots output_slots)
  | set_input {g g'} (id : NodeId) (slots : List SlotInfo) :
      Reachable g → idUnreferenced g id →
      g.set_input id slots = some g' → Reachable g'
  | try_add_slot_edge {g} (onl : NodeLabel) (osl : SlotLabel)
      (inl : NodeLabel) (isl : SlotLabel) :
      Reachable g → Reachable (g.try_add_slot_edge onl osl inl isl).1
  | try_add_node_edge {g} (onl inl : NodeLabel) :
      Reachable g → Reachable (g.try_add_node_edge onl inl).1
  | remove_slot_edge {g} (onl : NodeLabel) (osl : SlotLabel)
      (inl : NodeLabel) (isl : SlotLabel) :
      Reachable g → Reachable (g.remove_slot_edge onl osl inl isl).1
  | remove_node_edge {g} (onl inl : NodeLabel) :
      Reachable g → Reachable (g.remove_node_edge onl inl).1
  | remove_node {g} (name : String) :
      Reachable g → Reachable (g.remove_node name).1
  | add_node_edges {g g'} (names : List String) :
      Reachable g → g.add_node_edges names = some g' → Reachable g'

/-- Whether an edge is a slot edge bound to input slot index `i`. -/
def isSlotEdgeAt (i : Nat) : Edge → Bool
  | .slotEdge _ ii _ _ => ii = i
  | .nodeEdge _ _ => false

/-- Whether an edge is a slot edge. -/
def Edge.isSlot : Edge → Bool
  | .slotEdge _ _ _ _ => true
  | .nodeEdge _ _ => false

/-- Whether an edge is a slot edge bound to an input slot index below `k`. -/
def isSlotEdgeBelow (k : Nat) : Edge → Bool
  | .slotEdge _ ii _ _ => ii < k
  | .nodeEdge _ _ => false

/-- Every declared input slot of every node (other than the designated
input node, whose inputs come from the `inputs` argument) is connected by
exactly one slot edge, and no slot edge targets an out-of-range slot. -/
def FullyConnected (g : RenderGraph) : Prop :=
  ∀ n ∈ g.nodes, g.input_node ≠ some n.id →
    (∀ i, i < n.input_slots.length → n.edges.input_edges.countP (isSlotEdgeAt i) = 1) ∧
    (∀ e ∈ n.edges.input_edges, ∀ inn ii onn oi,
      e = Edge.slotEdge inn ii onn oi → ii < n.input_slots.length)

/-- Acyclicity, witnessed by a rank function that strictly decreases along
every dependency edge. -/
def Acyclic (g : RenderGraph) (rk : NodeId → Nat) : Prop :=
  ∀ n ∈ g.nodes, ∀ e ∈ n.edges.input_edges, rk e.get_output_node < rk n.id

instance (g : RenderGraph) (rk : NodeId → Nat) : Decidable (Acyclic g rk) := by
  unfold Acyclic
  infer_instance

/-- Every slot edge reads an in-range output index of its producer. -/
def OutputIndexBounds (g : RenderGraph) : Prop :=
  ∀ n ∈ g.nodes, ∀ e ∈ n.edges.input_edges, ∀ inn ii onn oi,
    e = Edge.slotEdge inn ii onn oi →
    ∀ m ∈ g.nodes, m.id = onn → oi < m.output_slots.length

/-- Every node's `run` succeeds, sets all of its declared output slots, and
queues no sub-graph runs. -/
def GoodBehavior (g : RenderGraph) (behave : Behavior) : Prop :=
  ∀ n ∈ g.nodes, ∀ inputs, ∃ outs,
    execCmds g n (behave n.id inputs)
      ⟨List.replicate n.output_slots.length none, []⟩ = .ok ⟨outs, []⟩ ∧
    ∀ o ∈ outs, o.isSome

/-- If the graph has an input node, the supplied inputs match its schema
positionally, and (as holds for the `GraphInputNode` created by
`set_input`) its output schema is no longer than its input schema. -/
def InputsValid (g : RenderGraph) (inputs : List SlotValue) : Prop :=
  ∀ iid, g.input_node = some iid →
    ∃ st, g.get_node_state? iid = some st ∧
      st.output_slots.length ≤ st.input_slots.length ∧
      ∀ (i : Nat) (si : SlotInfo), st.input_slots[i]? = some si →
        ∃ v : SlotValue, inputs[i]? = some v ∧ v.slot_type = si.slot_type

/-- Whether a node id has been recorded in `node_outputs`. -/
def isExecuted (outs : List (NodeId × List SlotValue)) (id : NodeId) : Bool :=
  (assocLookup outs id).isSome

/-- A queued node is ready: not yet executed, and every node it depends on
through an input edge has been executed. -/
def nodeReady (g : RenderGraph) (outs : List (NodeId × List SlotValue))
    (id : NodeId) : Bool :=
  !(isExecuted outs id) &&
    match g.get_node_state? id with
    | some st => st.edges.input_edges.all (fun e => isExecuted outs e.get_output_node)
    | none => false

/-- Total number of output edges recorded in the graph. -/
def edgeTotal (g : RenderGraph) : Nat :=
  (g.nodes.map (fun n => n.edges.output_edges.length)).sum

/-- Termination measure for the work-list loop. -/
def loopMeasure (g : RenderGraph) (outs : List (NodeId × List SlotValue))
    (queue : List NodeId) : Nat :=
  let U := (g.nodes.filter (fun n => !(isExecuted outs n.id))).length
  let B := g.nodes.length + edgeTotal g
  if U = 0 then queue.length
  else (B + 1) + U * (B + 1) + (queue.reverse).findIdx (nodeReady g outs)

/-- Loop invariant for `runLoop` under the claim-C1 hypotheses: the trace
mirrors the `node_outputs` insertion order without duplicates, recorded
outputs belong to graph nodes and are long enough to be indexed, queued ids
are graph nodes, every unexecuted node is queued or blocked on an
unexecuted producer, and the queue length is bounded. -/
def LoopInv (g : RenderGraph) (outs : List (NodeId × List SlotValue))
    (queue : List NodeId) (trace : List NodeId) : Prop :=
  outs.map (·.1) = trace ∧
  trace.Nodup ∧
  (∀ p ∈ outs, ∃ n ∈ g.nodes, n.id = p.1 ∧ n.output_slots.length ≤ p.2.length) ∧
  (∀ id ∈ queue, ∃ n ∈ g.nodes, n.id = id) ∧
  (∀ n ∈ g.nodes, ¬ isExecuted outs n.id →
    n.id ∈ queue ∨ ∃ e ∈ n.edges.input_edges, ¬ isExecuted outs e.get_output_node) ∧
  (queue.length +
    ((g.nodes.filter (fun n => !(isExecuted outs n.id))).map
      (fun n => n.edges.output_edges.length)).sum ≤ g.nodes.length + edgeTotal g) ∧
  (∀ iid, g.input_node = some iid →
    isExecuted outs iid ∨ ∀ n ∈ g.nodes, n.id ≠ iid)

/-! Concrete graphs used to instantiate the theorems. -/

/-- A producer node `A` (no inputs, one `Buffer` output) and a consumer
node `B` (one `Buffer` input, one `ImageView` output). -/
def twoNodeGraph : RenderGraph :=
  (RenderGraph.empty.add_node 0 "A" "ANode" [] [⟨"b", .buffer⟩]).add_node 1 "B" "BNode"
    [⟨"b", .buffer⟩] [⟨"v", .imageView⟩]

/-- `twoNodeGraph` with the slot edge `A.b -> B.b` added. -/
def twoNodeGraphConnected : RenderGraph :=
  (twoNodeGraph.try_add_slot_edge (.name "A") (.name "b") (.name "B") (.name "b")).1

/-- `twoNodeGraphConnected` with a second producer `C` (one `Buffer`
output). -/
def threeNodeGraph : RenderGraph :=
  twoNodeGraphConnected.add_node 2 "C" "CNode" [] [⟨"c", .buffer⟩]

/-- A graph consisting only of an input node with schema `[Buffer]`. -/
def inputOnlyGraph : RenderGraph :=
  (RenderGraph.empty.set_input 5 [⟨"in0", .buffer⟩]).getD RenderGraph.empty

/-- A behaviour for `twoNodeGraphConnected`: `A` outputs a buffer, `B`
outputs an image view. -/
def twoNodeBehavior : Behavior := fun id _ =>
  if id = 0 then [.setOutput (.name "b") (.buffer 42)]
  else [.setOutput (.name "v") (.imageView 7)]

/-- Like `twoNodeGraph` but `A.b` is a `Sampler` while `B.b` expects a
`Buffer`, so connecting them is a type mismatch. -/
def mismatchedTypesGraph : RenderGraph :=
  (RenderGraph.empty.add_node 0 "A" "ANode" [] [⟨"b", .sampler⟩]).add_node 1 "B" "BNode"
    [⟨"b", .buffer⟩] [⟨"v", .imageView⟩]

/-- The producer node of `twoNodeGraphConnected` (the value of
`get_node_state? 0` after the connect). -/
def connectedNodeA : NodeState :=
  { id := 0, name := some "A", type_name := "ANode", input_slots := [],
    output_slots := [⟨"b", .buffer⟩],
    edges := { id := 0, input_edges := [], output_edges := [.slotEdge 1 0 0 0] } }

/-- The consumer node of `twoNodeGraphConnected` (the value of
`get_node_state? 1` after the connect). -/
def connectedNodeB : NodeState :=
  { id := 1, name := some "B", type_name := "BNode",
    input_slots := [⟨"b", .buffer⟩], output_slots := [⟨"v", .imageView⟩],
    edges := { id := 1, input_edges := [.slotEdge 1 0 0 0], output_edges := [] } }

/-- A single no-slot node `A` with a dangling node edge left behind by
`try_add_node_edge`'s partial-mutation error path: the edge names the
nonexistent consumer id 99. -/
def danglingGraph : RenderGraph :=
  ((RenderGraph.empty.add_node 0 "A" "ANode" [] []).try_add_node_edge
    (.id 0) (.id 99)).1

/-! ## Claim theorems -/

/-- The sub-graph pass over an empty request list does nothing, whatever
the remaining fuel. -/
theorem runSubs_nil (behave : Behavior) (g : RenderGraph) :
    ∀ fuel, runSubs behave fuel g [] = none := by
  intro fuel
  cases fuel <;> rfl

/-- Claim C9: `Swapchain::queue_present` maps the two soft failure codes of
the underlying present call — surface out of date and suboptimal — to the
non-error boolean value `Ok(false)` and never propagates them as errors,
while every other present failure is returned through the `Err`
constructor, which is distinguishable in type from the boolean result. -/
theorem c9_queue_present_soft_vs_hard (e : VkError) :
    ((e = .errorOutOfDateKhr ∨ e = .suboptimalKhr) →
      queue_present (.error e) = .ok false) ∧
    ((e ≠ .errorOutOfDateKhr ∧ e ≠ .suboptimalKhr) →
      queue_present (.error e) = .error e) := by
  constructor
  · intro h
    simp [queue_present, h]
  · rintro ⟨h1, h2⟩
    simp [queue_present, h1, h2]

/-- Witness for C9 at the three concrete result codes. -/
theorem c9_queue_present_soft_vs_hard_witness :
    queue_present (.error .errorOutOfDateKhr) = .ok false ∧
    queue_present (.error .suboptimalKhr) = .ok false ∧
    queue_present (.error (.other 5)) = .error (.other 5) :=
  ⟨(c9_queue_present_soft_vs_hard .errorOutOfDateKhr).1 (Or.inl rfl),
   (c9_queue_present_soft_vs_hard .suboptimalKhr).1 (Or.inr rfl),
   (c9_queue_present_soft_vs_hard (.other 5)).2 (by decide)⟩

/-- Claim C7, evaluated against the code: `FrameContext::new` computes
`COUNTER.wrapping_add(1)` into the local `current_frame` but never stores
it back, so the static counter is never incremented: after any call the
counter state is unchanged, two consecutive frames starting from the
initial counter 0 both observe `current_frame = 1`, and they select the
same command pool index for every pool count — contradicting the claimed
increment-by-one and successive-pool behaviour. -/
theorem c7_frame_counter_never_advances :
    (∀ s : FrameCounter, (frameContextNew s).1 = s) ∧
    (frameContextNew ⟨0⟩).2 = 1 ∧
    (frameContextNew (frameContextNew ⟨0⟩).1).2 = 1 ∧
    (∀ pool_num : Nat,
      active_command_pool_index (frameContextNew ⟨0⟩).2 pool_num =
        active_command_pool_index (frameContextNew (frameContextNew ⟨0⟩).1).2 pool_num) :=
  ⟨fun _ => rfl, rfl, rfl, fun _ => rfl⟩

/-- Claim C6, evaluated against the code: on a node declaring output slot
`out` of type `Buffer`, `set_output("out", Sampler(7))` fails, but the
error's `expected` field holds the supplied value's type (`Sampler`) and
its `actual` field holds the declared slot type (`Buffer`) — exactly
swapped relative to the claim. The other parts of the claim hold: the slot
stays unset (the error is returned before the write), and on a type match
the value is stored, a second write overwriting the first. -/
theorem c6_set_output_swapped_fields :
    set_output [⟨"out", .buffer⟩] [none] (.name "out") (.sampler 7) =
      .error (.mismatchedSlotType (.name "out") SlotType.sampler SlotType.buffer) ∧
    (Except.error (.mismatchedSlotType (.name "out") SlotType.sampler SlotType.buffer) ≠
      (.error (.mismatchedSlotType (.name "out") SlotType.buffer SlotType.sampler) :
        Except OutputSlotError (List (Option SlotValue)))) ∧
    set_output [⟨"out", .buffer⟩] [some (.buffer 1)] (.name "out") (.buffer 2) =
      .ok [some (.buffer 2)] := by
  refine ⟨rfl, ?_, rfl⟩
  simp

/-- Claim C8 counterexample: a swapchain with two images and acquire
semaphores `[10, 11]` is resized so that the new image count equals the old
one; the claim says the semaphore ring must then consist of the very same
objects, but `resize` regenerates it unconditionally with fresh
semaphores. -/
theorem c8_resize_counterexample :
    (Swapchain.resize ⟨[0, 1], [10, 11], 0, 12⟩ [2, 3]).images.length =
      (Swapchain.mk [0, 1] [10, 11] 0 12).images.length ∧
    (Swapchain.resize ⟨[0, 1], [10, 11], 0, 12⟩ [2, 3]).acquire_semaphores ≠
      (Swapchain.mk [0, 1] [10, 11] 0 12).acquire_semaphores := by
  constructor
  · rfl
  · decide

/-- Claim C8 as amended: after every successful `resize` the acquire-
semaphore ring is regenerated unconditionally — its length equals the new
image count, the ring index is reset to 0, and (since each `Semaphore::new`
creates a fresh object) none of the new ring's semaphores is an object of
the old ring — whether or not the image count changed. -/
theorem c8_resize_regenerates_ring (s : Swapchain) (new_images : List Nat)
    (hfresh : ∀ x ∈ s.acquire_semaphores, x < s.next_object_id) :
    (s.resize new_images).acquire_semaphores.length = new_images.length ∧
    (s.resize new_images).current_semaphores_index = 0 ∧
    ∀ x ∈ (s.resize new_images).acquire_semaphores, x ∉ s.acquire_semaphores := by
  refine ⟨by simp [Swapchain.resize], rfl, ?_⟩
  intro x hx hmem
  simp only [Swapchain.resize, List.mem_map, List.mem_range] at hx
  obtain ⟨i, _, rfl⟩ := hx
  exact absurd (hfresh _ hmem) (by omega)

/-- Witness for C8's amended theorem at a concrete swapchain. -/
theorem c8_resize_regenerates_ring_witness :
    (Swapchain.resize ⟨[0, 1], [10, 11], 0, 12⟩ [2, 3]).acquire_semaphores.length =
      ([2, 3] : List Nat).length ∧
    (Swapchain.resize ⟨[0, 1], [10, 11], 0, 12⟩ [2, 3]).current_semaphores_index = 0 ∧
    ∀ x ∈ (Swapchain.resize ⟨[0, 1], [10, 11], 0, 12⟩ [2, 3]).acquire_semaphores,
      x ∉ (Swapchain.mk [0, 1] [10, 11] 0 12).acquire_semaphores :=
  c8_resize_regenerates_ring ⟨[0, 1], [10, 11], 0, 12⟩ [2, 3] (by decide)

/-- Claim C2 counterexample: the work list is a `VecDeque` written with
`push_front` and read with `pop_back`. Pushing 3 onto a deque already
holding 7 and then popping retrieves 7, the element pushed first — not 3,
the element pushed last as the claim states. -/
theorem c2_pop_is_not_most_recent :
    dequePopBack (dequePushFront 3 (dequePushFront 7 ([] : List Nat))) =
      some (7, [3]) ∧
    dequePopBack (dequePushFront 3 (dequePushFront 7 ([] : List Nat))) ≠
      some (3, dequePushFront 7 []) := by
  constructor
  · rfl
  · decide

/-- Claim C2 as amended: the `push_front`/`pop_back` discipline of
`run_graph`'s work list is first-in-first-out — the pop always retrieves
the least-recently-added element: after pushing `x :: xs` in order onto an
empty deque, the first pop retrieves `x`, leaving the deque that pushing
only `xs` would have produced. The traversal is therefore
breadth-first-leaning, not depth-first-leaning. -/
theorem c2_pop_back_is_fifo (x : NodeId) (xs : List NodeId) :
    dequePopBack (dequePushAll (x :: xs) []) = some (x, dequePushAll xs []) := by
  have hpush : ∀ (ys : List NodeId) (q : List NodeId),
      dequePushAll ys q = ys.reverse ++ q := by
    intro ys
    induction ys with
    | nil => intro q; simp [dequePushAll]
    | cons y ys ih =>
      intro q
      simp only [dequePushAll, List.foldl_cons] at *
      rw [ih (dequePushFront y q)]
      simp [dequePushFront]
  rw [hpush (x :: xs) [], hpush xs []]
  simp only [List.reverse_cons, List.append_nil, List.append_assoc]
  simp [dequePopBack]

/-- If the supplied inputs run out before the slot schema does (and the
supplied prefix is well-typed), the runner's input-validation loop fails
with `MissingInput` naming the first missing slot and the graph. -/
theorem runnerCheckInputs_too_few (gname : Option String) (slots : List SlotInfo)
    (inputs : List SlotValue) (i : Nat) (sk : SlotInfo)
    (hle : i ≤ inputs.length)
    (hlt : inputs.length < i + slots.length)
    (hty : ∀ (k : Nat) (s : SlotInfo) (v : SlotValue),
      slots[k]? = some s → inputs[i + k]? = some v → v.slot_type = s.slot_type)
    (hsk : slots[inputs.length - i]? = some sk) :
    runnerCheckInputs gname slots inputs i =
      .error (.missingInput inputs.length sk.name gname) := by
  induction slots generalizing i with
  | nil => simp at hlt; omega
  | cons s rest ih =>
    by_cases hi : i < inputs.length
    · have hv : inputs[i]? = some inputs[i] := List.getElem?_eq_getElem hi
      have htyv : inputs[i].slot_type = s.slot_type := by
        refine hty 0 s inputs[i] (by simp) ?_
        simpa using hv
      have hsub : inputs.length - i = (inputs.length - (i + 1)) + 1 := by omega
      rw [hsub] at hsk
      simp only [List.getElem?_cons_succ] at hsk
      have hrec := ih (i + 1) (by omega) (by simp at hlt ⊢; omega)
        (fun k sl v hs hv' => hty (k + 1) sl v (by simpa using hs)
          (by rw [show i + 1 + k = i + (k + 1) by omega] at hv'; exact hv')) hsk
      simp only [runnerCheckInputs, hv]
      rw [if_neg (by simp [htyv])]
      rw [hrec]
    · have hieq : i = inputs.length := by omega
      subst hieq
      have hv : inputs[inputs.length]? = none := List.getElem?_eq_none (by omega)
      have hsk0 : s = sk := by simpa using hsk
      subst hsk0
      simp only [runnerCheckInputs, hv]

/-- The same fact for the validation loop of
`RenderGraphContext::run_sub_graph`. -/
theorem checkSubInputs_too_few (gname : String) (slots : List SlotInfo)
    (inputs : List SlotValue) (i : Nat) (sk : SlotInfo)
    (hle : i ≤ inputs.length)
    (hlt : inputs.length < i + slots.length)
    (hty : ∀ (k : Nat) (s : SlotInfo) (v : SlotValue),
      slots[k]? = some s → inputs[i + k]? = some v → v.slot_type = s.slot_type)
    (hsk : slots[inputs.length - i]? = some sk) :
    checkSubInputs gname slots inputs i =
      some (.missingInput inputs.length sk.name gname) := by
  induction slots generalizing i with
  | nil => simp at hlt; omega
  | cons s rest ih =>
    by_cases hi : i < inputs.length
    · have hv : inputs[i]? = some inputs[i] := List.getElem?_eq_getElem hi
      have htyv : inputs[i].slot_type = s.slot_type := by
        refine hty 0 s inputs[i] (by simp) ?_
        simpa using hv
      have hsub : inputs.length - i = (inputs.length - (i + 1)) + 1 := by omega
      rw [hsub] at hsk
      simp only [List.getElem?_cons_succ] at hsk
      have hrec := ih (i + 1) (by omega) (by simp at hlt ⊢; omega)
        (fun k sl v hs hv' => hty (k + 1) sl v (by simpa using hs)
          (by rw [show i + 1 + k = i + (k + 1) by omega] at hv'; exact hv')) hsk
      simp only [checkSubInputs, hv]
      rw [if_neg (by simp [htyv])]
      exact hrec
    · have hieq : i = inputs.length := by omega
      subst hieq
      have hv : inputs[inputs.length]? = none := List.getElem?_eq_none (by omega)
      have hsk0 : s = sk := by simpa using hsk
      subst hsk0
      simp only [checkSubInputs, hv]

/-- A resolved slot index is in range. -/
theorem get_slot_index_lt {slots : List SlotInfo} {l : SlotLabel} {i : Nat}
    (h : get_slot_index slots l = some i) : i < slots.length := by
  cases l with
  | index j =>
    simp only [get_slot_index] at h
    split at h
    · cases h; assumption
    · cases h
  | name n =>
    simp only [get_slot_index] at h
    exact (List.findIdx?_eq_some_iff_findIdx_eq.mp h).1

/-- `get_slot` at an in-range positional index. -/
theorem get_slot_of_lt {slots : List SlotInfo} {j : Nat} (h : j < slots.length) :
    get_slot slots (.index j) = some slots[j] := by
  simp [get_slot, get_slot_index, h]

/-- A node found in the node map carries the id it was looked up by. -/
theorem get_node_state?_id {g : RenderGraph} {x : NodeId} {st : NodeState}
    (h : g.get_node_state? x = some st) : st.id = x := by
  have := List.find?_some h
  simpa using this

/-- `get_node_state` with an id label succeeds exactly on map membership. -/
theorem get_node_state_id {g : RenderGraph} {x : NodeId} {st : NodeState}
    (h : g.get_node_state? x = some st) : g.get_node_state (.id x) = .ok st := by
  simp [RenderGraph.get_node_state, RenderGraph.get_node_id, h]

/-- Node lookup after `modifyNode`, for id-preserving updates. -/
theorem modifyNode_get_node_state? (g : RenderGraph) (id : NodeId)
    (f : NodeState → NodeState) (hf : ∀ n, (f n).id = n.id) (k : NodeId) :
    (g.modifyNode id f).get_node_state? k =
      (g.get_node_state? k).map (fun n => if n.id = id then f n else n) := by
  cases g with
  | mk ns nm sg inp =>
  simp only [RenderGraph.modifyNode, RenderGraph.get_node_state?, RenderGraph.setNodes,
    RenderGraph.nodes]
  induction ns with
  | nil => rfl
  | cons n ns ih =>
    by_cases hid : n.id = id
    · by_cases hk : n.id = k
      · simp [List.find?_cons, hid, hk, hf, hid.symm.trans hk]
      · simp [List.find?_cons, hid, hk, hf, ih,
          show id ≠ k from fun h => hk (hid.trans h)]
    · by_cases hk : n.id = k
      · simp [List.find?_cons, hid, hk, show k ≠ id from fun h => hid (hk.trans h)]
      · simp [List.find?_cons, hid, hk, ih]

/-- `find?` returns the unique element satisfying the predicate. -/
theorem find?_eq_of_mem_of_unique {p : α → Bool} {l : List α} {a : α}
    (hmem : a ∈ l) (hp : p a = true) (huniq : ∀ b ∈ l, p b = true → b = a) :
    l.find? p = some a := by
  induction l with
  | nil => cases hmem
  | cons x xs ih =>
    by_cases hx : p x = true
    · rw [List.find?_cons_of_pos _ hx]
      exact congrArg some (huniq x (List.mem_cons_self x xs) hx)
    · rw [List.find?_cons_of_neg _ hx]
      rcases List.mem_cons.mp hmem with rfl | hmem'
      · exact absurd hp hx
      · exact ih hmem' (fun b hb hpb => huniq b (List.mem_cons_of_mem _ hb) hpb)

/-- Claim C5 counterexample: the claim says a length mismatch with too MANY
supplied values also fails, but the validation loops only check
`inputs.get(i)` for the declared slots — extra values are silently ignored.
Against a graph whose input node declares one `Buffer` slot, `run_graph`
with two supplied values succeeds, records only the first value, and runs
the graph. -/
theorem c5_too_many_inputs_accepted :
    (∃ st, inputOnlyGraph.get_input_node = some st ∧ st.input_slots.length = 1) ∧
    run_graph (fun _ _ => []) 2 inputOnlyGraph none
        [.buffer 1, .buffer 2] none = .ok [(5, [.buffer 1])] [5] :=
  ⟨⟨_, rfl, rfl⟩, rfl⟩

/-- Claim C5 as amended: whenever the supplied inputs are FEWER than the
input node's declared slots (with the supplied prefix well-typed), both
paths fail before any node of the target graph executes: `run_graph`
returns `MissingInput` naming the first missing slot and the graph with an
empty execution trace, and `run_sub_graph` returns `MissingInput` naming
slot and sub-graph without queueing the request. Supplying MORE values
than declared slots is not an error: the extras are ignored. -/
theorem c5_too_few_inputs_fail_early :
    (∀ (behave : Behavior) (fuel : Nat) (g : RenderGraph) (gname : Option String)
        (inputs : List SlotValue) (view : Option Nat) (ist : NodeState) (sk : SlotInfo),
      g.get_input_node = some ist →
      inputs.length < ist.input_slots.length →
      (∀ (k : Nat) (s : SlotInfo) (v : SlotValue),
        ist.input_slots[k]? = some s → inputs[k]? = some v → v.slot_type = s.slot_type) →
      ist.input_slots[inputs.length]? = some sk →
      run_graph behave (fuel + 1) g gname inputs view =
        .err (.missingInput inputs.length sk.name gname) []) ∧
    (∀ (g : RenderGraph) (queue : List RunSubGraphReq) (name : String)
        (inputs : List SlotValue) (view : Option Nat) (sub : RenderGraph)
        (ist : NodeState) (sk : SlotInfo),
      g.get_sub_graph name = some sub →
      sub.get_input_node = some ist →
      inputs.length < ist.input_slots.length →
      (∀ (k : Nat) (s : SlotInfo) (v : SlotValue),
        ist.input_slots[k]? = some s → inputs[k]? = some v → v.slot_type = s.slot_type) →
      ist.input_slots[inputs.length]? = some sk →
      ctx_run_sub_graph g queue name inputs view =
        .error (.missingInput inputs.length sk.name name)) := by
  constructor
  · intro behave fuel g gname inputs view ist sk hin hlen hty hsk
    have hchk := runnerCheckInputs_too_few gname ist.input_slots inputs 0 sk
      (Nat.zero_le _) (by omega) (fun k s v hs hv => hty k s v hs (by simpa using hv))
      (by simpa using hsk)
    simp only [run_graph, hin, hchk]
  · intro g queue name inputs view sub ist sk hsub hin hlen hty hsk
    have hchk := checkSubInputs_too_few name ist.input_slots inputs 0 sk
      (Nat.zero_le _) (by omega) (fun k s v hs hv => hty k s v hs (by simpa using hv))
      (by simpa using hsk)
    simp only [ctx_run_sub_graph, hsub, hin, hchk]

/-- If `validate_edge` accepts a slot edge for insertion, that edge is not
in the input-edge list of its input node (the occupancy check would have
rejected it). -/
theorem validate_none_not_in_input (g : RenderGraph) (inn ii onn oi : Nat)
    (hvalid : g.validate_edge (.slotEdge inn ii onn oi) .doesNotExist = none)
    (inS : NodeState) (hins : g.get_node_state? inn = some inS) :
    Edge.slotEdge inn ii onn oi ∉ inS.edges.input_edges := by
  intro hmem
  simp only [RenderGraph.validate_edge] at hvalid
  rw [if_neg (by simp)] at hvalid
  by_cases hhe : g.has_edge (.slotEdge inn ii onn oi)
  · rw [if_pos (by simp [hhe])] at hvalid
    cases hvalid
  · rw [if_neg (by simp [hhe])] at hvalid
    cases hons : g.get_node_state? onn with
    | none => simp only [hons] at hvalid; cases hvalid
    | some outS =>
      simp only [hons, hins] at hvalid
      cases hgs1 : get_slot outS.output_slots (.index oi) with
      | none => simp only [hgs1] at hvalid; cases hvalid
      | some oslot =>
        simp only [hgs1] at hvalid
        cases hgs2 : get_slot inS.input_slots (.index ii) with
        | none => simp only [hgs2] at hvalid; cases hvalid
        | some islot =>
          simp only [hgs2] at hvalid
          cases hf : inS.edges.input_edges.find? (fun e =>
              match e with
              | .slotEdge _ ci _ _ => decide (ii = ci)
              | .nodeEdge _ _ => false) with
          | none =>
            have := List.find?_eq_none.mp hf _ hmem
            simp at this
          | some b =>
            have hpb := List.find?_some hf
            simp only [hf] at hvalid
            cases b with
            | slotEdge a bi c d => simp at hvalid
            | nodeEdge a c => simp at hpb

/-- `get_node_state` with an id label, written through `get_node_state?`. -/
theorem get_node_state_id_def (g : RenderGraph) (x : NodeId) :
    g.get_node_state (.id x) = match g.get_node_state? x with
      | some n => .ok n
      | none => .error (.invalidNode (.id x)) := by
  simp [RenderGraph.get_node_state, RenderGraph.get_node_id]

/-- `modifyNode_get_node_state?` specialized to edge-list replacement. -/
theorem modifyNode_edges_get (g : RenderGraph) (id : NodeId) (E : EdgeInfo)
    (k : NodeId) :
    (g.modifyNode id (fun n => { n with edges := E })).get_node_state? k =
      (g.get_node_state? k).map
        (fun n => if n.id = id then { n with edges := E } else n) :=
  modifyNode_get_node_state? g id (fun n => { n with edges := E }) (fun _ => rfl) k

/-- Inserting an edge on both endpoints through the two `modifyNode` writes
of `try_add_slot_edge` leaves the edge visible in the output node's
output-edge list and the input node's input-edge list, including the
self-loop case. -/
theorem double_modify_mem (g : RenderGraph) (oid iid : NodeId) (e : Edge)
    (outS inS : NodeState) (E2 : EdgeInfo)
    (hos : g.get_node_state? oid = some outS)
    (his : g.get_node_state? iid = some inS)
    (hE2 : E2 = { (if inS.id = oid then
        { inS with edges := { outS.edges with
            output_edges := outS.edges.output_edges ++ [e] } }
      else inS).edges with
        input_edges := (if inS.id = oid then
          { inS with edges := { outS.edges with
              output_edges := outS.edges.output_edges ++ [e] } }
        else inS).edges.input_edges ++ [e] }) :
    (∃ outS2, ((g.modifyNode oid (fun n => { n with edges :=
        { outS.edges with output_edges := outS.edges.output_edges ++ [e] } })).modifyNode
          iid (fun n => { n with edges := E2 })).get_node_state? oid = some outS2 ∧
      e ∈ outS2.edges.output_edges) ∧
    (∃ inS2, ((g.modifyNode oid (fun n => { n with edges :=
        { outS.edges with output_edges := outS.edges.output_edges ++ [e] } })).modifyNode
          iid (fun n => { n with edges := E2 })).get_node_state? iid = some inS2 ∧
      e ∈ inS2.edges.input_edges) := by
  have houtid : outS.id = oid := get_node_state?_id hos
  have hinid : inS.id = iid := get_node_state?_id his
  constructor
  · rw [modifyNode_edges_get, modifyNode_edges_get, hos]
    refine ⟨_, rfl, ?_⟩
    by_cases hio : oid = iid
    · have hinoid : inS.id = oid := by rw [hinid, hio]
      simp [houtid, hio, hinoid, hE2]
    · simp [houtid, hio, hE2]
  · rw [modifyNode_edges_get, modifyNode_edges_get, his]
    refine ⟨_, rfl, ?_⟩
    by_cases hio : inS.id = oid
    · simp [hio, hinid, hE2, hio.symm.trans hinid]
    · simp [hio, hinid, hE2, show iid ≠ oid from fun h => hio (hinid.trans h)]

/-- Full case characterization of `try_add_slot_edge`: either it fails and
returns the graph unchanged, or it succeeds and the resolved slot edge is
present in the output node's output-edge list and the input node's
input-edge list of the resulting graph. -/
theorem try_add_slot_edge_spec (g : RenderGraph) (onl : NodeLabel) (osl : SlotLabel)
    (inl : NodeLabel) (isl : SlotLabel) :
    (∃ err, g.try_add_slot_edge onl osl inl isl = (g, some err)) ∨
    (∃ oid iid oi ii outS2 inS2,
      g.get_node_id onl = .ok oid ∧
      g.get_node_id inl = .ok iid ∧
      (g.try_add_slot_edge onl osl inl isl).1.get_node_state? oid = some outS2 ∧
      Edge.slotEdge iid ii oid oi ∈ outS2.edges.output_edges ∧
      (g.try_add_slot_edge onl osl inl isl).1.get_node_state? iid = some inS2 ∧
      Edge.slotEdge iid ii oid oi ∈ inS2.edges.input_edges ∧
      (g.try_add_slot_edge onl osl inl isl).2 = none) := by
  cases hq : g.get_node_id onl with
  | error e => exact Or.inl ⟨e, by simp [RenderGraph.try_add_slot_edge, hq]⟩
  | ok oid =>
  cases hn : g.get_node_id inl with
  | error e => exact Or.inl ⟨e, by simp [RenderGraph.try_add_slot_edge, hq, hn]⟩
  | ok iid =>
  cases hos : g.get_node_state? oid with
  | none =>
    exact Or.inl ⟨.invalidNode (.id oid), by
      simp [RenderGraph.try_add_slot_edge, hq, hn, get_node_state_id_def, hos]⟩
  | some outS =>
  cases hoi : get_slot_index outS.output_slots osl with
  | none =>
    exact Or.inl ⟨.invalidOutputNodeSlot osl, by
      simp [RenderGraph.try_add_slot_edge, hq, hn, get_node_state_id_def, hos, hoi]⟩
  | some oi =>
  cases his : g.get_node_state? iid with
  | none =>
    exact Or.inl ⟨.invalidNode (.id iid), by
      simp [RenderGraph.try_add_slot_edge, hq, hn, get_node_state_id_def, hos, hoi, his]⟩
  | some inS =>
  cases hii : get_slot_index inS.input_slots isl with
  | none =>
    exact Or.inl ⟨.invalidInputNodeSlot isl, by
      simp [RenderGraph.try_add_slot_edge, hq, hn, get_node_state_id_def, hos, hoi, his, hii]⟩
  | some ii =>
  cases hv : g.validate_edge (Edge.slotEdge iid ii oid oi) .doesNotExist with
  | some e =>
    exact Or.inl ⟨e, by
      simp [RenderGraph.try_add_slot_edge, hq, hn, get_node_state_id_def, hos, hoi, his, hii, hv]⟩
  | none =>
  by_cases hout : Edge.slotEdge iid ii oid oi ∈ outS.edges.output_edges
  · refine Or.inl ⟨.edgeAlreadyExists (Edge.slotEdge iid ii oid oi), ?_⟩
    simp [RenderGraph.try_add_slot_edge, hq, hn, get_node_state_id_def, hos, hoi, his, hii, hv, EdgeInfo.add_output_edge, hout]
  · have hinid : inS.id = iid := get_node_state?_id his
    have houtid : outS.id = oid := get_node_state?_id hos
    have hnotin := validate_none_not_in_input g iid ii oid oi hv inS his
    have hnotin2 : Edge.slotEdge iid ii oid oi ∉
        (if inS.id = oid then
          { inS with edges := { outS.edges with output_edges :=
              outS.edges.output_edges ++ [Edge.slotEdge iid ii oid oi] } }
        else inS).edges.input_edges := by
      by_cases hio : inS.id = oid
      · rw [if_pos hio]
        have hsame : inS = outS := by
          have hkey : iid = oid := hinid.symm.trans hio
          rw [hkey] at his
          rw [his] at hos
          exact Option.some.inj hos
        subst hsame
        exact hnotin
      · rw [if_neg hio]
        exact hnotin
    have hg1 : (g.modifyNode oid (fun n =>
        { n with edges := { outS.edges with output_edges :=
            outS.edges.output_edges ++ [Edge.slotEdge iid ii oid oi] } })).get_node_state? iid =
        some (if inS.id = oid then
          { inS with edges := { outS.edges with output_edges :=
              outS.edges.output_edges ++ [Edge.slotEdge iid ii oid oi] } }
        else inS) := by
      rw [modifyNode_edges_get, his]
      rfl
    have hresult : g.try_add_slot_edge onl osl inl isl =
        ((g.modifyNode oid (fun n =>
            { n with edges := { outS.edges with output_edges :=
                outS.edges.output_edges ++ [Edge.slotEdge iid ii oid oi] } })).modifyNode iid
          (fun n =>
            { n with edges :=
              { (if inS.id = oid then
                  { inS with edges := { outS.edges with output_edges :=
                      outS.edges.output_edges ++ [Edge.slotEdge iid ii oid oi] } }
                else inS).edges with
                input_edges :=
                  (if inS.id = oid then
                    { inS with edges := { outS.edges with output_edges :=
                        outS.edges.output_edges ++ [Edge.slotEdge iid ii oid oi] } }
                  else inS).edges.input_edges ++ [Edge.slotEdge iid ii oid oi] } }), none) := by
      simp only [RenderGraph.try_add_slot_edge, hq, hn, get_node_state_id_def,
        hos, hoi, his, hii, hv, EdgeInfo.add_output_edge, EdgeInfo.add_input_edge]
      simp [hg1, hout, hnotin2]
    refine Or.inr ⟨oid, iid, oi, ii, ?_⟩
    have hmm := double_modify_mem g oid iid (Edge.slotEdge iid ii oid oi) outS inS _ hos his rfl
    obtain ⟨⟨outS2, ho2, hom⟩, ⟨inS2, hi2, him⟩⟩ := hmm
    refine ⟨outS2, inS2, rfl, rfl, ?_, hom, ?_, him, ?_⟩
    · rw [hresult]
      exact ho2
    · rw [hresult]
      exact hi2
    · rw [hresult]

/-- Claim C3: `try_add_slot_edge` performs all validation before any
mutation: every call that returns an error — the slot-type mismatch in
particular — returns the graph byte-for-byte unchanged (every node's edge
lists included), and every successful call leaves the new `SlotEdge`
present in both the output node's output-edge list and the input node's
input-edge list. -/
theorem c3_try_add_slot_edge_atomic (g : RenderGraph) (onl : NodeLabel)
    (osl : SlotLabel) (inl : NodeLabel) (isl : SlotLabel) :
    ((g.try_add_slot_edge onl osl inl isl).2.isSome →
      (g.try_add_slot_edge onl osl inl isl).1 = g) ∧
    ((g.try_add_slot_edge onl osl inl isl).2 = none →
      ∃ oid iid oi ii outS2 inS2,
        g.get_node_id onl = .ok oid ∧
        g.get_node_id inl = .ok iid ∧
        (g.try_add_slot_edge onl osl inl isl).1.get_node_state? oid = some outS2 ∧
        Edge.slotEdge iid ii oid oi ∈ outS2.edges.output_edges ∧
        (g.try_add_slot_edge onl osl inl isl).1.get_node_state? iid = some inS2 ∧
        Edge.slotEdge iid ii oid oi ∈ inS2.edges.input_edges) := by
  rcases try_add_slot_edge_spec g onl osl inl isl with ⟨err, heq⟩ |
    ⟨oid, iid, oi, ii, outS2, inS2, hq, hn, h1, h2, h3, h4, h5⟩
  · constructor
    · intro _
      rw [heq]
    · intro hnone
      rw [heq] at hnone
      simp at hnone
  · constructor
    · intro hsome
      rw [h5] at hsome
      simp at hsome
    · intro _
      exact ⟨oid, iid, oi, ii, outS2, inS2, hq, hn, h1, h2, h3, h4⟩

/-- Witness for C3 at concrete graphs: the type-mismatched connect of a
`Sampler` output to a `Buffer` input fails and leaves the graph unchanged;
the well-typed connect `A.b -> B.b` succeeds and the edge is recorded on
both endpoints. -/
theorem c3_try_add_slot_edge_atomic_witness :
    (mismatchedTypesGraph.try_add_slot_edge (.name "A") (.name "b")
        (.name "B") (.name "b")).1 = mismatchedTypesGraph ∧
    (∃ oid iid oi ii outS2 inS2,
      twoNodeGraph.get_node_id (.name "A") = .ok oid ∧
      twoNodeGraph.get_node_id (.name "B") = .ok iid ∧
      (twoNodeGraph.try_add_slot_edge (.name "A") (.name "b")
          (.name "B") (.name "b")).1.get_node_state? oid = some outS2 ∧
      Edge.slotEdge iid ii oid oi ∈ outS2.edges.output_edges ∧
      (twoNodeGraph.try_add_slot_edge (.name "A") (.name "b")
          (.name "B") (.name "b")).1.get_node_state? iid = some inS2 ∧
      Edge.slotEdge iid ii oid oi ∈ inS2.edges.input_edges) :=
  ⟨(c3_try_add_slot_edge_atomic mismatchedTypesGraph (.name "A") (.name "b")
      (.name "B") (.name "b")).1 rfl,
   (c3_try_add_slot_edge_atomic twoNodeGraph (.name "A") (.name "b")
      (.name "B") (.name "b")).2 rfl⟩

/-- Claim C4 counterexample: after `A.b -> B.b` is connected, re-adding the
IDENTICAL edge also targets the already-occupied `(B, 0)` input slot, but it
fails with `EdgeAlreadyExists` (the duplicate-edge check in `validate_edge`
runs before the occupancy check finds the slot occupied), not with the
`NodeInputSlotAlreadyOccupied` error the claim requires for every second
edge into an occupied slot. -/
theorem c4_duplicate_edge_wrong_error :
    (twoNodeGraphConnected.try_add_slot_edge (.name "A") (.name "b")
        (.name "B") (.name "b")).2 =
      some (.edgeAlreadyExists (.slotEdge 1 0 0 0)) ∧
    some (RenderGraphError.edgeAlreadyExists (.slotEdge 1 0 0 0)) ≠
      some (RenderGraphError.nodeInputSlotAlreadyOccupied 1 0 0) :=
  ⟨rfl, by simp⟩

/-- Claim C4 as amended: when a SlotEdge already occupies the input slot
`(n, i)`, a second `try_add_slot_edge` resolving to the same `(n, i)` but to
a DIFFERENT output `(node, slot)` pair fails with
`NodeInputSlotAlreadyOccupied` reporting the occupying output node, and the
graph — the first edge included — is unchanged. (A second add of the
identical edge instead fails with `EdgeAlreadyExists`, also leaving the
graph unchanged.) -/
theorem c4_occupied_slot_rejected
    (g : RenderGraph) (onl : NodeLabel) (osl : SlotLabel)
    (inl : NodeLabel) (isl : SlotLabel)
    (q n i j p pj : Nat) {qst nst : NodeState}
    (hq : g.get_node_id onl = .ok q)
    (hn : g.get_node_id inl = .ok n)
    (hqs : g.get_node_state? q = some qst)
    (hns : g.get_node_state? n = some nst)
    (hj : get_slot_index qst.output_slots osl = some j)
    (hi : get_slot_index nst.input_slots isl = some i)
    (hocc : Edge.slotEdge n i p pj ∈ nst.edges.input_edges)
    (huniq : ∀ e ∈ nst.edges.input_edges, isSlotEdgeAt i e = true →
      e = Edge.slotEdge n i p pj)
    (hne : ¬ (q = p ∧ j = pj)) :
    g.try_add_slot_edge onl osl inl isl =
      (g, some (.nodeInputSlotAlreadyOccupied n i p)) := by
  have hedge_ne : Edge.slotEdge n i q j ≠ Edge.slotEdge n i p pj := by
    intro h
    injection h with h1 h2 h3 h4
    exact hne ⟨h3, h4⟩
  have hnotin : Edge.slotEdge n i q j ∉ nst.edges.input_edges := fun hmem =>
    hedge_ne (huniq _ hmem (by simp [isSlotEdgeAt]))
  have hhas : g.has_edge (Edge.slotEdge n i q j) = false := by
    simp only [RenderGraph.has_edge, Edge.get_output_node, Edge.get_input_node, hqs, hns]
    split
    · simpa using hnotin
    · rfl
  have hfind : nst.edges.input_edges.find? (fun e =>
      match e with
      | .slotEdge _ ci _ _ => decide (i = ci)
      | .nodeEdge _ _ => false) = some (Edge.slotEdge n i p pj) := by
    apply find?_eq_of_mem_of_unique hocc
    · simp
    · intro b hb hpb
      refine huniq b hb ?_
      match b with
      | .slotEdge a ci c d =>
        have : i = ci := by simpa using hpb
        simp [isSlotEdgeAt, this]
      | .nodeEdge a c => simp at hpb
  have hvalid : g.validate_edge (Edge.slotEdge n i q j) .doesNotExist =
      some (.nodeInputSlotAlreadyOccupied n i p) := by
    simp only [RenderGraph.validate_edge, hhas]
    rw [if_neg (by simp), if_neg (by simp)]
    simp only [hqs, hns, get_slot_of_lt (get_slot_index_lt hj),
      get_slot_of_lt (get_slot_index_lt hi), hfind]
    simp
  simp only [RenderGraph.try_add_slot_edge, hq, hn, get_node_state_id hqs,
    get_node_state_id hns, hj, hi, hvalid]

/-- Witness for C4's amended theorem: adding `C.c -> B.b` after
`A.b -> B.b` reports the slot occupied by node `A` (id 0) and changes
nothing. -/
theorem c4_occupied_slot_rejected_witness :
    threeNodeGraph.try_add_slot_edge (.name "C") (.name "c") (.name "B") (.name "b") =
      (threeNodeGraph, some (.nodeInputSlotAlreadyOccupied 1 0 0)) :=
  c4_occupied_slot_rejected threeNodeGraph (.name "C") (.name "c") (.name "B") (.name "b")
    2 1 0 0 0 0 rfl rfl rfl rfl rfl rfl (by decide) (by decide) (by decide)

/-- Witness for C5's amended theorem: an input node declaring one `Buffer`
slot, given no inputs, on both paths. -/
theorem c5_too_few_inputs_fail_early_witness :
    run_graph (fun _ _ => []) 2 inputOnlyGraph none [] none =
      .err (.missingInput 0 "in0" none) [] ∧
    ctx_run_sub_graph (RenderGraph.mk [] [] [("sg", inputOnlyGraph)] none) []
        "sg" [] none = .error (.missingInput 0 "in0" "sg") :=
  ⟨c5_too_few_inputs_fail_early.1 (fun _ _ => []) 2 inputOnlyGraph none [] none
      _ _ rfl (by decide) (fun k s v hs hv => by simp at hv) rfl,
   c5_too_few_inputs_fail_early.2 (RenderGraph.mk [] [] [("sg", inputOnlyGraph)] none)
      [] "sg" [] none inputOnlyGraph _ _ rfl rfl (by decide)
      (fun k s v hs hv => by simp at hv) rfl⟩

/-- Members of a list whose image under `f` is duplicate-free are equal
whenever their images are. -/
theorem eq_of_mem_of_nodup_map {f : α → β} {l : List α}
    (hnd : (l.map f).Nodup) {a b : α} (ha : a ∈ l) (hb : b ∈ l)
    (hf : f a = f b) : a = b := by
  induction l with
  | nil => cases ha
  | cons x xs ih =>
    simp only [List.map_cons, List.nodup_cons] at hnd
    rcases List.mem_cons.mp ha with rfl | ha' <;>
      rcases List.mem_cons.mp hb with rfl | hb'
    · rfl
    · exact absurd (hf ▸ List.mem_map_of_mem f hb') hnd.1
    · exact absurd (hf ▸ List.mem_map_of_mem f ha') hnd.1
    · exact ih hnd.2 ha' hb'

/-- In a graph with duplicate-free ids, nodes are determined by their id. -/
theorem node_unique {g : RenderGraph} (hids : (g.nodes.map (·.id)).Nodup)
    {n m : NodeState} (hn : n ∈ g.nodes) (hm : m ∈ g.nodes)
    (h : n.id = m.id) : n = m :=
  eq_of_mem_of_nodup_map hids hn hm h

/-- A found node state is a member of the node list. -/
theorem get_node_state?_mem {g : RenderGraph} {x : NodeId} {st : NodeState}
    (h : g.get_node_state? x = some st) : st ∈ g.nodes :=
  List.mem_of_find?_eq_some h

/-- Looking up a member node's id finds that node (given duplicate-free
ids). -/
theorem mem_get_node_state? {g : RenderGraph} (hids : (g.nodes.map (·.id)).Nodup)
    {n : NodeState} (hn : n ∈ g.nodes) : g.get_node_state? n.id = some n := by
  apply find?_eq_of_mem_of_unique hn (by simp)
  intro b hb hpb
  exact node_unique hids hb hn (by simpa using hpb)

/-- Failed node lookup means no node has that id. -/
theorem get_node_state?_none {g : RenderGraph} {x : NodeId}
    (h : g.get_node_state? x = none) : ∀ n ∈ g.nodes, n.id ≠ x := by
  intro n hn hid
  have := List.find?_eq_none.mp h n hn
  simp [hid] at this

/-- `swap_remove` at the index of `e` (in a duplicate-free list) produces a
duplicate-free list containing exactly the other elements. -/
theorem swapRemove_spec {l : List α} {i : Nat} {e : α}
    (hnd : l.Nodup) (hi : l[i]? = some e) :
    (swapRemove l i).Nodup ∧ ∀ x, x ∈ swapRemove l i ↔ x ∈ l ∧ x ≠ e := by
  have hilt : i < l.length := by
    by_contra hge
    rw [List.getElem?_eq_none (by omega)] at hi
    cases hi
  have hel : l[i] = e := by
    have hh := List.getElem?_eq_getElem hilt
    rw [hh] at hi
    exact Option.some.inj hi
  have hAlen : (l.take i).length = i := by
    simp [List.length_take]
    omega
  have hdecomp : l = l.take i ++ e :: l.drop (i + 1) := by
    conv_lhs => rw [← List.take_append_drop i l]
    rw [List.drop_eq_getElem_cons hilt, hel]
  rcases List.eq_nil_or_concat (l.drop (i + 1)) with hB | ⟨B', b, hB⟩
  · rw [hB] at hdecomp
    have hlast : l.getLast? = some e := by
      rw [hdecomp]
      exact List.getLast?_concat _
    have hswap : swapRemove l i = l.take i := by
      simp only [swapRemove, hlast]
      rw [List.set_eq_take_append_cons_drop, if_pos hilt, hB]
      exact List.dropLast_concat
    rw [hswap]
    rw [hdecomp] at hnd
    simp only [List.nodup_append, List.nodup_cons] at hnd
    obtain ⟨hA, _, hdisj⟩ := hnd
    have heA : e ∉ l.take i := fun hmem => hdisj hmem (by simp)
    refine ⟨hA, fun x => ?_⟩
    conv_rhs => rw [hdecomp]
    simp only [List.mem_append, List.mem_singleton]
    constructor
    · intro hx
      exact ⟨Or.inl hx, fun hxe => heA (hxe ▸ hx)⟩
    · rintro ⟨hx | rfl, hne⟩
      · exact hx
      · exact absurd rfl hne
  · rw [List.concat_eq_append] at hB
    rw [hB] at hdecomp
    have hlast : l.getLast? = some b := by
      rw [hdecomp, show l.take i ++ e :: (B' ++ [b]) = (l.take i ++ e :: B') ++ [b]
        from by simp]
      exact List.getLast?_concat _
    have hswap : swapRemove l i = l.take i ++ b :: B' := by
      simp only [swapRemove, hlast]
      rw [List.set_eq_take_append_cons_drop, if_pos hilt, hB]
      rw [show l.take i ++ b :: (B' ++ [b]) = (l.take i ++ b :: B') ++ [b]
        from by simp]
      exact List.dropLast_concat
    rw [hswap]
    rw [hdecomp] at hnd
    obtain ⟨hA, hcons, hdisj⟩ := List.nodup_append.mp hnd
    have heB'b : e ∉ B' ++ [b] := (List.nodup_cons.mp hcons).1
    have hB'bnd : (B' ++ [b]).Nodup := (List.nodup_cons.mp hcons).2
    have hB'nd : B'.Nodup := (List.nodup_append.mp hB'bnd).1
    have hbB' : b ∉ B' := fun h =>
      (List.nodup_append.mp hB'bnd).2.2 h (List.mem_singleton.mpr rfl)
    have heA : e ∉ l.take i := fun h => hdisj h (List.mem_cons_self _ _)
    have heB' : e ∉ B' := fun h => heB'b (List.mem_append_left _ h)
    have heb : e ≠ b := fun h => heB'b (by simp [h])
    have hbA : b ∉ l.take i := fun h => hdisj h (by simp)
    constructor
    · refine List.nodup_append.mpr ⟨hA, List.nodup_cons.mpr ⟨hbB', hB'nd⟩, ?_⟩
      intro a haA hamem
      rcases List.mem_cons.mp hamem with rfl | haB'
      · exact hbA haA
      · exact hdisj haA (List.mem_cons_of_mem _ (List.mem_append_left _ haB'))
    · intro x
      conv_rhs => rw [hdecomp]
      simp only [List.mem_append, List.mem_cons, List.not_mem_nil, or_false]
      constructor
      · rintro (hxA | rfl | hxB')
        · exact ⟨Or.inl hxA, fun h => heA (h ▸ hxA)⟩
        · exact ⟨Or.inr (Or.inr (Or.inr rfl)), fun h => heb h.symm⟩
        · exact ⟨Or.inr (Or.inr (Or.inl hxB')), fun h => heB' (h ▸ hxB')⟩
      · rintro ⟨hxA | rfl | hxB' | rfl, hne⟩
        · exact Or.inl hxA
        · exact absurd rfl hne
        · exact Or.inr (Or.inr hxB')
        · exact Or.inr (Or.inl rfl)

/-- `position` on a duplicate-aware list: membership yields the found
index. -/
theorem findIdx?_of_mem [DecidableEq α] {l : List α} {e : α} (hmem : e ∈ l) :
    ∃ i, l.findIdx? (fun x => decide (x = e)) = some i ∧ l[i]? = some e := by
  induction l with
  | nil => cases hmem
  | cons x xs ih =>
    by_cases hx : x = e
    · exact ⟨0, by simp [List.findIdx?_cons, hx], by simp [hx]⟩
    · rcases List.mem_cons.mp hmem with rfl | hmem'
      · exact absurd rfl hx
      · obtain ⟨i, hf, hg⟩ := ih hmem'
        exact ⟨i + 1, by simp [List.findIdx?_cons, hx, hf], by simpa using hg⟩

/-- `remove_output_edge` on a present edge: succeeds, keeps the input list,
and removes exactly that edge from the (duplicate-free) output list. -/
theorem remove_output_edge_ok {info : EdgeInfo} {e : Edge}
    (hnd : info.output_edges.Nodup) (hmem : e ∈ info.output_edges) :
    ∃ out, info.remove_output_edge e = .ok out ∧ out.id = info.id ∧
      out.input_edges = info.input_edges ∧ out.output_edges.Nodup ∧
      (∀ x, x ∈ out.output_edges ↔ x ∈ info.output_edges ∧ x ≠ e) := by
  obtain ⟨i, hf, hg⟩ := findIdx?_of_mem hmem
  obtain ⟨h1, h2⟩ := swapRemove_spec hnd hg
  exact ⟨{ info with output_edges := swapRemove info.output_edges i },
    by simp [EdgeInfo.remove_output_edge, hf], rfl, rfl, h1, h2⟩

/-- `remove_input_edge` on a present edge, mirror statement. -/
theorem remove_input_edge_ok {info : EdgeInfo} {e : Edge}
    (hnd : info.input_edges.Nodup) (hmem : e ∈ info.input_edges) :
    ∃ out, info.remove_input_edge e = .ok out ∧ out.id = info.id ∧
      out.output_edges = info.output_edges ∧ out.input_edges.Nodup ∧
      (∀ x, x ∈ out.input_edges ↔ x ∈ info.input_edges ∧ x ≠ e) := by
  obtain ⟨i, hf, hg⟩ := findIdx?_of_mem hmem
  obtain ⟨h1, h2⟩ := swapRemove_spec hnd hg
  exact ⟨{ info with input_edges := swapRemove info.input_edges i },
    by simp [EdgeInfo.remove_input_edge, hf], rfl, rfl, h1, h2⟩

/-- Well-formedness is preserved by adding one edge `e` to the input lists
of the nodes named `e.get_input_node` and the output lists of the nodes
named `e.get_output_node` (either endpoint may name no node — the iff's
right disjunct is then vacuous on that side). -/
theorem GraphWF.of_edge_added {g g' : RenderGraph} (e : Edge)
    (hwf : GraphWF g)
    (hids : (g'.nodes.map (·.id)).Nodup)
    (hnodes : ∀ n' ∈ g'.nodes, ∃ n ∈ g.nodes, n'.id = n.id ∧
      n'.edges.input_edges.Nodup ∧ n'.edges.output_edges.Nodup ∧
      (∀ x, x ∈ n'.edges.input_edges ↔
        x ∈ n.edges.input_edges ∨ (x = e ∧ n.id = e.get_input_node)) ∧
      (∀ x, x ∈ n'.edges.output_edges ↔
        x ∈ n.edges.output_edges ∨ (x = e ∧ n.id = e.get_output_node))) :
    GraphWF g' := by
  obtain ⟨hgids, hgnd, hgwp⟩ := hwf
  refine ⟨hids, ?_, ?_⟩
  · intro n' hn'
    obtain ⟨n, hn, _, hnd1, hnd2, _, _⟩ := hnodes n' hn'
    exact ⟨hnd1, hnd2⟩
  · intro n' hn'
    obtain ⟨n, hn, hid, hnd1, hnd2, hiff_in, hiff_out⟩ := hnodes n' hn'
    constructor
    · intro x hx
      rcases (hiff_in x).mp hx with hold | ⟨rfl, hide⟩
      · have hwp := (hgwp n hn).1 x hold
        refine ⟨hwp.1.trans hid.symm, ?_⟩
        intro m' hm' hmid
        obtain ⟨m, hm, hmid', _, _, _, hiffm⟩ := hnodes m' hm'
        exact (hiffm x).mpr (Or.inl (hwp.2 m hm (hmid'.symm.trans hmid)))
      · refine ⟨(hid.trans hide).symm, ?_⟩
        intro m' hm' hmid
        obtain ⟨m, hm, hmid', _, _, _, hiffm⟩ := hnodes m' hm'
        exact (hiffm x).mpr (Or.inr ⟨rfl, hmid'.symm.trans hmid⟩)
    · intro x hx
      rcases (hiff_out x).mp hx with hold | ⟨rfl, hode⟩
      · have hwp := (hgwp n hn).2 x hold
        refine ⟨hwp.1.trans hid.symm, ?_⟩
        intro m' hm' hmid
        obtain ⟨m, hm, hmid', _, _, hiffm, _⟩ := hnodes m' hm'
        exact (hiffm x).mpr (Or.inl (hwp.2 m hm (hmid'.symm.trans hmid)))
      · refine ⟨(hid.trans hode).symm, ?_⟩
        intro m' hm' hmid
        obtain ⟨m, hm, hmid', _, _, hiffm, _⟩ := hnodes m' hm'
        exact (hiffm x).mpr (Or.inr ⟨rfl, hmid'.symm.trans hmid⟩)

/-- Well-formedness is preserved by any transformation that restricts every
node's edge lists by one global predicate (and possibly drops nodes). -/
theorem GraphWF.of_edge_subpred {g g' : RenderGraph} (P : Edge → Prop)
    (hwf : GraphWF g)
    (hids : (g'.nodes.map (·.id)).Nodup)
    (hnodes : ∀ n' ∈ g'.nodes, ∃ n ∈ g.nodes, n'.id = n.id ∧
      n'.edges.input_edges.Nodup ∧ n'.edges.output_edges.Nodup ∧
      (∀ x, x ∈ n'.edges.input_edges ↔ x ∈ n.edges.input_edges ∧ P x) ∧
      (∀ x, x ∈ n'.edges.output_edges ↔ x ∈ n.edges.output_edges ∧ P x)) :
    GraphWF g' := by
  obtain ⟨hgids, hgnd, hgwp⟩ := hwf
  refine ⟨hids, ?_, ?_⟩
  · intro n' hn'
    obtain ⟨n, hn, _, hnd1, hnd2, _, _⟩ := hnodes n' hn'
    exact ⟨hnd1, hnd2⟩
  · intro n' hn'
    obtain ⟨n, hn, hid, hnd1, hnd2, hiff_in, hiff_out⟩ := hnodes n' hn'
    constructor
    · intro x hx
      obtain ⟨hold, hP⟩ := (hiff_in x).mp hx
      have hwp := (hgwp n hn).1 x hold
      refine ⟨hwp.1.trans hid.symm, ?_⟩
      intro m' hm' hmid
      obtain ⟨m, hm, hmid', _, _, _, hiffm⟩ := hnodes m' hm'
      exact (hiffm x).mpr ⟨hwp.2 m hm (hmid'.symm.trans hmid), hP⟩
    · intro x hx
      obtain ⟨hold, hP⟩ := (hiff_out x).mp hx
      have hwp := (hgwp n hn).2 x hold
      refine ⟨hwp.1.trans hid.symm, ?_⟩
      intro m' hm' hmid
      obtain ⟨m, hm, hmid', _, _, hiffm, _⟩ := hnodes m' hm'
      exact (hiffm x).mpr ⟨hwp.2 m hm (hmid'.symm.trans hmid), hP⟩

/-- `modifyNode` with an id-preserving update keeps the id list. -/
theorem modifyNode_ids (g : RenderGraph) (id : NodeId) (f : NodeState → NodeState)
    (hf : ∀ n, (f n).id = n.id) :
    ((g.modifyNode id f).nodes.map (·.id)) = g.nodes.map (·.id) := by
  cases g with
  | mk ns nm sg inp =>
    simp only [RenderGraph.modifyNode, RenderGraph.setNodes, RenderGraph.nodes,
      List.map_map]
    apply List.map_congr_left
    intro n _
    simp only [Function.comp_apply]
    split
    · exact hf n
    · rfl

/-- `modifyNode_ids` specialized to edge-list replacement. -/
theorem modifyNode_edges_ids (g : RenderGraph) (id : NodeId) (E : EdgeInfo) :
    ((g.modifyNode id (fun n => { n with edges := E })).nodes.map (·.id)) =
      g.nodes.map (·.id) :=
  modifyNode_ids g id _ (fun _ => rfl)

/-- Membership in a modified graph's node list. -/
theorem mem_modifyNode {g : RenderGraph} {id : NodeId} {f : NodeState → NodeState}
    {n' : NodeState} :
    n' ∈ (g.modifyNode id f).nodes ↔
      ∃ n, n ∈ g.nodes ∧ (if n.id = id then f n else n) = n' := by
  cases g with
  | mk ns nm sg inp =>
    simp [RenderGraph.modifyNode, RenderGraph.setNodes, RenderGraph.nodes, List.mem_map]

/-- Appending a fresh element keeps a list duplicate-free. -/
theorem nodup_append_singleton {l : List α} {e : α} (h : l.Nodup) (he : e ∉ l) :
    (l ++ [e]).Nodup := by
  refine List.nodup_append.mpr ⟨h, List.nodup_singleton e, ?_⟩
  intro a ha hb
  rw [List.mem_singleton] at hb
  exact he (hb ▸ ha)

/-- Restricting by `≠ e` is the identity on lists not containing `e`. -/
theorem mem_iff_and_ne_of_not_mem {l : List α} {e : α} (he : e ∉ l) :
    ∀ x, x ∈ l ↔ x ∈ l ∧ x ≠ e := fun x =>
  ⟨fun hx => ⟨hx, fun h => he (h ▸ hx)⟩, fun h => h.1⟩

/-- In a well-formed graph, a node whose id is not the edge's input node id
does not hold the edge in its input list. -/
theorem wf_in_unique {g : RenderGraph} (hwf : GraphWF g) {n : NodeState}
    (hn : n ∈ g.nodes) {e : Edge} (hne : n.id ≠ e.get_input_node) :
    e ∉ n.edges.input_edges := fun hmem =>
  hne (((hwf.2.2 n hn).1 e hmem).1.symm)

/-- Mirror statement for output lists. -/
theorem wf_out_unique {g : RenderGraph} (hwf : GraphWF g) {n : NodeState}
    (hn : n ∈ g.nodes) {e : Edge} (hne : n.id ≠ e.get_output_node) :
    e ∉ n.edges.output_edges := fun hmem =>
  hne (((hwf.2.2 n hn).2 e hmem).1.symm)

/-- In a well-formed graph there is no asymmetric state: an edge absent from
its output node's output list is also absent from its input node's input
list. -/
theorem wf_edge_not_in_input {g : RenderGraph} (hwf : GraphWF g) {e : Edge}
    {outS inS : NodeState}
    (hos : g.get_node_state? e.get_output_node = some outS)
    (his : g.get_node_state? e.get_input_node = some inS)
    (hnotout : e ∉ outS.edges.output_edges) :
    e ∉ inS.edges.input_edges := by
  intro hmem
  have hin := (hwf.2.2 inS (get_node_state?_mem his)).1 e hmem
  exact hnotout (hin.2 outS (get_node_state?_mem hos) (get_node_state?_id hos))

/-- `findIdx?` returns an index whose element satisfies the predicate. -/
theorem findIdx?_some_get {l : List α} {p : α → Bool} {i : Nat}
    (h : l.findIdx? p = some i) : ∃ a, l[i]? = some a ∧ p a = true := by
  rw [List.findIdx?_eq_some_iff_findIdx_eq] at h
  obtain ⟨hlt, hfi⟩ := h
  refine ⟨l[i], by simp [List.getElem?_eq_getElem hlt], ?_⟩
  subst hfi
  exact List.findIdx_getElem (w := hlt)

/-- Characterization of a successful `remove_output_edge`. -/
theorem remove_output_edge_ok_char {info : EdgeInfo} {e : Edge} {out : EdgeInfo}
    (hnd : info.output_edges.Nodup)
    (h : info.remove_output_edge e = .ok out) :
    out.input_edges = info.input_edges ∧ out.output_edges.Nodup ∧
      (∀ x, x ∈ out.output_edges ↔ x ∈ info.output_edges ∧ x ≠ e) := by
  unfold EdgeInfo.remove_output_edge at h
  cases hf : info.output_edges.findIdx? (fun x => decide (x = e)) with
  | none => rw [hf] at h; cases h
  | some i =>
    rw [hf] at h
    cases h
    obtain ⟨a, ha, hpa⟩ := findIdx?_some_get hf
    have hae : a = e := by simpa using hpa
    subst hae
    obtain ⟨h1, h2⟩ := swapRemove_spec hnd ha
    exact ⟨rfl, h1, h2⟩

/-- Characterization of a successful `remove_input_edge`. -/
theorem remove_input_edge_ok_char {info : EdgeInfo} {e : Edge} {out : EdgeInfo}
    (hnd : info.input_edges.Nodup)
    (h : info.remove_input_edge e = .ok out) :
    out.output_edges = info.output_edges ∧ out.input_edges.Nodup ∧
      (∀ x, x ∈ out.input_edges ↔ x ∈ info.input_edges ∧ x ≠ e) := by
  unfold EdgeInfo.remove_input_edge at h
  cases hf : info.input_edges.findIdx? (fun x => decide (x = e)) with
  | none => rw [hf] at h; cases h
  | some i =>
    rw [hf] at h
    cases h
    obtain ⟨a, ha, hpa⟩ := findIdx?_some_get hf
    have hae : a = e := by simpa using hpa
    subst hae
    obtain ⟨h1, h2⟩ := swapRemove_spec hnd ha
    exact ⟨rfl, h1, h2⟩

/-- Elimination for `has_edge = true`: both endpoint nodes exist and hold the
edge in the respective lists. -/
theorem has_edge_true_elim {g : RenderGraph} {e : Edge}
    (h : g.has_edge e = true) :
    ∃ oS iS, g.get_node_state? e.get_output_node = some oS ∧
      e ∈ oS.edges.output_edges ∧
      g.get_node_state? e.get_input_node = some iS ∧
      e ∈ iS.edges.input_edges := by
  unfold RenderGraph.has_edge at h
  cases ho : g.get_node_state? e.get_output_node with
  | none => simp only [ho] at h; cases h
  | some oS =>
    simp only [ho] at h
    by_cases hout : e ∈ oS.edges.output_edges
    · rw [if_pos hout] at h
      cases hi : g.get_node_state? e.get_input_node with
      | none => simp only [hi] at h; cases h
      | some iS =>
        simp only [hi] at h
        exact ⟨oS, iS, rfl, hout, rfl, by simpa using h⟩
    · rw [if_neg hout] at h
      cases h

/-- Sublists of a well-formed graph's node list are well-formed (removing
nodes without touching edges only drops constraints of the mirror form). -/
theorem GraphWF.of_nodes_sublist {g g' : RenderGraph}
    (h : List.Sublist g'.nodes g.nodes) (hwf : GraphWF g) : GraphWF g' := by
  have hsub : ∀ x ∈ g'.nodes, x ∈ g.nodes := fun x hx => h.subset hx
  refine ⟨hwf.1.sublist (h.map _), fun n hn => hwf.2.1 n (hsub n hn), fun n hn => ?_⟩
  obtain ⟨h1, h2⟩ := hwf.2.2 n (hsub n hn)
  exact ⟨fun e he => ⟨(h1 e he).1, fun m hm hmid => (h1 e he).2 m (hsub m hm) hmid⟩,
    fun e he => ⟨(h2 e he).1, fun m hm hmid => (h2 e he).2 m (hsub m hm) hmid⟩⟩

/-- Well-formedness only depends on the node list. -/
theorem wf_congr_nodes {g1 g2 : RenderGraph} (h : g1.nodes = g2.nodes)
    (hwf : GraphWF g1) : GraphWF g2 := by
  unfold GraphWF EdgesWellPlaced at *
  rw [← h]
  exact hwf

/-- Adding an edge only to its output node's output list (because the input
endpoint names no node, as `try_add_node_edge`'s partial-mutation error path
does) preserves well-formedness. -/
theorem GraphWF.single_modify_add {g : RenderGraph} (e : Edge) {oid : NodeId}
    {outS : NodeState}
    (hwf : GraphWF g)
    (hoid : e.get_output_node = oid)
    (hos : g.get_node_state? oid = some outS)
    (hnotout : e ∉ outS.edges.output_edges)
    (hnoin : ∀ n ∈ g.nodes, n.id ≠ e.get_input_node) :
    GraphWF (g.modifyNode oid (fun n => { n with edges :=
      { outS.edges with output_edges := outS.edges.output_edges ++ [e] } })) := by
  have houtid : outS.id = oid := get_node_state?_id hos
  have houtmem := get_node_state?_mem hos
  refine GraphWF.of_edge_added e hwf ?_ ?_
  · rw [modifyNode_edges_ids]
    exact hwf.1
  · intro n' hn'
    obtain ⟨n, hn, hstep⟩ := mem_modifyNode.mp hn'
    refine ⟨n, hn, ?_⟩
    have hne_in : n.id ≠ e.get_input_node := hnoin n hn
    by_cases h1 : n.id = oid
    · have hnout : n = outS := node_unique hwf.1 hn houtmem (h1.trans houtid.symm)
      rw [if_pos h1] at hstep
      subst hstep
      refine ⟨rfl, ?_, ?_, ?_, ?_⟩
      · show outS.edges.input_edges.Nodup
        exact hnout ▸ (hwf.2.1 n hn).1
      · show (outS.edges.output_edges ++ [e]).Nodup
        exact nodup_append_singleton (hnout ▸ (hwf.2.1 n hn).2) hnotout
      · intro x
        show x ∈ outS.edges.input_edges ↔
          x ∈ n.edges.input_edges ∨ (x = e ∧ n.id = e.get_input_node)
        rw [← hnout]
        simp [hne_in]
      · intro x
        show x ∈ outS.edges.output_edges ++ [e] ↔
          x ∈ n.edges.output_edges ∨ (x = e ∧ n.id = e.get_output_node)
        rw [← hnout]
        have hyes : n.id = e.get_output_node := by rw [hoid]; exact h1
        simp [hyes]
    · rw [if_neg h1] at hstep
      subst hstep
      have hne_out : n.id ≠ e.get_output_node := by rw [hoid]; exact h1
      exact ⟨rfl, (hwf.2.1 n hn).1, (hwf.2.1 n hn).2,
        fun x => by simp [hne_in], fun x => by simp [hne_out]⟩

/-- The successful double modify of the add-edge operations preserves
well-formedness (self-loops included). -/
theorem GraphWF.double_modify_add {g : RenderGraph} (e : Edge) {oid iid : NodeId}
    {outS inS : NodeState} {E2 : EdgeInfo}
    (hwf : GraphWF g)
    (hoid : e.get_output_node = oid) (hiid : e.get_input_node = iid)
    (hos : g.get_node_state? oid = some outS)
    (his : g.get_node_state? iid = some inS)
    (hnotout : e ∉ outS.edges.output_edges)
    (hnotin : e ∉ inS.edges.input_edges)
    (hE2 : E2 = { (if inS.id = oid then
        { inS with edges := { outS.edges with
            output_edges := outS.edges.output_edges ++ [e] } }
      else inS).edges with
        input_edges := (if inS.id = oid then
          { inS with edges := { outS.edges with
              output_edges := outS.edges.output_edges ++ [e] } }
        else inS).edges.input_edges ++ [e] }) :
    GraphWF ((g.modifyNode oid (fun n => { n with edges :=
        { outS.edges with output_edges := outS.edges.output_edges ++ [e] } })).modifyNode
      iid (fun n => { n with edges := E2 })) := by
  have houtid : outS.id = oid := get_node_state?_id hos
  have hinid : inS.id = iid := get_node_state?_id his
  have houtmem := get_node_state?_mem hos
  have hinmem := get_node_state?_mem his
  have hE2in : E2.input_edges = inS.edges.input_edges ++ [e] := by
    rw [hE2]
    by_cases hio : inS.id = oid
    · simp only [if_pos hio]
      have hsame : inS = outS := node_unique hwf.1 hinmem houtmem (by rw [hio, houtid])
      rw [hsame]
    · simp only [if_neg hio]
  have hE2out : E2.output_edges =
      if inS.id = oid then outS.edges.output_edges ++ [e]
      else inS.edges.output_edges := by
    rw [hE2]
    by_cases hio : inS.id = oid
    · simp only [if_pos hio]
    · simp only [if_neg hio]
  refine GraphWF.of_edge_added e hwf ?_ ?_
  · rw [modifyNode_edges_ids, modifyNode_edges_ids]
    exact hwf.1
  · intro n' hn'
    obtain ⟨n1, hn1, hstep2⟩ := mem_modifyNode.mp hn'
    obtain ⟨n, hn, hstep1⟩ := mem_modifyNode.mp hn1
    refine ⟨n, hn, ?_⟩
    by_cases h1 : n.id = oid
    · have hnout : n = outS := node_unique hwf.1 hn houtmem (h1.trans houtid.symm)
      subst hnout
      rw [if_pos h1] at hstep1
      subst hstep1
      by_cases h2 : n.id = iid
      · have hninS : n = inS := node_unique hwf.1 hn hinmem (h2.trans hinid.symm)
        subst hninS
        rw [if_pos (show ({ n with edges := { n.edges with
            output_edges := n.edges.output_edges ++ [e] } } : NodeState).id = iid
          from h2)] at hstep2
        subst hstep2
        refine ⟨rfl, ?_, ?_, ?_, ?_⟩
        · show E2.input_edges.Nodup
          rw [hE2in]
          exact nodup_append_singleton (hwf.2.1 n hn).1 hnotin
        · show E2.output_edges.Nodup
          rw [hE2out, if_pos h1]
          exact nodup_append_singleton (hwf.2.1 n hn).2 hnotout
        · intro x
          show x ∈ E2.input_edges ↔
            x ∈ n.edges.input_edges ∨ (x = e ∧ n.id = e.get_input_node)
          rw [hE2in]
          have hyes : n.id = e.get_input_node := by rw [hiid]; exact h2
          simp [hyes]
        · intro x
          show x ∈ E2.output_edges ↔
            x ∈ n.edges.output_edges ∨ (x = e ∧ n.id = e.get_output_node)
          rw [hE2out, if_pos h1]
          have hyes : n.id = e.get_output_node := by rw [hoid]; exact h1
          simp [hyes]
      · rw [if_neg (show ¬ ({ n with edges := { n.edges with
            output_edges := n.edges.output_edges ++ [e] } } : NodeState).id = iid
          from h2)] at hstep2
        subst hstep2
        refine ⟨rfl, ?_, ?_, ?_, ?_⟩
        · show n.edges.input_edges.Nodup
          exact (hwf.2.1 n hn).1
        · show (n.edges.output_edges ++ [e]).Nodup
          exact nodup_append_singleton (hwf.2.1 n hn).2 hnotout
        · intro x
          show x ∈ n.edges.input_edges ↔
            x ∈ n.edges.input_edges ∨ (x = e ∧ n.id = e.get_input_node)
          have hne : n.id ≠ e.get_input_node := by rw [hiid]; exact h2
          simp [hne]
        · intro x
          show x ∈ n.edges.output_edges ++ [e] ↔
            x ∈ n.edges.output_edges ∨ (x = e ∧ n.id = e.get_output_node)
          have hyes : n.id = e.get_output_node := by rw [hoid]; exact h1
          simp [hyes]
    · rw [if_neg h1] at hstep1
      subst hstep1
      by_cases h2 : n.id = iid
      · have hninS : n = inS := node_unique hwf.1 hn hinmem (h2.trans hinid.symm)
        subst hninS
        rw [if_pos h2] at hstep2
        subst hstep2
        refine ⟨rfl, ?_, ?_, ?_, ?_⟩
        · show E2.input_edges.Nodup
          rw [hE2in]
          exact nodup_append_singleton (hwf.2.1 n hn).1 hnotin
        · show E2.output_edges.Nodup
          rw [hE2out, if_neg h1]
          exact (hwf.2.1 n hn).2
        · intro x
          show x ∈ E2.input_edges ↔
            x ∈ n.edges.input_edges ∨ (x = e ∧ n.id = e.get_input_node)
          rw [hE2in]
          have hyes : n.id = e.get_input_node := by rw [hiid]; exact h2
          simp [hyes]
        · intro x
          show x ∈ E2.output_edges ↔
            x ∈ n.edges.output_edges ∨ (x = e ∧ n.id = e.get_output_node)
          rw [hE2out, if_neg h1]
          have hne : n.id ≠ e.get_output_node := by rw [hoid]; exact h1
          simp [hne]
      · rw [if_neg h2] at hstep2
        subst hstep2
        have hne_in : n.id ≠ e.get_input_node := by rw [hiid]; exact h2
        have hne_out : n.id ≠ e.get_output_node := by rw [hoid]; exact h1
        exact ⟨rfl, (hwf.2.1 n hn).1, (hwf.2.1 n hn).2,
          fun x => by simp [hne_in], fun x => by simp [hne_out]⟩

/-- The successful double modify of the remove-edge operations preserves
well-formedness (self-loops included). -/
theorem GraphWF.double_modify_remove {g : RenderGraph} (e : Edge) {oid iid : NodeId}
    {outS inS : NodeState} {newOut E2 : EdgeInfo}
    (hwf : GraphWF g)
    (hoid : e.get_output_node = oid) (hiid : e.get_input_node = iid)
    (hos : g.get_node_state? oid = some outS)
    (his : g.get_node_state? iid = some inS)
    (hnewOut : outS.edges.remove_output_edge e = .ok newOut)
    (hE2 : (if inS.id = oid then { inS with edges := newOut }
      else inS).edges.remove_input_edge e = .ok E2) :
    GraphWF ((g.modifyNode oid (fun n => { n with edges := newOut })).modifyNode
      iid (fun n => { n with edges := E2 })) := by
  have houtid : outS.id = oid := get_node_state?_id hos
  have hinid : inS.id = iid := get_node_state?_id his
  have houtmem := get_node_state?_mem hos
  have hinmem := get_node_state?_mem his
  obtain ⟨hnew_in, hnew_nd, hnew_iff⟩ :=
    remove_output_edge_ok_char (hwf.2.1 outS houtmem).2 hnewOut
  have hI_in : (if inS.id = oid then { inS with edges := newOut }
      else inS).edges.input_edges = inS.edges.input_edges := by
    by_cases hio : inS.id = oid
    · simp only [if_pos hio]
      have hsame : inS = outS := node_unique hwf.1 hinmem houtmem (by rw [hio, houtid])
      show newOut.input_edges = inS.edges.input_edges
      rw [hnew_in, hsame]
    · simp only [if_neg hio]
  obtain ⟨hE2_out, hE2_nd, hE2_iff⟩ := remove_input_edge_ok_char
    (by rw [hI_in]; exact (hwf.2.1 inS hinmem).1) hE2
  have hE2_iff' : ∀ x, x ∈ E2.input_edges ↔ x ∈ inS.edges.input_edges ∧ x ≠ e :=
    fun x => hI_in ▸ hE2_iff x
  have hE2_out' : E2.output_edges =
      if inS.id = oid then newOut.output_edges else inS.edges.output_edges := by
    rw [hE2_out]
    by_cases hio : inS.id = oid
    · simp only [if_pos hio]
    · simp only [if_neg hio]
  refine GraphWF.of_edge_subpred (fun x => x ≠ e) hwf ?_ ?_
  · rw [modifyNode_edges_ids, modifyNode_edges_ids]
    exact hwf.1
  · intro n' hn'
    obtain ⟨n1, hn1, hstep2⟩ := mem_modifyNode.mp hn'
    obtain ⟨n, hn, hstep1⟩ := mem_modifyNode.mp hn1
    refine ⟨n, hn, ?_⟩
    by_cases h1 : n.id = oid
    · have hnout : n = outS := node_unique hwf.1 hn houtmem (h1.trans houtid.symm)
      subst hnout
      rw [if_pos h1] at hstep1
      subst hstep1
      by_cases h2 : n.id = iid
      · have hninS : n = inS := node_unique hwf.1 hn hinmem (h2.trans hinid.symm)
        subst hninS
        rw [if_pos (show ({ n with edges := newOut } : NodeState).id = iid
          from h2)] at hstep2
        subst hstep2
        refine ⟨rfl, hE2_nd, ?_, fun x => hE2_iff' x, ?_⟩
        · show E2.output_edges.Nodup
          rw [hE2_out', if_pos h1]
          exact hnew_nd
        · intro x
          show x ∈ E2.output_edges ↔ x ∈ n.edges.output_edges ∧ x ≠ e
          rw [hE2_out', if_pos h1]
          exact hnew_iff x
      · rw [if_neg (show ¬ ({ n with edges := newOut } : NodeState).id = iid
          from h2)] at hstep2
        subst hstep2
        have hne_in : n.id ≠ e.get_input_node := by rw [hiid]; exact h2
        refine ⟨rfl, ?_, hnew_nd, ?_, fun x => hnew_iff x⟩
        · show newOut.input_edges.Nodup
          rw [hnew_in]
          exact (hwf.2.1 n hn).1
        · intro x
          show x ∈ newOut.input_edges ↔ x ∈ n.edges.input_edges ∧ x ≠ e
          rw [hnew_in]
          exact mem_iff_and_ne_of_not_mem (wf_in_unique hwf hn hne_in) x
    · rw [if_neg h1] at hstep1
      subst hstep1
      by_cases h2 : n.id = iid
      · have hninS : n = inS := node_unique hwf.1 hn hinmem (h2.trans hinid.symm)
        subst hninS
        rw [if_pos h2] at hstep2
        subst hstep2
        have hne_out : n.id ≠ e.get_output_node := by rw [hoid]; exact h1
        refine ⟨rfl, hE2_nd, ?_, fun x => hE2_iff' x, ?_⟩
        · show E2.output_edges.Nodup
          rw [hE2_out', if_neg h1]
          exact (hwf.2.1 n hn).2
        · intro x
          show x ∈ E2.output_edges ↔ x ∈ n.edges.output_edges ∧ x ≠ e
          rw [hE2_out', if_neg h1]
          exact mem_iff_and_ne_of_not_mem (wf_out_unique hwf hn hne_out) x
      · rw [if_neg h2] at hstep2
        subst hstep2
        have hne_in : n.id ≠ e.get_input_node := by rw [hiid]; exact h2
        have hne_out : n.id ≠ e.get_output_node := by rw [hoid]; exact h1
        exact ⟨rfl, (hwf.2.1 n hn).1, (hwf.2.1 n hn).2,
          fun x => mem_iff_and_ne_of_not_mem (wf_in_unique hwf hn hne_in) x,
          fun x => mem_iff_and_ne_of_not_mem (wf_out_unique hwf hn hne_out) x⟩

/-- The empty graph is well-formed. -/
theorem wf_empty : GraphWF RenderGraph.empty := by
  refine ⟨List.nodup_nil, ?_, ?_⟩ <;>
    exact fun n hn => absurd hn (List.not_mem_nil n)

/-- `add_node` with a fresh id preserves well-formedness. -/
theorem wf_add_node {g : RenderGraph} (hwf : GraphWF g) (id : NodeId)
    (name type_name : String) (input_slots output_slots : List SlotInfo)
    (hfresh : idUnreferenced g id) :
    GraphWF (g.add_node id name type_name input_slots output_slots) := by
  have hnodes : (g.add_node id name type_name input_slots output_slots).nodes =
      g.nodes ++ [({ id := id, name := some name, type_name := type_name,
                     input_slots := input_slots, output_slots := output_slots,
                     edges := { id := id, input_edges := [], output_edges := [] } } :
        NodeState)] := by
    simp only [RenderGraph.add_node, RenderGraph.nodes, insertNode]
    rw [if_neg ?_]
    intro hany
    obtain ⟨n, hn, hp⟩ := List.any_eq_true.mp hany
    exact hfresh.1 n hn (by simpa using hp)
  refine ⟨?_, ?_, ?_⟩
  · rw [hnodes, List.map_append]
    refine nodup_append_singleton hwf.1 ?_
    intro hmem
    obtain ⟨n, hn, hnid⟩ := List.mem_map.mp hmem
    exact hfresh.1 n hn hnid
  · intro n hn
    rw [hnodes] at hn
    rcases List.mem_append.mp hn with hm | hm
    · exact hwf.2.1 n hm
    · rw [List.mem_singleton] at hm
      subst hm
      exact ⟨List.nodup_nil, List.nodup_nil⟩
  · intro n hn
    rw [hnodes] at hn
    rcases List.mem_append.mp hn with hm | hm
    · obtain ⟨h1, h2⟩ := hwf.2.2 n hm
      refine ⟨fun e he => ⟨(h1 e he).1, ?_⟩, fun e he => ⟨(h2 e he).1, ?_⟩⟩
      · intro m hmm hmid
        rw [hnodes] at hmm
        rcases List.mem_append.mp hmm with hm' | hm'
        · exact (h1 e he).2 m hm' hmid
        · rw [List.mem_singleton] at hm'
          subst hm'
          exact absurd hmid.symm
            (hfresh.2 n hm e (List.mem_append_left _ he)).2
      · intro m hmm hmid
        rw [hnodes] at hmm
        rcases List.mem_append.mp hmm with hm' | hm'
        · exact (h2 e he).2 m hm' hmid
        · rw [List.mem_singleton] at hm'
          subst hm'
          exact absurd hmid.symm
            (hfresh.2 n hm e (List.mem_append_right _ he)).1
    · rw [List.mem_singleton] at hm
      subst hm
      exact ⟨fun e he => absurd he (List.not_mem_nil e),
        fun e he => absurd he (List.not_mem_nil e)⟩

/-- `set_input` with a fresh id preserves well-formedness. -/
theorem wf_set_input {g g' : RenderGraph} (hwf : GraphWF g) (id : NodeId)
    (slots : List SlotInfo) (hfresh : idUnreferenced g id)
    (hset : g.set_input id slots = some g') : GraphWF g' := by
  unfold RenderGraph.set_input at hset
  cases hin : g.input_node with
  | some x =>
    simp only [hin] at hset
    exact Option.noConfusion hset
  | none =>
    simp only [hin] at hset
    obtain rfl := Option.some.inj hset
    exact wf_congr_nodes rfl
      (wf_add_node hwf id "GraphInputNode" "GraphInputNode" slots slots hfresh)

/-- Membership in the node map after a `HashMap::remove`. -/
theorem mem_removeNodeEntry {ns : List NodeState} {id : NodeId} {n : NodeState} :
    n ∈ removeNodeEntry ns id ↔ n ∈ ns ∧ n.id ≠ id := by
  simp [removeNodeEntry, List.mem_filter]

/-- One producer-side strip step keeps the id list. -/
theorem removeOutputEdgeOf_ids (h : RenderGraph) (nid : NodeId) (e : Edge) :
    ((removeOutputEdgeOf h nid e).1.nodes.map (·.id)) = h.nodes.map (·.id) := by
  unfold removeOutputEdgeOf
  split
  · rfl
  · split
    · rfl
    · exact modifyNode_edges_ids h nid _

/-- One consumer-side strip step keeps the id list. -/
theorem removeInputEdgeOf_ids (h : RenderGraph) (nid : NodeId) (e : Edge) :
    ((removeInputEdgeOf h nid e).1.nodes.map (·.id)) = h.nodes.map (·.id) := by
  unfold removeInputEdgeOf
  split
  · rfl
  · split
    · rfl
    · exact modifyNode_edges_ids h nid _

/-- One producer-side strip step preserves well-formedness when no present
node carries the edge's input endpoint id. -/
theorem wf_removeOutputEdgeOf {h : RenderGraph} (hwf : GraphWF h) (nid : NodeId)
    (e : Edge) (hout : e.get_output_node = nid)
    (hnoin : ∀ n ∈ h.nodes, n.id ≠ e.get_input_node) :
    GraphWF (removeOutputEdgeOf h nid e).1 := by
  unfold removeOutputEdgeOf
  split
  next hgs => exact hwf
  next st hgs =>
    split
    next err hrm => exact hwf
    next newE hrm =>
      show GraphWF (h.modifyNode nid fun n => { n with edges := newE })
      have hstid : st.id = nid := get_node_state?_id hgs
      have hstmem := get_node_state?_mem hgs
      obtain ⟨hin_eq, hnd, hiff⟩ := remove_output_edge_ok_char (hwf.2.1 st hstmem).2 hrm
      refine GraphWF.of_edge_subpred (fun x => x ≠ e) hwf ?_ ?_
      · rw [modifyNode_edges_ids]
        exact hwf.1
      · intro n' hn'
        obtain ⟨n, hn, hstep⟩ := mem_modifyNode.mp hn'
        refine ⟨n, hn, ?_⟩
        have hne_in : n.id ≠ e.get_input_node := hnoin n hn
        by_cases h1 : n.id = nid
        · have hnst : n = st := node_unique hwf.1 hn hstmem (h1.trans hstid.symm)
          subst hnst
          rw [if_pos h1] at hstep
          subst hstep
          refine ⟨rfl, ?_, hnd, ?_, fun x => hiff x⟩
          · show newE.input_edges.Nodup
            rw [hin_eq]
            exact (hwf.2.1 n hn).1
          · intro x
            show x ∈ newE.input_edges ↔ x ∈ n.edges.input_edges ∧ x ≠ e
            rw [hin_eq]
            exact mem_iff_and_ne_of_not_mem (wf_in_unique hwf hn hne_in) x
        · rw [if_neg h1] at hstep
          subst hstep
          have hne_out : n.id ≠ e.get_output_node := by rw [hout]; exact h1
          exact ⟨rfl, (hwf.2.1 n hn).1, (hwf.2.1 n hn).2,
            fun x => mem_iff_and_ne_of_not_mem (wf_in_unique hwf hn hne_in) x,
            fun x => mem_iff_and_ne_of_not_mem (wf_out_unique hwf hn hne_out) x⟩

/-- One consumer-side strip step preserves well-formedness when no present
node carries the edge's output endpoint id. -/
theorem wf_removeInputEdgeOf {h : RenderGraph} (hwf : GraphWF h) (nid : NodeId)
    (e : Edge) (hin : e.get_input_node = nid)
    (hnoout : ∀ n ∈ h.nodes, n.id ≠ e.get_output_node) :
    GraphWF (removeInputEdgeOf h nid e).1 := by
  unfold removeInputEdgeOf
  split
  next hgs => exact hwf
  next st hgs =>
    split
    next err hrm => exact hwf
    next newE hrm =>
      show GraphWF (h.modifyNode nid fun n => { n with edges := newE })
      have hstid : st.id = nid := get_node_state?_id hgs
      have hstmem := get_node_state?_mem hgs
      obtain ⟨hout_eq, hnd, hiff⟩ := remove_input_edge_ok_char (hwf.2.1 st hstmem).1 hrm
      refine GraphWF.of_edge_subpred (fun x => x ≠ e) hwf ?_ ?_
      · rw [modifyNode_edges_ids]
        exact hwf.1
      · intro n' hn'
        obtain ⟨n, hn, hstep⟩ := mem_modifyNode.mp hn'
        refine ⟨n, hn, ?_⟩
        have hne_out : n.id ≠ e.get_output_node := hnoout n hn
        by_cases h1 : n.id = nid
        · have hnst : n = st := node_unique hwf.1 hn hstmem (h1.trans hstid.symm)
          subst hnst
          rw [if_pos h1] at hstep
          subst hstep
          refine ⟨rfl, hnd, ?_, fun x => hiff x, ?_⟩
          · show newE.output_edges.Nodup
            rw [hout_eq]
            exact (hwf.2.1 n hn).2
          · intro x
            show x ∈ newE.output_edges ↔ x ∈ n.edges.output_edges ∧ x ≠ e
            rw [hout_eq]
            exact mem_iff_and_ne_of_not_mem (wf_out_unique hwf hn hne_out) x
        · rw [if_neg h1] at hstep
          subst hstep
          have hne_in : n.id ≠ e.get_input_node := by rw [hin]; exact h1
          exact ⟨rfl, (hwf.2.1 n hn).1, (hwf.2.1 n hn).2,
            fun x => mem_iff_and_ne_of_not_mem (wf_in_unique hwf hn hne_in) x,
            fun x => mem_iff_and_ne_of_not_mem (wf_out_unique hwf hn hne_out) x⟩

/-- `remove_node`'s first strip loop preserves well-formedness and the id
list, given that the stripped edges' input endpoints name no present
node. -/
theorem stripInputEdges_wf (es : List Edge) :
    ∀ (h : RenderGraph), GraphWF h →
      (∀ e ∈ es, ∀ n ∈ h.nodes, n.id ≠ e.get_input_node) →
      GraphWF (stripInputEdges h es).1 ∧
      ((stripInputEdges h es).1.nodes.map (·.id)) = h.nodes.map (·.id) := by
  induction es with
  | nil => exact fun h hwf _ => ⟨hwf, rfl⟩
  | cons e es ih =>
    intro h hwf hcond
    simp only [stripInputEdges]
    cases hro : removeOutputEdgeOf h e.get_output_node e with
    | mk g1 o =>
      have hstep_wf : GraphWF g1 := by
        have hw := wf_removeOutputEdgeOf hwf e.get_output_node e rfl
          (hcond e (List.mem_cons_self e es))
        rw [hro] at hw
        exact hw
      have hstep_ids : g1.nodes.map (·.id) = h.nodes.map (·.id) := by
        have hi := removeOutputEdgeOf_ids h e.get_output_node e
        rw [hro] at hi
        exact hi
      cases o with
      | some err => exact ⟨hstep_wf, hstep_ids⟩
      | none =>
        have hcond' : ∀ e' ∈ es, ∀ n ∈ g1.nodes, n.id ≠ e'.get_input_node := by
          intro e' he' n hn
          have hidmem : n.id ∈ g1.nodes.map (·.id) := List.mem_map_of_mem _ hn
          rw [hstep_ids] at hidmem
          obtain ⟨m, hm, hmid⟩ := List.mem_map.mp hidmem
          rw [← hmid]
          exact hcond e' (List.mem_cons_of_mem e he') m hm
        obtain ⟨hw, hi⟩ := ih g1 hstep_wf hcond'
        exact ⟨hw, hi.trans hstep_ids⟩

/-- `remove_node`'s second strip loop, mirror statement. -/
theorem stripOutputEdges_wf (es : List Edge) :
    ∀ (h : RenderGraph), GraphWF h →
      (∀ e ∈ es, ∀ n ∈ h.nodes, n.id ≠ e.get_output_node) →
      GraphWF (stripOutputEdges h es).1 ∧
      ((stripOutputEdges h es).1.nodes.map (·.id)) = h.nodes.map (·.id) := by
  induction es with
  | nil => exact fun h hwf _ => ⟨hwf, rfl⟩
  | cons e es ih =>
    intro h hwf hcond
    simp only [stripOutputEdges]
    cases hro : removeInputEdgeOf h e.get_input_node e with
    | mk g1 o =>
      have hstep_wf : GraphWF g1 := by
        have hw := wf_removeInputEdgeOf hwf e.get_input_node e rfl
          (hcond e (List.mem_cons_self e es))
        rw [hro] at hw
        exact hw
      have hstep_ids : g1.nodes.map (·.id) = h.nodes.map (·.id) := by
        have hi := removeInputEdgeOf_ids h e.get_input_node e
        rw [hro] at hi
        exact hi
      cases o with
      | some err => exact ⟨hstep_wf, hstep_ids⟩
      | none =>
        have hcond' : ∀ e' ∈ es, ∀ n ∈ g1.nodes, n.id ≠ e'.get_output_node := by
          intro e' he' n hn
          have hidmem : n.id ∈ g1.nodes.map (·.id) := List.mem_map_of_mem _ hn
          rw [hstep_ids] at hidmem
          obtain ⟨m, hm, hmid⟩ := List.mem_map.mp hidmem
          rw [← hmid]
          exact hcond e' (List.mem_cons_of_mem e he') m hm
        obtain ⟨hw, hi⟩ := ih g1 hstep_wf hcond'
        exact ⟨hw, hi.trans hstep_ids⟩

/-- Unfolding equation for `remove_node` when the name resolves. -/
theorem remove_node_eq (g : RenderGraph) (name : String) (id : NodeId)
    (hl : lookupName g.node_names name = some id) :
    g.remove_node name =
      match g.get_node_state? id with
      | none => (RenderGraph.mk (removeNodeEntry g.nodes id)
          (removeName g.node_names name) g.sub_graphs g.input_node, none)
      | some node_state =>
        match stripInputEdges (RenderGraph.mk (removeNodeEntry g.nodes id)
            (removeName g.node_names name) g.sub_graphs g.input_node)
          node_state.edges.input_edges with
        | (g1, some err) => (g1, some err)
        | (g1, none) => stripOutputEdges g1 node_state.edges.output_edges := by
  unfold RenderGraph.remove_node
  rw [hl]

/-- `remove_node` preserves well-formedness. -/
theorem wf_remove_node {g : RenderGraph} (hwf : GraphWF g) (name : String) :
    GraphWF (g.remove_node name).1 := by
  cases hl : lookupName g.node_names name with
  | none =>
    unfold RenderGraph.remove_node
    rw [hl]
    exact hwf
  | some id =>
    rw [remove_node_eq g name id hl]
    have hg0sub : List.Sublist (RenderGraph.mk (removeNodeEntry g.nodes id)
        (removeName g.node_names name) g.sub_graphs g.input_node).nodes g.nodes :=
      List.filter_sublist g.nodes
    have hwf0 : GraphWF (RenderGraph.mk (removeNodeEntry g.nodes id)
        (removeName g.node_names name) g.sub_graphs g.input_node) :=
      GraphWF.of_nodes_sublist hg0sub hwf
    split
    next hgs => exact hwf0
    next node_state hgs =>
      have hnsmem := get_node_state?_mem hgs
      have hnsid : node_state.id = id := get_node_state?_id hgs
      have hin_ids : ∀ e ∈ node_state.edges.input_edges, e.get_input_node = id :=
        fun e he => ((hwf.2.2 node_state hnsmem).1 e he).1.trans hnsid
      have hout_ids : ∀ e ∈ node_state.edges.output_edges, e.get_output_node = id :=
        fun e he => ((hwf.2.2 node_state hnsmem).2 e he).1.trans hnsid
      have hcond1 : ∀ e ∈ node_state.edges.input_edges,
          ∀ n ∈ (RenderGraph.mk (removeNodeEntry g.nodes id)
            (removeName g.node_names name) g.sub_graphs g.input_node).nodes,
          n.id ≠ e.get_input_node := by
        intro e he n hn
        rw [hin_ids e he]
        exact (mem_removeNodeEntry.mp hn).2
      obtain ⟨hw1, hi1⟩ := stripInputEdges_wf node_state.edges.input_edges _ hwf0 hcond1
      split
      next g1 err hstrip =>
        rw [hstrip] at hw1
        exact hw1
      next g1 hstrip =>
        rw [hstrip] at hw1 hi1
        have hcond2 : ∀ e ∈ node_state.edges.output_edges,
            ∀ n ∈ g1.nodes, n.id ≠ e.get_output_node := by
          intro e he n hn
          rw [hout_ids e he]
          have hidmem : n.id ∈ g1.nodes.map (·.id) := List.mem_map_of_mem _ hn
          rw [hi1] at hidmem
          obtain ⟨m, hm, hmid⟩ := List.mem_map.mp hidmem
          rw [← hmid]
          exact (mem_removeNodeEntry.mp hm).2
        exact (stripOutputEdges_wf node_state.edges.output_edges g1 hw1 hcond2).1

/-- `try_add_slot_edge` preserves well-formedness. -/
theorem wf_try_add_slot_edge {g : RenderGraph} (hwf : GraphWF g) (onl : NodeLabel)
    (osl : SlotLabel) (inl : NodeLabel) (isl : SlotLabel) :
    GraphWF (g.try_add_slot_edge onl osl inl isl).1 := by
  cases hq : g.get_node_id onl with
  | error e =>
    rw [show g.try_add_slot_edge onl osl inl isl = (g, some e) from by
      simp [RenderGraph.try_add_slot_edge, hq]]
    exact hwf
  | ok oid =>
  cases hn : g.get_node_id inl with
  | error e =>
    rw [show g.try_add_slot_edge onl osl inl isl = (g, some e) from by
      simp [RenderGraph.try_add_slot_edge, hq, hn]]
    exact hwf
  | ok iid =>
  cases hos : g.get_node_state? oid with
  | none =>
    rw [show g.try_add_slot_edge onl osl inl isl =
        (g, some (.invalidNode (.id oid))) from by
      simp [RenderGraph.try_add_slot_edge, hq, hn, get_node_state_id_def, hos]]
    exact hwf
  | some outS =>
  cases hoi : get_slot_index outS.output_slots osl with
  | none =>
    rw [show g.try_add_slot_edge onl osl inl isl =
        (g, some (.invalidOutputNodeSlot osl)) from by
      simp [RenderGraph.try_add_slot_edge, hq, hn, get_node_state_id_def, hos, hoi]]
    exact hwf
  | some oi =>
  cases his : g.get_node_state? iid with
  | none =>
    rw [show g.try_add_slot_edge onl osl inl isl =
        (g, some (.invalidNode (.id iid))) from by
      simp [RenderGraph.try_add_slot_edge, hq, hn, get_node_state_id_def, hos, hoi, his]]
    exact hwf
  | some inS =>
  cases hii : get_slot_index inS.input_slots isl with
  | none =>
    rw [show g.try_add_slot_edge onl osl inl isl =
        (g, some (.invalidInputNodeSlot isl)) from by
      simp [RenderGraph.try_add_slot_edge, hq, hn, get_node_state_id_def, hos, hoi,
        his, hii]]
    exact hwf
  | some ii =>
  cases hv : g.validate_edge (Edge.slotEdge iid ii oid oi) .doesNotExist with
  | some e =>
    rw [show g.try_add_slot_edge onl osl inl isl = (g, some e) from by
      simp [RenderGraph.try_add_slot_edge, hq, hn, get_node_state_id_def, hos, hoi,
        his, hii, hv]]
    exact hwf
  | none =>
  by_cases hout : Edge.slotEdge iid ii oid oi ∈ outS.edges.output_edges
  · rw [show g.try_add_slot_edge onl osl inl isl =
        (g, some (.edgeAlreadyExists (Edge.slotEdge iid ii oid oi))) from by
      simp [RenderGraph.try_add_slot_edge, hq, hn, get_node_state_id_def, hos, hoi,
        his, hii, hv, EdgeInfo.add_output_edge, hout]]
    exact hwf
  · have hinid : inS.id = iid := get_node_state?_id his
    have hnotin := validate_none_not_in_input g iid ii oid oi hv inS his
    have hnotin2 : Edge.slotEdge iid ii oid oi ∉
        (if inS.id = oid then
          { inS with edges := { outS.edges with output_edges :=
              outS.edges.output_edges ++ [Edge.slotEdge iid ii oid oi] } }
        else inS).edges.input_edges := by
      by_cases hio : inS.id = oid
      · rw [if_pos hio]
        have hsame : inS = outS := by
          have hkey : iid = oid := hinid.symm.trans hio
          rw [hkey] at his
          rw [his] at hos
          exact Option.some.inj hos
        subst hsame
        exact hnotin
      · rw [if_neg hio]
        exact hnotin
    have hg1 : (g.modifyNode oid (fun n =>
        { n with edges := { outS.edges with output_edges :=
            outS.edges.output_edges ++ [Edge.slotEdge iid ii oid oi] } })).get_node_state? iid =
        some (if inS.id = oid then
          { inS with edges := { outS.edges with output_edges :=
              outS.edges.output_edges ++ [Edge.slotEdge iid ii oid oi] } }
        else inS) := by
      rw [modifyNode_edges_get, his]
      rfl
    rw [show g.try_add_slot_edge onl osl inl isl =
        ((g.modifyNode oid (fun n =>
            { n with edges := { outS.edges with output_edges :=
                outS.edges.output_edges ++ [Edge.slotEdge iid ii oid oi] } })).modifyNode iid
          (fun n =>
            { n with edges :=
              { (if inS.id = oid then
                  { inS with edges := { outS.edges with output_edges :=
                      outS.edges.output_edges ++ [Edge.slotEdge iid ii oid oi] } }
                else inS).edges with
                input_edges :=
                  (if inS.id = oid then
                    { inS with edges := { outS.edges with output_edges :=
                        outS.edges.output_edges ++ [Edge.slotEdge iid ii oid oi] } }
                  else inS).edges.input_edges ++ [Edge.slotEdge iid ii oid oi] } }), none) from by
      simp only [RenderGraph.try_add_slot_edge, hq, hn, get_node_state_id_def,
        hos, hoi, his, hii, hv, EdgeInfo.add_output_edge, EdgeInfo.add_input_edge]
      simp [hg1, hout, hnotin2]]
    exact GraphWF.double_modify_add (Edge.slotEdge iid ii oid oi) hwf rfl rfl hos his
      hout hnotin rfl

/-- `try_add_node_edge` preserves well-formedness — including on its
partial-mutation error path, where the edge is pushed to the output node's
output list before the input node lookup fails: the mirror invariant
tolerates that because the dangling input endpoint names no node. -/
theorem wf_try_add_node_edge {g : RenderGraph} (hwf : GraphWF g)
    (onl inl : NodeLabel) : GraphWF (g.try_add_node_edge onl inl).1 := by
  cases hq : g.get_node_id onl with
  | error e =>
    rw [show g.try_add_node_edge onl inl = (g, some e) from by
      simp [RenderGraph.try_add_node_edge, hq]]
    exact hwf
  | ok oid =>
  cases hn : g.get_node_id inl with
  | error e =>
    rw [show g.try_add_node_edge onl inl = (g, some e) from by
      simp [RenderGraph.try_add_node_edge, hq, hn]]
    exact hwf
  | ok iid =>
  cases hv : g.validate_edge (Edge.nodeEdge iid oid) .doesNotExist with
  | some e =>
    rw [show g.try_add_node_edge onl inl = (g, some e) from by
      simp [RenderGraph.try_add_node_edge, hq, hn, hv]]
    exact hwf
  | none =>
  cases hos : g.get_node_state? oid with
  | none =>
    rw [show g.try_add_node_edge onl inl = (g, some (.invalidNode (.id oid))) from by
      simp [RenderGraph.try_add_node_edge, hq, hn, hv, get_node_state_id_def, hos]]
    exact hwf
  | some outS =>
  by_cases hout : Edge.nodeEdge iid oid ∈ outS.edges.output_edges
  · rw [show g.try_add_node_edge onl inl =
        (g, some (.edgeAlreadyExists (Edge.nodeEdge iid oid))) from by
      simp [RenderGraph.try_add_node_edge, hq, hn, hv, get_node_state_id_def, hos,
        EdgeInfo.add_output_edge, hout]]
    exact hwf
  · cases his : g.get_node_state? iid with
    | none =>
      have hg1 : (g.modifyNode oid (fun n =>
          { n with edges := { outS.edges with output_edges :=
              outS.edges.output_edges ++ [Edge.nodeEdge iid oid] } })).get_node_state? iid =
          none := by
        rw [modifyNode_edges_get, his]
        rfl
      rw [show g.try_add_node_edge onl inl =
          (g.modifyNode oid (fun n =>
            { n with edges := { outS.edges with output_edges :=
                outS.edges.output_edges ++ [Edge.nodeEdge iid oid] } }),
           some (.invalidNode (.id iid))) from by
        simp only [RenderGraph.try_add_node_edge, hq, hn, hv, get_node_state_id_def,
          hos, EdgeInfo.add_output_edge]
        simp [hout, hg1, get_node_state_id_def]]
      exact GraphWF.single_modify_add (Edge.nodeEdge iid oid) hwf rfl hos hout
        (get_node_state?_none his)
    | some inS =>
      have hinid : inS.id = iid := get_node_state?_id his
      have hnotin : Edge.nodeEdge iid oid ∉ inS.edges.input_edges :=
        wf_edge_not_in_input hwf hos his hout
      have hnotin2 : Edge.nodeEdge iid oid ∉
          (if inS.id = oid then
            { inS with edges := { outS.edges with output_edges :=
                outS.edges.output_edges ++ [Edge.nodeEdge iid oid] } }
          else inS).edges.input_edges := by
        by_cases hio : inS.id = oid
        · rw [if_pos hio]
          have hsame : inS = outS := by
            have hkey : iid = oid := hinid.symm.trans hio
            rw [hkey] at his
            rw [his] at hos
            exact Option.some.inj hos
          subst hsame
          exact hnotin
        · rw [if_neg hio]
          exact hnotin
      have hg1 : (g.modifyNode oid (fun n =>
          { n with edges := { outS.edges with output_edges :=
              outS.edges.output_edges ++ [Edge.nodeEdge iid oid] } })).get_node_state? iid =
          some (if inS.id = oid then
            { inS with edges := { outS.edges with output_edges :=
                outS.edges.output_edges ++ [Edge.nodeEdge iid oid] } }
          else inS) := by
        rw [modifyNode_edges_get, his]
        rfl
      rw [show g.try_add_node_edge onl inl =
          ((g.modifyNode oid (fun n =>
              { n with edges := { outS.edges with output_edges :=
                  outS.edges.output_edges ++ [Edge.nodeEdge iid oid] } })).modifyNode iid
            (fun n =>
              { n with edges :=
                { (if inS.id = oid then
                    { inS with edges := { outS.edges with output_edges :=
                        outS.edges.output_edges ++ [Edge.nodeEdge iid oid] } }
                  else inS).edges with
                  input_edges :=
                    (if inS.id = oid then
                      { inS with edges := { outS.edges with output_edges :=
                          outS.edges.output_edges ++ [Edge.nodeEdge iid oid] } }
                    else inS).edges.input_edges ++ [Edge.nodeEdge iid oid] } }), none) from by
        simp only [RenderGraph.try_add_node_edge, hq, hn, hv, get_node_state_id_def,
          hos, EdgeInfo.add_output_edge, EdgeInfo.add_input_edge]
        simp [hg1, hout, hnotin2]]
      exact GraphWF.double_modify_add (Edge.nodeEdge iid oid) hwf rfl rfl hos his
        hout hnotin rfl

/-- `remove_slot_edge` preserves well-formedness. -/
theorem wf_remove_slot_edge {g : RenderGraph} (hwf : GraphWF g) (onl : NodeLabel)
    (osl : SlotLabel) (inl : NodeLabel) (isl : SlotLabel) :
    GraphWF (g.remove_slot_edge onl osl inl isl).1 := by
  cases hq : g.get_node_id onl with
  | error e =>
    rw [show g.remove_slot_edge onl osl inl isl = (g, some e) from by
      simp [RenderGraph.remove_slot_edge, hq]]
    exact hwf
  | ok oid =>
  cases hn : g.get_node_id inl with
  | error e =>
    rw [show g.remove_slot_edge onl osl inl isl = (g, some e) from by
      simp [RenderGraph.remove_slot_edge, hq, hn]]
    exact hwf
  | ok iid =>
  cases hos : g.get_node_state? oid with
  | none =>
    rw [show g.remove_slot_edge onl osl inl isl =
        (g, some (.invalidNode (.id oid))) from by
      simp [RenderGraph.remove_slot_edge, hq, hn, get_node_state_id_def, hos]]
    exact hwf
  | some outS =>
  cases hoi : get_slot_index outS.output_slots osl with
  | none =>
    rw [show g.remove_slot_edge onl osl inl isl =
        (g, some (.invalidOutputNodeSlot osl)) from by
      simp [RenderGraph.remove_slot_edge, hq, hn, get_node_state_id_def, hos, hoi]]
    exact hwf
  | some oi =>
  cases his : g.get_node_state? iid with
  | none =>
    rw [show g.remove_slot_edge onl osl inl isl =
        (g, some (.invalidNode (.id iid))) from by
      simp [RenderGraph.remove_slot_edge, hq, hn, get_node_state_id_def, hos, hoi, his]]
    exact hwf
  | some inS =>
  cases hii : get_slot_index inS.input_slots isl with
  | none =>
    rw [show g.remove_slot_edge onl osl inl isl =
        (g, some (.invalidInputNodeSlot isl)) from by
      simp [RenderGraph.remove_slot_edge, hq, hn, get_node_state_id_def, hos, hoi,
        his, hii]]
    exact hwf
  | some ii =>
  cases hv : g.validate_edge (Edge.slotEdge iid ii oid oi) .exist with
  | some e =>
    rw [show g.remove_slot_edge onl osl inl isl = (g, some e) from by
      simp [RenderGraph.remove_slot_edge, hq, hn, get_node_state_id_def, hos, hoi,
        his, hii, hv]]
    exact hwf
  | none =>
  have hhe : g.has_edge (Edge.slotEdge iid ii oid oi) = true := by
    by_cases hb : g.has_edge (Edge.slotEdge iid ii oid oi) = true
    · exact hb
    · exfalso
      have hsome : g.validate_edge (Edge.slotEdge iid ii oid oi) .exist =
          some (.edgeDoesNotExist (Edge.slotEdge iid ii oid oi)) := by
        unfold RenderGraph.validate_edge
        rw [if_pos ⟨rfl, hb⟩]
      exact Option.noConfusion (hv ▸ hsome)
  obtain ⟨oS, iS, hosE, hmemoutE, hisE, hmeminE⟩ := has_edge_true_elim hhe
  simp only [Edge.get_output_node] at hosE
  simp only [Edge.get_input_node] at hisE
  rw [hos] at hosE
  obtain rfl := Option.some.inj hosE
  rw [his] at hisE
  obtain rfl := Option.some.inj hisE
  have hinid : inS.id = iid := get_node_state?_id his
  have hsame_of : inS.id = oid → inS = outS := by
    intro hio
    have hkey : iid = oid := hinid.symm.trans hio
    rw [hkey] at his
    rw [his] at hos
    exact Option.some.inj hos
  obtain ⟨newOut, hrmOut, hrid, hrin, hrnd, hriff⟩ :=
    remove_output_edge_ok (hwf.2.1 outS (get_node_state?_mem hos)).2 hmemoutE
  have hmemin2 : Edge.slotEdge iid ii oid oi ∈
      (if inS.id = oid then { inS with edges := newOut } else inS).edges.input_edges := by
    by_cases hio : inS.id = oid
    · rw [if_pos hio]
      show Edge.slotEdge iid ii oid oi ∈ newOut.input_edges
      rw [hrin, ← hsame_of hio]
      exact hmeminE
    · rw [if_neg hio]
      exact hmeminE
  have hnd2 : (if inS.id = oid then { inS with edges := newOut }
      else inS).edges.input_edges.Nodup := by
    by_cases hio : inS.id = oid
    · rw [if_pos hio]
      show newOut.input_edges.Nodup
      rw [hrin, ← hsame_of hio]
      exact (hwf.2.1 inS (get_node_state?_mem his)).1
    · rw [if_neg hio]
      exact (hwf.2.1 inS (get_node_state?_mem his)).1
  obtain ⟨E2, hrmIn, hE2a, hE2b, hE2c, hE2d⟩ := remove_input_edge_ok hnd2 hmemin2
  have hg1 : (g.modifyNode oid (fun n => { n with edges := newOut })).get_node_state? iid =
      some (if inS.id = oid then { inS with edges := newOut } else inS) := by
    rw [modifyNode_edges_get, his]
    rfl
  rw [show g.remove_slot_edge onl osl inl isl =
      ((g.modifyNode oid (fun n => { n with edges := newOut })).modifyNode iid
        (fun n => { n with edges := E2 }), none) from by
    simp only [RenderGraph.remove_slot_edge, hq, hn, get_node_state_id_def, hos, hoi,
      his, hii, hv, hrmOut]
    simp [hg1, hrmIn]]
  exact GraphWF.double_modify_remove (Edge.slotEdge iid ii oid oi) hwf rfl rfl hos his
    hrmOut hrmIn

/-- `remove_node_edge` preserves well-formedness. -/
theorem wf_remove_node_edge {g : RenderGraph} (hwf : GraphWF g)
    (onl inl : NodeLabel) : GraphWF (g.remove_node_edge onl inl).1 := by
  cases hq : g.get_node_id onl with
  | error e =>
    rw [show g.remove_node_edge onl inl = (g, some e) from by
      simp [RenderGraph.remove_node_edge, hq]]
    exact hwf
  | ok oid =>
  cases hn : g.get_node_id inl with
  | error e =>
    rw [show g.remove_node_edge onl inl = (g, some e) from by
      simp [RenderGraph.remove_node_edge, hq, hn]]
    exact hwf
  | ok iid =>
  cases hv : g.validate_edge (Edge.nodeEdge iid oid) .exist with
  | some e =>
    rw [show g.remove_node_edge onl inl = (g, some e) from by
      simp [RenderGraph.remove_node_edge, hq, hn, hv]]
    exact hwf
  | none =>
  have hhe : g.has_edge (Edge.nodeEdge iid oid) = true := by
    by_cases hb : g.has_edge (Edge.nodeEdge iid oid) = true
    · exact hb
    · exfalso
      have hsome : g.validate_edge (Edge.nodeEdge iid oid) .exist =
          some (.edgeDoesNotExist (Edge.nodeEdge iid oid)) := by
        unfold RenderGraph.validate_edge
        rw [if_pos ⟨rfl, hb⟩]
      exact Option.noConfusion (hv ▸ hsome)
  obtain ⟨outS, inS, hosE, hmemoutE, hisE, hmeminE⟩ := has_edge_true_elim hhe
  simp only [Edge.get_output_node] at hosE
  simp only [Edge.get_input_node] at hisE
  have hinid : inS.id = iid := get_node_state?_id hisE
  have hsame_of : inS.id = oid → inS = outS := by
    intro hio
    have hkey : iid = oid := hinid.symm.trans hio
    rw [hkey] at hisE
    rw [hisE] at hosE
    exact Option.some.inj hosE
  obtain ⟨newOut, hrmOut, hrid, hrin, hrnd, hriff⟩ :=
    remove_output_edge_ok (hwf.2.1 outS (get_node_state?_mem hosE)).2 hmemoutE
  have hmemin2 : Edge.nodeEdge iid oid ∈
      (if inS.id = oid then { inS with edges := newOut } else inS).edges.input_edges := by
    by_cases hio : inS.id = oid
    · rw [if_pos hio]
      show Edge.nodeEdge iid oid ∈ newOut.input_edges
      rw [hrin, ← hsame_of hio]
      exact hmeminE
    · rw [if_neg hio]
      exact hmeminE
  have hnd2 : (if inS.id = oid then { inS with edges := newOut }
      else inS).edges.input_edges.Nodup := by
    by_cases hio : inS.id = oid
    · rw [if_pos hio]
      show newOut.input_edges.Nodup
      rw [hrin, ← hsame_of hio]
      exact (hwf.2.1 inS (get_node_state?_mem hisE)).1
    · rw [if_neg hio]
      exact (hwf.2.1 inS (get_node_state?_mem hisE)).1
  obtain ⟨E2, hrmIn, hE2a, hE2b, hE2c, hE2d⟩ := remove_input_edge_ok hnd2 hmemin2
  have hg1 : (g.modifyNode oid (fun n => { n with edges := newOut })).get_node_state? iid =
      some (if inS.id = oid then { inS with edges := newOut } else inS) := by
    rw [modifyNode_edges_get, hisE]
    rfl
  rw [show g.remove_node_edge onl inl =
      ((g.modifyNode oid (fun n => { n with edges := newOut })).modifyNode iid
        (fun n => { n with edges := E2 }), none) from by
    simp only [RenderGraph.remove_node_edge, hq, hn, hv, get_node_state_id_def,
      hosE, hrmOut]
    simp [hg1, hrmIn]]
  exact GraphWF.double_modify_remove (Edge.nodeEdge iid oid) hwf rfl rfl hosE hisE
    hrmOut hrmIn

/-- `add_node_edges` preserves well-formedness: every step is a
`try_add_node_edge` whose result graph is kept (errors other than
`EdgeAlreadyExists` abort with a panic, modelled as `none`). -/
theorem wf_add_node_edges (names : List String) : ∀ {g g' : RenderGraph},
    GraphWF g → g.add_node_edges names = some g' → GraphWF g' := by
  induction names with
  | nil =>
    intro g g' hwf h
    rw [show g.add_node_edges [] = some g from rfl] at h
    obtain rfl := Option.some.inj h
    exact hwf
  | cons a rest ih =>
    intro g g' hwf h
    cases rest with
    | nil =>
      rw [show g.add_node_edges [a] = some g from rfl] at h
      obtain rfl := Option.some.inj h
      exact hwf
    | cons b rest' =>
      have hwf1 := wf_try_add_node_edge hwf (.name a) (.name b)
      rw [show g.add_node_edges (a :: b :: rest') =
          (match g.try_add_node_edge (.name a) (.name b) with
          | (g1, none) => g1.add_node_edges (b :: rest')
          | (g1, some (.edgeAlreadyExists _)) => g1.add_node_edges (b :: rest')
          | (_, some _) => none) from rfl] at h
      cases htr : g.try_add_node_edge (.name a) (.name b) with
      | mk g1 o =>
        rw [htr] at h hwf1
        cases o with
        | none => exact ih hwf1 h
        | some err =>
          cases err with
          | edgeAlreadyExists e => exact ih hwf1 h
          | invalidNode l => exact Option.noConfusion h
          | invalidOutputNodeSlot l => exact Option.noConfusion h
          | invalidInputNodeSlot l => exact Option.noConfusion h
          | wrongNodeType => exact Option.noConfusion h
          | mismatchedNodeSlots a b c d => exact Option.noConfusion h
          | edgeDoesNotExist e => exact Option.noConfusion h
          | unconnectedNodeInputSlot a b => exact Option.noConfusion h
          | unconnectedNodeOutputSlot a b => exact Option.noConfusion h
          | nodeInputSlotAlreadyOccupied a b c => exact Option.noConfusion h

/-- Every reachable graph is well-formed. -/
theorem Reachable.wf {g : RenderGraph} (h : Reachable g) : GraphWF g := by
  induction h with
  | empty => exact wf_empty
  | add_node id name type_name input_slots output_slots _ hfresh ih =>
    exact wf_add_node ih id name type_name input_slots output_slots hfresh
  | set_input id slots _ hfresh hset ih => exact wf_set_input ih id slots hfresh hset
  | try_add_slot_edge onl osl inl isl _ ih => exact wf_try_add_slot_edge ih onl osl inl isl
  | try_add_node_edge onl inl _ ih => exact wf_try_add_node_edge ih onl inl
  | remove_slot_edge onl osl inl isl _ ih => exact wf_remove_slot_edge ih onl osl inl isl
  | remove_node_edge onl inl _ ih => exact wf_remove_node_edge ih onl inl
  | remove_node name _ ih => exact wf_remove_node ih name
  | add_node_edges names _ hadd ih => exact wf_add_node_edges names ih hadd

/-- Claim C10, amended: every `RenderGraph` reachable from the empty graph
through the public mutation operations (`add_node`, `set_input`,
`try_add_slot_edge`, `try_add_node_edge`, `remove_slot_edge`,
`remove_node_edge`, `remove_node`, `add_node_edges`) keeps its edge
bookkeeping symmetric for every edge both of whose endpoints name present
nodes: such an edge is present in the output-edge list of the node
carrying its output id if and only if it is present in the input-edge list
of the node carrying its input id — exactly the two memberships `has_edge`
tests. (Unconditionally the symmetry is false: see the dangling-edge
counterexample.) -/
theorem c10_reachable_edge_mirror {g : RenderGraph} (hreach : Reachable g)
    (e : Edge) (n m : NodeState) (hn : n ∈ g.nodes) (hm : m ∈ g.nodes)
    (hnid : n.id = e.get_output_node) (hmid : m.id = e.get_input_node) :
    e ∈ n.edges.output_edges ↔ e ∈ m.edges.input_edges := by
  have hwf := hreach.wf
  constructor
  · intro hx
    exact ((hwf.2.2 n hn).2 e hx).2 m hm hmid
  · intro hx
    exact ((hwf.2.2 m hm).1 e hx).2 n hn hnid

/-- Witness for C10: `twoNodeGraphConnected` is reachable (two `add_node`
calls with the counter-fresh ids 0 and 1, then the connect), and the slot
edge `A.b -> B.b` is mirrored between the two concrete node states. -/
theorem c10_reachable_edge_mirror_witness :
    Edge.slotEdge 1 0 0 0 ∈ connectedNodeA.edges.output_edges ↔
      Edge.slotEdge 1 0 0 0 ∈ connectedNodeB.edges.input_edges :=
  c10_reachable_edge_mirror
    (Reachable.try_add_slot_edge (.name "A") (.name "b") (.name "B") (.name "b")
      (Reachable.add_node 1 "B" "BNode" [⟨"b", .buffer⟩] [⟨"v", .imageView⟩]
        (Reachable.add_node 0 "A" "ANode" [] [⟨"b", .buffer⟩]
          Reachable.empty (by decide))
        (by decide)))
    (Edge.slotEdge 1 0 0 0) connectedNodeA connectedNodeB
    (by decide) (by decide) rfl rfl

/-- Claim C10 counterexample: the symmetry is not unconditional. The
reachable `danglingGraph` — built by `try_add_node_edge` naming an absent
input id, whose partial-mutation error path pushes the output edge before
the input-node lookup fails — holds a node edge in present node 0's
output-edge list whose input endpoint id 99 is carried by no present node:
the edge is in the output-edge list of its output node yet in no node's
input-edge list, so the claimed if-and-only-if fails on this graph. -/
theorem c10_dangling_edge_asymmetric :
    Reachable danglingGraph ∧
    ∃ e, ∃ n ∈ danglingGraph.nodes, n.id = e.get_output_node ∧
      e ∈ n.edges.output_edges ∧
      ∀ m ∈ danglingGraph.nodes, m.id ≠ e.get_input_node :=
  ⟨Reachable.try_add_node_edge (.id 0) (.id 99)
      (Reachable.add_node 0 "A" "ANode" [] [] Reachable.empty (by decide)),
    .nodeEdge 99 0, ⟨0, some "A", "ANode", [], [], ⟨0, [], [.nodeEdge 99 0]⟩⟩,
    by decide, rfl, by decide, by decide⟩

/-! Helper lemmas for the runner development (claim C1). -/

/-- Inserting a fresh key appends. -/
theorem assocInsert_fresh {β : Type} {l : List (Nat × β)} {k : Nat} (v : β)
    (h : assocLookup l k = none) : assocInsert l k v = l ++ [(k, v)] := by
  unfold assocInsert
  rw [if_neg ?_]
  intro hany
  obtain ⟨p, hp, hpk⟩ := List.any_eq_true.mp hany
  have hk : p.1 = k := by simpa using hpk
  have hfind := Option.map_eq_none'.mp h
  have := List.find?_eq_none.mp hfind p hp
  simp [hk] at this

/-- Looking up the appended fresh key. -/
theorem assocLookup_snoc_self {β : Type} {l : List (Nat × β)} {k : Nat} (v : β)
    (h : assocLookup l k = none) : assocLookup (l ++ [(k, v)]) k = some v := by
  have hfind := Option.map_eq_none'.mp h
  unfold assocLookup
  rw [List.find?_append, hfind]
  simp [List.find?]

/-- Looking up a different key skips the appended pair. -/
theorem assocLookup_snoc_ne {β : Type} {l : List (Nat × β)} {k x : Nat} (v : β)
    (h : x ≠ k) : assocLookup (l ++ [(k, v)]) x = assocLookup l x := by
  unfold assocLookup
  rw [List.find?_append]
  cases hf : l.find? (fun p => decide (p.1 = x)) with
  | some p => rfl
  | none =>
    simp [List.find?, show ¬ k = x from fun hh => h hh.symm]

/-- A successful lookup is list membership of the pair. -/
theorem assocLookup_some_mem {β : Type} {l : List (Nat × β)} {x : Nat} {vs : β}
    (h : assocLookup l x = some vs) : (x, vs) ∈ l := by
  unfold assocLookup at h
  cases hf : l.find? (fun p => decide (p.1 = x)) with
  | none => rw [hf] at h; cases h
  | some p =>
    rw [hf] at h
    have hmem := List.mem_of_find?_eq_some hf
    have hpx : p.1 = x := by simpa using List.find?_some hf
    have hp2 : p.2 = vs := by simpa using h
    cases p
    cases hpx
    cases hp2
    exact hmem

/-- The inserted key becomes executed. -/
theorem isExecuted_insert_self {outs : List (NodeId × List SlotValue)} {k : NodeId}
    (v : List SlotValue) (h : assocLookup outs k = none) :
    isExecuted (assocInsert outs k v) k = true := by
  rw [isExecuted, assocInsert_fresh v h, assocLookup_snoc_self v h]
  rfl

/-- Other keys' executed status is unchanged by a fresh insert. -/
theorem isExecuted_insert_ne {outs : List (NodeId × List SlotValue)} {k x : NodeId}
    (v : List SlotValue) (hf : assocLookup outs k = none) (h : x ≠ k) :
    isExecuted (assocInsert outs k v) x = isExecuted outs x := by
  rw [isExecuted, assocInsert_fresh v hf, assocLookup_snoc_ne v h]
  rfl

/-- Being executed is membership in the keys of `node_outputs`. -/
theorem isExecuted_mem_map {outs : List (NodeId × List SlotValue)} {x : NodeId} :
    isExecuted outs x = true ↔ x ∈ outs.map (·.1) := by
  unfold isExecuted assocLookup
  constructor
  · intro h
    cases hf : outs.find? (fun p => decide (p.1 = x)) with
    | none => rw [hf] at h; simp at h
    | some p =>
      have hmem := List.mem_of_find?_eq_some hf
      have hpx : p.1 = x := by simpa using List.find?_some hf
      exact hpx ▸ List.mem_map_of_mem _ hmem
  · intro h
    obtain ⟨p, hp, hpx⟩ := List.mem_map.mp h
    cases hf : outs.find? (fun p => decide (p.1 = x)) with
    | some q => simp [hf]
    | none =>
      have := List.find?_eq_none.mp hf p hp
      simp [hpx] at this

/-- Not being executed is a failed lookup. -/
theorem not_isExecuted_iff {outs : List (NodeId × List SlotValue)} {x : NodeId} :
    isExecuted outs x = false ↔ assocLookup outs x = none := by
  unfold isExecuted
  cases assocLookup outs x <;> simp

/-- `pop_back` fails only on the empty deque. -/
theorem dequePopBack_none {q : List α} (h : dequePopBack q = none) : q = [] := by
  unfold dequePopBack at h
  cases hl : q.getLast? with
  | some x => rw [hl] at h; cases h
  | none => exact List.getLast?_eq_none_iff.mp hl

/-- `pop_back` splits the deque into its front part and last element. -/
theorem dequePopBack_some {q : List α} {x : α} {r : List α}
    (h : dequePopBack q = some (x, r)) : q = r ++ [x] := by
  unfold dequePopBack at h
  cases hl : q.getLast? with
  | none => rw [hl] at h; cases h
  | some y =>
    rw [hl] at h
    have hxy : y = x := congrArg Prod.fst (Option.some.inj h)
    have hry : q.dropLast = r := congrArg Prod.snd (Option.some.inj h)
    have hne : q ≠ [] := by
      intro hq
      rw [hq] at hl
      cases hl
    have hgl : q.getLast hne = y := by
      have := List.getLast?_eq_getLast q hne
      rw [hl] at this
      exact (Option.some.inj this).symm
    rw [← hry, ← hxy, ← hgl]
    exact (List.dropLast_append_getLast hne).symm

/-- `findIdx` ignores a suffix when the prefix already contains a hit. -/
theorem findIdx_append_of_exists {p : α → Bool} {l1 : List α} (l2 : List α)
    (h : ∃ x ∈ l1, p x = true) : (l1 ++ l2).findIdx p = l1.findIdx p := by
  induction l1 with
  | nil => obtain ⟨x, hx, _⟩ := h; cases hx
  | cons a l ih =>
    by_cases hpa : p a = true
    · simp [List.findIdx_cons, hpa]
    · obtain ⟨x, hx, hpx⟩ := h
      have hxl : x ∈ l := by
        rcases List.mem_cons.mp hx with rfl | h'
        · exact absurd hpx hpa
        · exact h'
      simp [List.findIdx_cons, hpa, ih ⟨x, hxl, hpx⟩]

/-- Stable insertion grows the length by one. -/
theorem insSorted_length (x : Nat × SlotValue) (l : List (Nat × SlotValue)) :
    (insSorted x l).length = l.length + 1 := by
  induction l with
  | nil => rfl
  | cons y ys ih =>
    unfold insSorted
    by_cases hy : y.1 ≤ x.1
    · simp [hy, ih]
    · simp [hy]

/-- The stable sort keeps the length. -/
theorem sortByKey_length (l : List (Nat × SlotValue)) :
    (sortByKey l).length = l.length := by
  suffices h : ∀ acc : List (Nat × SlotValue),
      (l.foldl (fun acc x => insSorted x acc) acc).length = acc.length + l.length by
    simpa using h []
  induction l with
  | nil => intro acc; simp
  | cons x xs ih =>
    intro acc
    simp only [List.foldl_cons, ih, insSorted_length, List.length_cons]
    omega

/-- `countP` adds over pointwise-disjoint predicates. -/
theorem countP_disjoint_add {p q : α → Bool} (l : List α)
    (hdis : ∀ x ∈ l, ¬(p x = true ∧ q x = true)) :
    l.countP (fun x => p x || q x) = l.countP p + l.countP q := by
  induction l with
  | nil => rfl
  | cons a l ih =>
    have hrest := ih (fun x hx => hdis x (List.mem_cons_of_mem _ hx))
    have hha := hdis a (List.mem_cons_self _ _)
    rw [List.countP_cons, List.countP_cons, List.countP_cons, hrest]
    by_cases hpa : p a = true
    · have hqa : ¬ q a = true := fun hq => hha ⟨hpa, hq⟩
      simp [hpa, hqa]
      omega
    · by_cases hqa : q a = true
      · simp [hpa, hqa]
        omega
      · simp [hpa, hqa]

/-- Counting slot edges below `k` when each index below `k` is covered
exactly once. -/
theorem countP_isSlotBelow (l : List Edge) :
    ∀ k, (∀ i, i < k → l.countP (isSlotEdgeAt i) = 1) →
      l.countP (isSlotEdgeBelow k) = k := by
  intro k
  induction k with
  | zero =>
    intro _
    refine List.countP_eq_zero.mpr ?_
    intro e _
    cases e <;> simp [isSlotEdgeBelow]
  | succ k ih =>
    intro h
    have hcong : ∀ e ∈ l, isSlotEdgeBelow (k + 1) e = true ↔
        (isSlotEdgeBelow k e || isSlotEdgeAt k e) = true := by
      intro e _
      cases e with
      | slotEdge a ii c d =>
        simp [isSlotEdgeBelow, isSlotEdgeAt]
        omega
      | nodeEdge a b => simp [isSlotEdgeBelow, isSlotEdgeAt]
    have hdis : ∀ e ∈ l, ¬(isSlotEdgeBelow k e = true ∧ isSlotEdgeAt k e = true) := by
      intro e _
      cases e with
      | slotEdge a ii c d =>
        simp [isSlotEdgeBelow, isSlotEdgeAt]
        omega
      | nodeEdge a b => simp [isSlotEdgeBelow]
    rw [List.countP_congr hcong, countP_disjoint_add l hdis,
      ih (fun i hi => h i (by omega)), h k (by omega)]

/-- The number of slot edges equals the declared input arity when every
index is covered exactly once and all indices are in range. -/
theorem countP_isSlot_eq (l : List Edge) (k : Nat)
    (hcover : ∀ e ∈ l, ∀ inn ii onn oi, e = .slotEdge inn ii onn oi → ii < k)
    (hexact : ∀ i, i < k → l.countP (isSlotEdgeAt i) = 1) :
    l.countP Edge.isSlot = k := by
  have hcong : ∀ e ∈ l, Edge.isSlot e = true ↔ isSlotEdgeBelow k e = true := by
    intro e he
    cases e with
    | slotEdge inn ii onn oi =>
      simp [Edge.isSlot, isSlotEdgeBelow, hcover _ he inn ii onn oi rfl]
    | nodeEdge a b => simp [Edge.isSlot, isSlotEdgeBelow]
  rw [List.countP_congr hcong, countP_isSlotBelow l k hexact]

/-- Splitting a filtered sum at the unique element whose predicate value
flips. -/
theorem sum_filter_split {ns : List NodeState} (f : NodeState → Nat)
    (p q : NodeState → Bool) (st : NodeState)
    (hnd : ns.Nodup) (hst : st ∈ ns) (hp : p st = true) (hq : q st = false)
    (hagree : ∀ n ∈ ns, n ≠ st → p n = q n) :
    ((ns.filter p).map f).sum = ((ns.filter q).map f).sum + f st := by
  induction ns with
  | nil => cases hst
  | cons a l ih =>
    obtain ⟨hanl, hlnd⟩ := List.nodup_cons.mp hnd
    rcases List.mem_cons.mp hst with rfl | hst'
    · have hfilter_eq : l.filter p = l.filter q :=
        List.filter_congr (fun n hn =>
          hagree n (List.mem_cons_of_mem _ hn) (fun h => hanl (h ▸ hn)))
      rw [List.filter_cons_of_pos hp, List.filter_cons_of_neg (by simp [hq]),
        List.map_cons, List.sum_cons, hfilter_eq]
      omega
    · have hane : a ≠ st := fun h => hanl (h ▸ hst')
      have hpa_qa : p a = q a := hagree a (List.mem_cons_self _ _) hane
      have hrec := ih hlnd hst'
        (fun n hn hne => hagree n (List.mem_cons_of_mem _ hn) hne)
      by_cases hpa : p a = true
      · rw [List.filter_cons_of_pos hpa, List.filter_cons_of_pos (hpa_qa ▸ hpa),
          List.map_cons, List.map_cons, List.sum_cons, List.sum_cons, hrec]
        omega
      · rw [List.filter_cons_of_neg hpa, List.filter_cons_of_neg (hpa_qa ▸ hpa), hrec]

/-- Every nonempty list has an element minimizing a natural measure. -/
theorem exists_min_by {l : List α} (f : α → Nat) (h : l ≠ []) :
    ∃ a ∈ l, ∀ b ∈ l, f a ≤ f b := by
  induction l with
  | nil => cases h rfl
  | cons x xs ih =>
    cases xs with
    | nil =>
      refine ⟨x, List.mem_cons_self x [], ?_⟩
      intro b hb
      rcases List.mem_cons.mp hb with rfl | hb
      · exact le_refl _
      · cases hb
    | cons y ys =>
      obtain ⟨a, ha, hmin⟩ := ih (by simp)
      by_cases hxa : f x ≤ f a
      · refine ⟨x, List.mem_cons_self _ _, ?_⟩
        intro b hb
        rcases List.mem_cons.mp hb with rfl | hb
        · exact le_refl _
        · exact hxa.trans (hmin b hb)
      · refine ⟨a, List.mem_cons_of_mem _ ha, ?_⟩
        intro b hb
        rcases List.mem_cons.mp hb with rfl | hb
        · omega
        · exact hmin b hb

/-- A node id known to belong to some node can be looked up. -/
theorem get_node_state?_of_exists {g : RenderGraph} {x : NodeId}
    (h : ∃ m ∈ g.nodes, m.id = x) : ∃ st, g.get_node_state? x = some st := by
  obtain ⟨m, hm, hmx⟩ := h
  cases hf : g.get_node_state? x with
  | some st => exact ⟨st, rfl⟩
  | none => exact absurd hmx (get_node_state?_none hf m hm)

/-- The runner's input-validation loop succeeds on a well-typed,
long-enough input list, returning one value per declared slot. -/
theorem runnerCheckInputs_ok (gname : Option String) :
    ∀ (slots : List SlotInfo) (inputs : List SlotValue) (i : Nat),
      (∀ (k : Nat) (s : SlotInfo), slots[k]? = some s →
        ∃ v, inputs[i + k]? = some v ∧ v.slot_type = s.slot_type) →
      ∃ vals, runnerCheckInputs gname slots inputs i = .ok vals ∧
        vals.length = slots.length := by
  intro slots
  induction slots with
  | nil => exact fun inputs i _ => ⟨[], rfl, rfl⟩
  | cons slot slots ih =>
    intro inputs i h
    obtain ⟨v, hv, hty⟩ := h 0 slot (by simp)
    rw [show i + 0 = i from rfl] at hv
    obtain ⟨vals, hvals, hlen⟩ := ih inputs (i + 1) (fun k s hs => by
      have hh := h (k + 1) s (by simpa using hs)
      rwa [show i + (k + 1) = i + 1 + k from by omega] at hh)
    refine ⟨v :: vals, ?_, by simp [hlen]⟩
    simp only [runnerCheckInputs, hv]
    rw [if_neg (by simp [hty]), hvals]

/-- Output collection succeeds when every slot was set, with one value per
slot. -/
theorem collectOutputs_ok : ∀ (l : List (Option SlotValue)),
    (∀ o ∈ l, o.isSome) →
    ∃ vs, collectOutputs l = .ok vs ∧ vs.length = l.length := by
  intro l
  induction l with
  | nil => exact fun _ => ⟨[], rfl, rfl⟩
  | cons o l ih =>
    intro h
    cases o with
    | none => exact absurd (h none (List.mem_cons_self _ _)) (by simp)
    | some v =>
      obtain ⟨vs, hvs, hlen⟩ := ih (fun o ho => h o (List.mem_cons_of_mem _ ho))
      refine ⟨v :: vs, ?_, by simp [hlen]⟩
      simp only [collectOutputs, hvs]

/-- A successful `set_output` keeps the outputs length. -/
theorem set_output_length {output_slots : List SlotInfo}
    {outputs : List (Option SlotValue)} {label : SlotLabel} {value : SlotValue}
    {outs : List (Option SlotValue)}
    (h : set_output output_slots outputs label value = .ok outs) :
    outs.length = outputs.length := by
  unfold set_output at h
  cases h1 : get_slot_index output_slots label with
  | none => simp only [h1] at h; cases h
  | some idx =>
    simp only [h1] at h
    cases h2 : get_slot output_slots (.index idx) with
    | none => simp only [h2] at h; cases h
    | some slot =>
      simp only [h2] at h
      by_cases hty : value.slot_type ≠ slot.slot_type
      · rw [if_pos hty] at h
        cases h
      · rw [if_neg hty] at h
        obtain rfl := (Except.ok.inj h).symm
        exact List.length_set outputs idx _

/-- A successful `execCmds` keeps the outputs length. -/
theorem execCmds_ok_length (g : RenderGraph) (node : NodeState) :
    ∀ (cs : List NodeCmd) (st st' : CtxState),
      execCmds g node cs st = .ok st' → st'.outputs.length = st.outputs.length := by
  intro cs
  induction cs with
  | nil =>
    intro st st' h
    simp only [execCmds] at h
    obtain rfl := (Except.ok.inj h).symm
    rfl
  | cons c cs ih =>
    intro st st' h
    cases c with
    | setOutput label v =>
      simp only [execCmds] at h
      cases hso : set_output node.output_slots st.outputs label v with
      | error e => simp only [hso] at h; cases h
      | ok outs =>
        simp only [hso] at h
        have h1 := ih _ _ h
        have h2 := set_output_length hso
        exact h1.trans h2
    | runSubGraph name ins view =>
      simp only [execCmds] at h
      cases hrs : ctx_run_sub_graph g st.run_sub_graphs name ins view with
      | error e => simp only [hrs] at h; cases h
      | ok q =>
        have hh := ih (⟨st.outputs, q⟩ : CtxState) st'
          (show execCmds g node cs ⟨st.outputs, q⟩ = .ok st' from by
            simpa only [hrs] using h)
        exact hh

/-- Classification of the dependency check: under present producers and
in-range output indices it is either ready — with one gathered pair per
slot edge and every producer executed — or blocked on some unexecuted
producer. -/
theorem gather_cases (g : RenderGraph) (outs : List (NodeId × List SlotValue)) :
    ∀ (es : List Edge),
      (∀ e ∈ es, ∃ m ∈ g.nodes, m.id = e.get_output_node) →
      (∀ e ∈ es, ∀ inn ii onn oi, e = .slotEdge inn ii onn oi →
        ∀ vs, assocLookup outs onn = some vs → oi < vs.length) →
      (∃ pairs, gatherInputs g outs es = .ready pairs ∧
        pairs.length = es.countP Edge.isSlot ∧
        ∀ e ∈ es, isExecuted outs e.get_output_node = true) ∨
      (gatherInputs g outs es = .blocked ∧
        ∃ e ∈ es, isExecuted outs e.get_output_node = false) := by
  intro es
  induction es with
  | nil => exact fun _ _ => Or.inl ⟨[], rfl, rfl, fun e he => absurd he (List.not_mem_nil e)⟩
  | cons e es ih =>
    intro hprod hidx
    obtain ⟨st, hst⟩ := get_node_state?_of_exists (hprod e (List.mem_cons_self _ _))
    cases e with
    | slotEdge inn ii onn oi =>
      simp only [Edge.get_output_node] at hst
      cases hlk : assocLookup outs onn with
      | none =>
        refine Or.inr ⟨?_, Edge.slotEdge inn ii onn oi, List.mem_cons_self _ _, ?_⟩
        · simp only [gatherInputs, Edge.get_output_node, hst, hlk]
        · simp [isExecuted, Edge.get_output_node, hlk]
      | some vs =>
        have hoi : oi < vs.length := hidx _ (List.mem_cons_self _ _) inn ii onn oi rfl vs hlk
        have hvoi : vs[oi]? = some vs[oi] := List.getElem?_eq_getElem hoi
        rcases ih (fun e' he' => hprod e' (List.mem_cons_of_mem _ he'))
            (fun e' he' => hidx e' (List.mem_cons_of_mem _ he')) with
          ⟨pairs, hg, hlen, hallex⟩ | ⟨hg, e', he', hnex⟩
        · refine Or.inl ⟨(ii, vs[oi]) :: pairs, ?_, ?_, ?_⟩
          · simp only [gatherInputs, Edge.get_output_node, hst, hlk, hvoi, hg]
          · simp [List.countP_cons, Edge.isSlot, hlen]
          · intro e'' he''
            rcases List.mem_cons.mp he'' with rfl | h''
            · simp [isExecuted, Edge.get_output_node, hlk]
            · exact hallex e'' h''
        · refine Or.inr ⟨?_, e', List.mem_cons_of_mem _ he', hnex⟩
          simp only [gatherInputs, Edge.get_output_node, hst, hlk, hvoi, hg]
    | nodeEdge inn onn =>
      simp only [Edge.get_output_node] at hst
      cases hlk : assocLookup outs onn with
      | none =>
        refine Or.inr ⟨?_, Edge.nodeEdge inn onn, List.mem_cons_self _ _, ?_⟩
        · simp only [gatherInputs, Edge.get_output_node, hst, hlk]
        · simp [isExecuted, Edge.get_output_node, hlk]
      | some vs0 =>
        rcases ih (fun e' he' => hprod e' (List.mem_cons_of_mem _ he'))
            (fun e' he' => hidx e' (List.mem_cons_of_mem _ he')) with
          ⟨pairs, hg, hlen, hallex⟩ | ⟨hg, e', he', hnex⟩
        · refine Or.inl ⟨pairs, ?_, ?_, ?_⟩
          · simp only [gatherInputs, Edge.get_output_node, hst, hlk, hg]
          · simp [List.countP_cons, Edge.isSlot, hlen]
          · intro e'' he''
            rcases List.mem_cons.mp he'' with rfl | h''
            · simp [isExecuted, Edge.get_output_node, hlk]
            · exact hallex e'' h''
        · refine Or.inr ⟨?_, e', List.mem_cons_of_mem _ he', hnex⟩
          simp only [gatherInputs, Edge.get_output_node, hst, hlk, hg]

/-- Consumer enqueueing succeeds when every consumer exists, pushing one id
per edge onto the front and keeping the old queue. -/
theorem enqueue_spec (g : RenderGraph) :
    ∀ (es : List Edge) (q : List NodeId),
      (∀ e ∈ es, ∃ m ∈ g.nodes, m.id = e.get_input_node) →
      ∃ q', enqueueConsumers g es q = some q' ∧
        q'.length = es.length + q.length ∧
        (∀ x ∈ q', x ∈ q ∨ ∃ n ∈ g.nodes, n.id = x) ∧
        (∀ x ∈ q, x ∈ q') ∧
        (∀ e ∈ es, e.get_input_node ∈ q') := by
  intro es
  induction es with
  | nil =>
    intro q _
    exact ⟨q, rfl, by simp, fun x hx => Or.inl hx, fun x hx => hx,
      fun e he => absurd he (List.not_mem_nil e)⟩
  | cons e es ih =>
    intro q hcons
    obtain ⟨st, hst⟩ := get_node_state?_of_exists (hcons e (List.mem_cons_self _ _))
    have hstid : st.id = e.get_input_node := get_node_state?_id hst
    obtain ⟨q', hq', hlen, hmem, hpres, hedges⟩ := ih (dequePushFront st.id q)
      (fun e' he' => hcons e' (List.mem_cons_of_mem _ he'))
    refine ⟨q', ?_, ?_, ?_, ?_, ?_⟩
    · simp only [enqueueConsumers, hst, hq']
    · simp only [hlen, dequePushFront, List.length_cons]
      omega
    · intro x hx
      rcases hmem x hx with hx' | hx'
      · rcases List.mem_cons.mp hx' with rfl | hx''
        · exact Or.inr ⟨st, get_node_state?_mem hst, rfl⟩
        · exact Or.inl hx''
      · exact Or.inr hx'
    · intro x hx
      exact hpres x (List.mem_cons_of_mem _ hx)
    · intro e' he'
      rcases List.mem_cons.mp he' with rfl | he''
      · exact hstid ▸ hpres st.id (List.mem_cons_self _ _)
      · exact hedges e' he''

/-- Under acyclicity, whenever an unexecuted node exists there is an
unexecuted node all of whose producers are executed. -/
theorem exists_ready_node {g : RenderGraph} {rk : NodeId → Nat}
    (hpp : ProducersPresent g) (hacy : Acyclic g rk)
    (outs : List (NodeId × List SlotValue))
    {n0 : NodeState} (hn0 : n0 ∈ g.nodes) (hnex : isExecuted outs n0.id = false) :
    ∃ n ∈ g.nodes, isExecuted outs n.id = false ∧
      ∀ e ∈ n.edges.input_edges, isExecuted outs e.get_output_node = true := by
  have hne : g.nodes.filter (fun n => !(isExecuted outs n.id)) ≠ [] := by
    intro h
    have hmm : n0 ∈ g.nodes.filter (fun n => !(isExecuted outs n.id)) :=
      List.mem_filter.mpr ⟨hn0, by simp [hnex]⟩
    rw [h] at hmm
    cases hmm
  obtain ⟨nmin, hmin_mem, hmin⟩ := exists_min_by (fun n => rk n.id) hne
  obtain ⟨hmem, hflag⟩ := List.mem_filter.mp hmin_mem
  refine ⟨nmin, hmem, by simpa using hflag, ?_⟩
  intro e he
  by_contra hnn
  have hnex_p : isExecuted outs e.get_output_node = false := by
    cases hb : isExecuted outs e.get_output_node
    · rfl
    · exact absurd hb hnn
  obtain ⟨m, hm, hmid⟩ := (hpp nmin hmem).1 e he
  have hmS : m ∈ g.nodes.filter (fun n => !(isExecuted outs n.id)) :=
    List.mem_filter.mpr ⟨hm, by simp [hmid, hnex_p]⟩
  have h1 := hmin m hmS
  have h2 := hacy nmin hmem e he
  rw [hmid] at h1
  omega

/-- `nodeReady` unfolded through a successful node lookup. -/
theorem nodeReady_iff {g : RenderGraph} {outs : List (NodeId × List SlotValue)}
    {id : NodeId} {st : NodeState} (hst : g.get_node_state? id = some st) :
    nodeReady g outs id = true ↔ (isExecuted outs id = false ∧
      ∀ e ∈ st.edges.input_edges, isExecuted outs e.get_output_node = true) := by
  unfold nodeReady
  simp only [hst]
  constructor
  · intro h
    obtain ⟨h1, h2⟩ := Bool.and_eq_true_iff.mp h
    refine ⟨by simpa using h1, ?_⟩
    intro e he
    exact List.all_eq_true.mp h2 e he
  · intro hh
    refine Bool.and_eq_true_iff.mpr ⟨by simp [hh.1], ?_⟩
    exact List.all_eq_true.mpr (fun e he => hh.2 e he)

/-- Summing the constant 1 counts the length. -/
theorem sum_map_one (l : List α) : (l.map (fun _ => 1)).sum = l.length := by
  induction l with
  | nil => rfl
  | cons a l ih =>
    simp [ih]
    omega

/-- Main loop theorem: under the claim-C1 hypotheses the work-list loop
terminates in `.ok` once the fuel exceeds the loop measure, and the final
trace enumerates exactly the graph's nodes, each once, in `node_outputs`
insertion order. -/
theorem runLoop_ok (g : RenderGraph) (behave : Behavior) (rk : NodeId → Nat)
    (hwf : GraphWF g) (hpp : ProducersPresent g) (hacy : Acyclic g rk)
    (hfc : FullyConnected g) (hob : OutputIndexBounds g)
    (hgb : GoodBehavior g behave) :
    ∀ (fuel : Nat) (outs : List (NodeId × List SlotValue)) (queue trace : List NodeId),
      LoopInv g outs queue trace →
      loopMeasure g outs queue < fuel →
      ∃ outs' trace', runLoop behave fuel g outs queue trace = .ok outs' trace' ∧
        outs'.map (·.1) = trace' ∧ trace'.Nodup ∧
        (∀ id, id ∈ trace' ↔ ∃ n ∈ g.nodes, n.id = id) := by
  intro fuel
  induction fuel with
  | zero => intro outs queue trace _ hm; omega
  | succ fuel ih =>
    intro outs queue trace hinv hm
    obtain ⟨inv1, inv2, inv3, inv4, inv5, inv6, inv7⟩ := hinv
    cases hpop : dequePopBack queue with
    | none =>
      have hq := dequePopBack_none hpop
      subst hq
      refine ⟨outs, trace, by simp only [runLoop, hpop], inv1, inv2, ?_⟩
      have hallex : ∀ n ∈ g.nodes, isExecuted outs n.id = true := by
        intro n hn
        by_contra hnx
        have hnex : isExecuted outs n.id = false := by
          cases hb : isExecuted outs n.id
          · rfl
          · exact absurd hb hnx
        obtain ⟨nr, hnr, hnrex, hnrprod⟩ := exists_ready_node hpp hacy outs hn hnex
        rcases inv5 nr hnr (by simp [hnrex]) with hq | ⟨e, he, hB⟩
        · cases hq
        · exact hB (hnrprod e he)
      intro id
      constructor
      · intro hid
        rw [← inv1] at hid
        obtain ⟨p, hp, hpid⟩ := List.mem_map.mp hid
        obtain ⟨n, hn, hnid, _⟩ := inv3 p hp
        exact ⟨n, hn, hnid.trans hpid⟩
      · intro hh
        obtain ⟨n, hn, hnid⟩ := hh
        rw [← inv1, ← hnid]
        exact isExecuted_mem_map.mp (hallex n hn)
    | some pr =>
      obtain ⟨nid, rest⟩ := pr
      have hqeq : queue = rest ++ [nid] := dequePopBack_some hpop
      by_cases hex : (assocLookup outs nid).isSome
      · -- the popped node already ran: skip it
        have hnr_false : nodeReady g outs nid = false := by
          unfold nodeReady
          simp [isExecuted, hex]
        have hinv' : LoopInv g outs rest trace := by
          refine ⟨inv1, inv2, inv3, ?_, ?_, ?_, inv7⟩
          · intro id hid
            exact inv4 id (by rw [hqeq]; exact List.mem_append_left _ hid)
          · intro n hn hnx
            rcases inv5 n hn hnx with hq | hb
            · rw [hqeq] at hq
              rcases List.mem_append.mp hq with h' | h'
              · exact Or.inl h'
              · rw [List.mem_singleton] at h'
                exfalso
                apply hnx
                rw [h']
                exact hex
            · exact Or.inr hb
          · rw [hqeq] at inv6
            simp only [List.length_append, List.length_cons, List.length_nil] at inv6
            omega
        have hm' : loopMeasure g outs rest < fuel := by
          have hstep : loopMeasure g outs rest + 1 ≤ loopMeasure g outs queue := by
            simp only [loopMeasure]
            by_cases hU : (g.nodes.filter (fun n => !(isExecuted outs n.id))).length = 0
            · rw [if_pos hU, if_pos hU, hqeq]
              simp
            · rw [if_neg hU, if_neg hU]
              have hqrev : queue.reverse = nid :: rest.reverse := by
                rw [hqeq]
                simp
              rw [hqrev, List.findIdx_cons, hnr_false]
              simp
              omega
          omega
        obtain ⟨o', t', hrun, hprops⟩ := ih outs rest trace hinv' hm'
        refine ⟨o', t', ?_, hprops⟩
        rw [show runLoop behave (fuel + 1) g outs queue trace =
            runLoop behave fuel g outs rest trace from by
          simp only [runLoop, hpop]
          rw [if_pos hex]]
        exact hrun
      · -- the popped node has not run yet
        have hexf : isExecuted outs nid = false := by
          cases hb : assocLookup outs nid with
          | some v => exact absurd (by simp [isExecuted, hb]) hex
          | none => simp [isExecuted, hb]
        have hnid_mem : nid ∈ queue := by
          rw [hqeq]
          exact List.mem_append_right _ (List.mem_singleton.mpr rfl)
        obtain ⟨node_state, hns⟩ := get_node_state?_of_exists (inv4 nid hnid_mem)
        have hnsid : node_state.id = nid := get_node_state?_id hns
        have hnsmem : node_state ∈ g.nodes := get_node_state?_mem hns
        have hprod : ∀ e ∈ node_state.edges.input_edges,
            ∃ m ∈ g.nodes, m.id = e.get_output_node := (hpp node_state hnsmem).1
        have hidx : ∀ e ∈ node_state.edges.input_edges, ∀ inn ii onn oi,
            e = .slotEdge inn ii onn oi →
            ∀ vs, assocLookup outs onn = some vs → oi < vs.length := by
          intro e he inn ii onn oi heq vs hvs
          have hpmem := assocLookup_some_mem hvs
          obtain ⟨m, hm, hmid, hmlen⟩ := inv3 _ hpmem
          have hoi := hob node_state hnsmem e he inn ii onn oi heq m hm hmid
          have hmlen2 : m.output_slots.length ≤ vs.length := hmlen
          omega
        have hUold_mem : node_state ∈
            g.nodes.filter (fun n => !(isExecuted outs n.id)) :=
          List.mem_filter.mpr ⟨hnsmem, by simp [hnsid, hexf]⟩
        have hUold_ne : (g.nodes.filter (fun n => !(isExecuted outs n.id))).length ≠ 0 := by
          intro h0
          rw [List.length_eq_zero] at h0
          rw [h0] at hUold_mem
          cases hUold_mem
        rcases gather_cases g outs node_state.edges.input_edges hprod hidx with
          ⟨pairs, hg, hplen, hallex⟩ | ⟨hg, e0, he0, hnex0⟩
        · -- ready: execute the node
          have hnotinput : g.input_node ≠ some nid := by
            intro hh
            rcases inv7 nid hh with hdone | hnone
            · rw [hexf] at hdone
              cases hdone
            · exact hnone node_state hnsmem hnsid
          obtain ⟨hcount, hbound⟩ := hfc node_state hnsmem
            (show g.input_node ≠ some node_state.id from by rw [hnsid]; exact hnotinput)
          have hplen2 : pairs.length = node_state.input_slots.length := by
            rw [hplen]
            exact countP_isSlot_eq _ _ hbound hcount
          have hilen : ((sortByKey pairs).map (·.2)).length =
              node_state.input_slots.length := by
            rw [List.length_map, sortByKey_length, hplen2]
          obtain ⟨bouts, hexec, hsome⟩ := hgb node_state hnsmem ((sortByKey pairs).map (·.2))
          rw [hnsid] at hexec
          have hblen : bouts.length = node_state.output_slots.length := by
            have hl := execCmds_ok_length g node_state _ _ _ hexec
            simpa using hl
          obtain ⟨values, hcoll, hvlen⟩ := collectOutputs_ok bouts hsome
          have hlookup_none : assocLookup outs nid = none := not_isExecuted_iff.mp hexf
          obtain ⟨queue', henq, hqlen, hqmem, hqpres, hqedges⟩ := enqueue_spec g
            node_state.edges.output_edges rest (hpp node_state hnsmem).2
          have hexec_ne : ∀ x, x ≠ nid →
              isExecuted (assocInsert outs nid values) x = isExecuted outs x :=
            fun x hx => isExecuted_insert_ne values hlookup_none hx
          have hexec_self : isExecuted (assocInsert outs nid values) nid = true :=
            isExecuted_insert_self values hlookup_none
          have houts' : assocInsert outs nid values = outs ++ [(nid, values)] :=
            assocInsert_fresh values hlookup_none
          have hnid_trace : nid ∉ trace := by
            intro hmem
            rw [← inv1] at hmem
            have hh := isExecuted_mem_map.mpr hmem
            rw [hexf] at hh
            cases hh
          have hagree : ∀ n ∈ g.nodes, n ≠ node_state →
              (fun n => !(isExecuted outs n.id)) n =
              (fun n => !(isExecuted (assocInsert outs nid values) n.id)) n := by
            intro n hn hne
            have hid_ne : n.id ≠ nid := by
              intro hh
              exact hne (node_unique hwf.1 hn hnsmem (hh.trans hnsid.symm))
            simp only [hexec_ne n.id hid_ne]
          have hsum : ((g.nodes.filter (fun n => !(isExecuted outs n.id))).map
                (fun n => n.edges.output_edges.length)).sum =
              ((g.nodes.filter (fun n =>
                  !(isExecuted (assocInsert outs nid values) n.id))).map
                (fun n => n.edges.output_edges.length)).sum +
              node_state.edges.output_edges.length :=
            sum_filter_split _ _ _ node_state (hwf.1.of_map _) hnsmem
              (by simp [hnsid, hexf]) (by simp [hnsid, hexec_self]) hagree
          have hU : (g.nodes.filter (fun n => !(isExecuted outs n.id))).length =
              (g.nodes.filter (fun n =>
                !(isExecuted (assocInsert outs nid values) n.id))).length + 1 := by
            have h1 := sum_filter_split (fun _ => 1) _ _ node_state (hwf.1.of_map _)
              hnsmem (by simp [hnsid, hexf]) (by simp [hnsid, hexec_self]) hagree
            rw [sum_map_one, sum_map_one] at h1
            exact h1
          have inv6' : rest.length + 1 +
              ((g.nodes.filter (fun n => !(isExecuted outs n.id))).map
                (fun n => n.edges.output_edges.length)).sum ≤
              g.nodes.length + edgeTotal g := by
            rw [hqeq] at inv6
            simpa using inv6
          have hq'B : queue'.length +
              ((g.nodes.filter (fun n =>
                  !(isExecuted (assocInsert outs nid values) n.id))).map
                (fun n => n.edges.output_edges.length)).sum ≤
              g.nodes.length + edgeTotal g := by
            rw [hqlen]
            omega
          have hinv' : LoopInv g (assocInsert outs nid values) queue' (trace ++ [nid]) := by
            refine ⟨?_, nodup_append_singleton inv2 hnid_trace, ?_, ?_, ?_, hq'B, ?_⟩
            · rw [houts', List.map_append, inv1]
              rfl
            · intro p hp
              rw [houts'] at hp
              rcases List.mem_append.mp hp with h' | h'
              · exact inv3 p h'
              · rw [List.mem_singleton] at h'
                subst h'
                refine ⟨node_state, hnsmem, hnsid, ?_⟩
                rw [hvlen, hblen]
            · intro id hid
              rcases hqmem id hid with h' | h'
              · exact inv4 id (by rw [hqeq]; exact List.mem_append_left _ h')
              · exact h'
            · intro n hn hnx'
              have hne_nid : n.id ≠ nid := by
                intro hh
                apply hnx'
                rw [hh]
                rw [hexec_self]
              have hnx : ¬ isExecuted outs n.id := by
                rw [← hexec_ne n.id hne_nid]
                exact hnx'
              rcases inv5 n hn hnx with hq | ⟨e, he, hB⟩
              · rw [hqeq] at hq
                rcases List.mem_append.mp hq with h' | h'
                · exact Or.inl (hqpres _ h')
                · rw [List.mem_singleton] at h'
                  exact absurd h' hne_nid
              · by_cases hp_nid : e.get_output_node = nid
                · have he_out : e ∈ node_state.edges.output_edges :=
                    ((hwf.2.2 n hn).1 e he).2 node_state hnsmem (by rw [hnsid, hp_nid])
                  have hqin := hqedges e he_out
                  have hinn : e.get_input_node = n.id := ((hwf.2.2 n hn).1 e he).1
                  exact Or.inl (hinn ▸ hqin)
                · refine Or.inr ⟨e, he, ?_⟩
                  rw [hexec_ne _ hp_nid]
                  exact hB
            · intro iid hiid
              rcases inv7 iid hiid with hdone | hnone
              · left
                by_cases hii : iid = nid
                · rw [hii, hexec_self]
                · rw [hexec_ne iid hii]
                  exact hdone
              · exact Or.inr hnone
          have hdec : loopMeasure g (assocInsert outs nid values) queue' <
              loopMeasure g outs queue := by
            simp only [loopMeasure]
            rw [if_neg hUold_ne]
            have hmul : (g.nodes.filter (fun n => !(isExecuted outs n.id))).length *
                  (g.nodes.length + edgeTotal g + 1) =
                (g.nodes.filter (fun n =>
                  !(isExecuted (assocInsert outs nid values) n.id))).length *
                  (g.nodes.length + edgeTotal g + 1) +
                (g.nodes.length + edgeTotal g + 1) := by
              rw [hU]
              ring
            have hq'B2 : queue'.length ≤ g.nodes.length + edgeTotal g := by omega
            by_cases hUnew : (g.nodes.filter (fun n =>
                !(isExecuted (assocInsert outs nid values) n.id))).length = 0
            · rw [if_pos hUnew]
              omega
            · rw [if_neg hUnew]
              have hfind : (queue'.reverse).findIdx
                  (nodeReady g (assocInsert outs nid values)) ≤ queue'.length := by
                have hf : (queue'.reverse).findIdx
                    (nodeReady g (assocInsert outs nid values)) ≤
                    (queue'.reverse).length :=
                  List.findIdx_le_length (nodeReady g (assocInsert outs nid values))
                simpa using hf
              omega
          have hm' : loopMeasure g (assocInsert outs nid values) queue' < fuel := by
            omega
          obtain ⟨o', t', hrun, hprops⟩ :=
            ih (assocInsert outs nid values) queue' (trace ++ [nid]) hinv' hm'
          refine ⟨o', t', ?_, hprops⟩
          rw [show runLoop behave (fuel + 1) g outs queue trace =
              runLoop behave fuel g (assocInsert outs nid values) queue'
                (trace ++ [nid]) from by
            simp only [runLoop, hpop]
            rw [if_neg hex]
            simp only [hns, hg, hilen, ne_eq, not_true_eq_false, if_false, hexec,
              runSubs, hcoll, henq]]
          exact hrun
        · -- blocked: rotate the node to the front
          have hnr_false : nodeReady g outs nid = false := by
            cases hb : nodeReady g outs nid
            · rfl
            · have hready := (nodeReady_iff hns).mp hb
              have := hready.2 e0 he0
              rw [hnex0] at this
              cases this
          have hinv' : LoopInv g outs (dequePushFront nid rest) trace := by
            refine ⟨inv1, inv2, inv3, ?_, ?_, ?_, inv7⟩
            · intro id hid
              rcases List.mem_cons.mp hid with rfl | h'
              · exact inv4 id hnid_mem
              · exact inv4 id (by rw [hqeq]; exact List.mem_append_left _ h')
            · intro n hn hnx
              rcases inv5 n hn hnx with hq | hb
              · rw [hqeq] at hq
                rcases List.mem_append.mp hq with h' | h'
                · exact Or.inl (List.mem_cons_of_mem _ h')
                · rw [List.mem_singleton] at h'
                  exact Or.inl (h' ▸ List.mem_cons_self _ _)
              · exact Or.inr hb
            · rw [hqeq] at inv6
              simp only [dequePushFront, List.length_cons, List.length_append,
                List.length_nil] at inv6 ⊢
              omega
          have hm' : loopMeasure g outs (dequePushFront nid rest) < fuel := by
            obtain ⟨nr, hnr, hnrex, hnrprod⟩ := exists_ready_node hpp hacy outs hnsmem
              (by rw [hnsid]; exact hexf)
            have hnr_ready : nodeReady g outs nr.id = true := by
              rw [nodeReady_iff (mem_get_node_state? hwf.1 hnr)]
              exact ⟨hnrex, hnrprod⟩
            have hnr_ne : nr.id ≠ nid := by
              intro hh
              have hsame : nr = node_state := node_unique hwf.1 hnr hnsmem
                (hh.trans hnsid.symm)
              rw [hsame] at hnrprod
              have hcontr := hnrprod e0 he0
              rw [hnex0] at hcontr
              cases hcontr
            rcases inv5 nr hnr (by simp [hnrex]) with hqm | ⟨e, he, hB⟩
            · have hnr_rest : nr.id ∈ rest := by
                rw [hqeq] at hqm
                rcases List.mem_append.mp hqm with h' | h'
                · exact h'
                · rw [List.mem_singleton] at h'
                  exact absurd h' hnr_ne
              have hdec : loopMeasure g outs (dequePushFront nid rest) <
                  loopMeasure g outs queue := by
                simp only [loopMeasure]
                rw [if_neg hUold_ne, if_neg hUold_ne]
                have hrev_new : (dequePushFront nid rest).reverse =
                    rest.reverse ++ [nid] := by simp [dequePushFront]
                have hrev_old : queue.reverse = nid :: rest.reverse := by
                  rw [hqeq]
                  simp
                rw [hrev_new, hrev_old,
                  findIdx_append_of_exists _ ⟨nr.id, List.mem_reverse.mpr hnr_rest,
                    hnr_ready⟩,
                  List.findIdx_cons, hnr_false]
                simp
              omega
            · exact absurd (hnrprod e he) (by simpa using hB)
          obtain ⟨o', t', hrun, hprops⟩ := ih outs (dequePushFront nid rest) trace hinv' hm'
          refine ⟨o', t', ?_, hprops⟩
          rw [show runLoop behave (fuel + 1) g outs queue trace =
              runLoop behave fuel g outs (dequePushFront nid rest) trace from by
            simp only [runLoop, hpop]
            rw [if_neg hex]
            simp only [hns, hg]]
          exact hrun

/-- Claim C1: for every well-formed acyclic render graph whose declared
input slots are each connected by exactly one slot edge (the designated
input node's slots, fed from `inputs`, excepted), with all edge endpoints
present and all producer output indices in range, and whose every node run
succeeds, sets all of its declared output slots and queues no sub-graphs,
`run_graph` terminates (for sufficient fuel — the source loop is unbounded)
with an `.ok` result in which the execution trace lists every node of the
graph exactly once and `node_outputs` holds exactly one entry per node, in
trace order. -/
theorem c1_run_graph_executes_each_node_once
    (g : RenderGraph) (behave : Behavior) (rk : NodeId → Nat)
    (inputs : List SlotValue) (gname : Option String) (view : Option Nat)
    (hwf : GraphWF g) (hpp : ProducersPresent g) (hacy : Acyclic g rk)
    (hfc : FullyConnected g) (hob : OutputIndexBounds g)
    (hgb : GoodBehavior g behave) (hiv : InputsValid g inputs) :
    ∃ fuel outs trace, run_graph behave fuel g gname inputs view = .ok outs trace ∧
      outs.map (·.1) = trace ∧ trace.Nodup ∧
      (∀ id, id ∈ trace ↔ ∃ n ∈ g.nodes, n.id = id) := by
  have hq0mem : ∀ x ∈ (g.nodes.filter (fun n => n.input_slots.isEmpty)).map (·.id),
      ∃ n ∈ g.nodes, n.id = x := by
    intro x hx
    obtain ⟨n, hn, hnx⟩ := List.mem_map.mp hx
    exact ⟨n, (List.mem_filter.mp hn).1, hnx⟩
  have hq0len : ((g.nodes.filter (fun n => n.input_slots.isEmpty)).map (·.id)).length ≤
      g.nodes.length := by
    rw [List.length_map]
    exact List.length_filter_le _ _
  have hq0in : ∀ n ∈ g.nodes, n.input_slots.isEmpty →
      n.id ∈ (g.nodes.filter (fun n => n.input_slots.isEmpty)).map (·.id) := by
    intro n hn hni
    exact List.mem_map_of_mem _ (List.mem_filter.mpr ⟨hn, hni⟩)
  have hexec_nil : ∀ x, isExecuted ([] : List (NodeId × List SlotValue)) x = false :=
    fun x => rfl
  have hslot0 : ∀ n ∈ g.nodes, g.input_node ≠ some n.id → ¬ n.input_slots.isEmpty →
      ∃ e ∈ n.edges.input_edges, isSlotEdgeAt 0 e = true := by
    intro n hn hnotinp hni
    have hnlen : 0 < n.input_slots.length := by
      cases hi : n.input_slots with
      | nil => rw [hi] at hni; simp at hni
      | cons a l => simp [hi]
    obtain ⟨hcount, _⟩ := hfc n hn hnotinp
    have hpos : 0 < n.edges.input_edges.countP (isSlotEdgeAt 0) := by
      rw [hcount 0 hnlen]
      omega
    exact List.countP_pos_iff.mp hpos
  cases hgin : g.get_input_node with
  | none =>
    have hnoinpnode : ∀ n ∈ g.nodes, g.input_node ≠ some n.id := by
      intro n hn hh
      have hsome : g.get_input_node = some n := by
        unfold RenderGraph.get_input_node
        rw [hh]
        simp [get_node_state_id (mem_get_node_state? hwf.1 hn)]
      rw [hgin] at hsome
      cases hsome
    have hinv0 : LoopInv g []
        ((g.nodes.filter (fun n => n.input_slots.isEmpty)).map (·.id)) [] := by
      refine ⟨rfl, List.nodup_nil, ?_, hq0mem, ?_, ?_, ?_⟩
      · intro p hp
        cases hp
      · intro n hn hnx
        by_cases hni : n.input_slots.isEmpty
        · exact Or.inl (hq0in n hn hni)
        · obtain ⟨e, he, _⟩ := hslot0 n hn (hnoinpnode n hn) hni
          refine Or.inr ⟨e, he, ?_⟩
          rw [hexec_nil]
          simp
      · have hfe : g.nodes.filter (fun n => !(isExecuted [] n.id)) = g.nodes :=
          List.filter_eq_self.mpr (fun n _ => by rw [hexec_nil]; rfl)
        rw [hfe]
        have hsum : (g.nodes.map (fun n => n.edges.output_edges.length)).sum =
            edgeTotal g := rfl
        omega
      · intro iid hiid
        refine Or.inr ?_
        intro n hn hh
        exact hnoinpnode n hn (hh ▸ hiid)
    obtain ⟨outs', trace', hrun, h1, h2, h3⟩ := runLoop_ok g behave rk hwf hpp hacy
      hfc hob hgb
      (loopMeasure g [] ((g.nodes.filter (fun n => n.input_slots.isEmpty)).map (·.id)) + 1)
      [] ((g.nodes.filter (fun n => n.input_slots.isEmpty)).map (·.id)) [] hinv0
      (by omega)
    refine ⟨loopMeasure g []
        ((g.nodes.filter (fun n => n.input_slots.isEmpty)).map (·.id)) + 2,
      outs', trace', ?_, h1, h2, h3⟩
    rw [show run_graph behave
        (loopMeasure g [] ((g.nodes.filter (fun n => n.input_slots.isEmpty)).map (·.id)) + 2)
        g gname inputs view =
        runLoop behave
          (loopMeasure g [] ((g.nodes.filter (fun n => n.input_slots.isEmpty)).map (·.id)) + 1)
          g [] ((g.nodes.filter (fun n => n.input_slots.isEmpty)).map (·.id)) [] from by
      simp only [run_graph, hgin]]
    exact hrun
  | some ist =>
    have hext : ∃ iid, g.input_node = some iid ∧ g.get_node_state? iid = some ist := by
      unfold RenderGraph.get_input_node at hgin
      cases hin : g.input_node with
      | none => rw [hin] at hgin; cases hgin
      | some iid =>
        rw [hin] at hgin
        simp only [Option.some_bind] at hgin
        cases hgs : g.get_node_state? iid with
        | none =>
          rw [get_node_state_id_def, hgs] at hgin
          cases hgin
        | some st =>
          rw [get_node_state_id_def, hgs] at hgin
          exact ⟨iid, rfl, by rw [hgs, Option.some.inj hgin]⟩
    obtain ⟨iid, hin, hist⟩ := hext
    have histid : ist.id = iid := get_node_state?_id hist
    have histmem : ist ∈ g.nodes := get_node_state?_mem hist
    obtain ⟨st2, hst2, hlen2, hvals⟩ := hiv iid hin
    have hst2eq : st2 = ist := by
      rw [hist] at hst2
      exact (Option.some.inj hst2).symm
    rw [hst2eq] at hlen2 hvals
    obtain ⟨values, hchk, hvlen⟩ := runnerCheckInputs_ok gname ist.input_slots inputs 0
      (fun k s hs => by
        obtain ⟨v, hv, hty⟩ := hvals k s hs
        exact ⟨v, by simpa using hv, hty⟩)
    obtain ⟨queue1, henq, hq1len, hq1mem, hq1pres, hq1edges⟩ := enqueue_spec g
      ist.edges.output_edges ((g.nodes.filter (fun n => n.input_slots.isEmpty)).map (·.id))
      (hpp ist histmem).2
    have hex_self : isExecuted (assocInsert [] ist.id values) ist.id = true := by
      simp [assocInsert, isExecuted, assocLookup, List.find?]
    have hex_ne : ∀ x, x ≠ ist.id →
        isExecuted (assocInsert [] ist.id values) x = false := by
      intro x hx
      simp [assocInsert, isExecuted, assocLookup, List.find?,
        show ¬ ist.id = x from fun hh => hx hh.symm]
    have hinv0 : LoopInv g (assocInsert [] ist.id values) queue1 [ist.id] := by
      refine ⟨rfl, List.nodup_singleton _, ?_, ?_, ?_, ?_, ?_⟩
      · intro p hp
        have hp' : p = (ist.id, values) := List.mem_singleton.mp hp
        subst hp'
        refine ⟨ist, histmem, rfl, ?_⟩
        show ist.output_slots.length ≤ values.length
        omega
      · intro id hid
        rcases hq1mem id hid with h' | h'
        · exact hq0mem id h'
        · exact h'
      · intro n hn hnx
        have hne : n.id ≠ ist.id := by
          intro hh
          apply hnx
          rw [hh, hex_self]
        by_cases hni : n.input_slots.isEmpty
        · exact Or.inl (hq1pres _ (hq0in n hn hni))
        · have hnotinp : g.input_node ≠ some n.id := by
            rw [hin]
            intro hh
            exact hne ((Option.some.inj hh).symm.trans histid.symm)
          obtain ⟨e, he, _⟩ := hslot0 n hn hnotinp hni
          by_cases hprod_ex : e.get_output_node = ist.id
          · have he_out : e ∈ ist.edges.output_edges :=
              ((hwf.2.2 n hn).1 e he).2 ist histmem hprod_ex.symm
            have hqin := hq1edges e he_out
            have hinn : e.get_input_node = n.id := ((hwf.2.2 n hn).1 e he).1
            exact Or.inl (hinn ▸ hqin)
          · refine Or.inr ⟨e, he, ?_⟩
            rw [hex_ne _ hprod_ex]
            simp
      · have hagree : ∀ n ∈ g.nodes, n ≠ ist →
            (fun n => !(isExecuted ([] : List (NodeId × List SlotValue)) n.id)) n =
            (fun n => !(isExecuted (assocInsert [] ist.id values) n.id)) n := by
          intro n hn hne
          have hid_ne : n.id ≠ ist.id := by
            intro hh
            exact hne (node_unique hwf.1 hn histmem hh)
          simp only [hex_ne n.id hid_ne, hexec_nil]
        have hsum := sum_filter_split (fun n => n.edges.output_edges.length) _ _ ist
          (hwf.1.of_map _) histmem (by rw [hexec_nil]; rfl)
          (by rw [hex_self]; rfl) hagree
        have hfe : g.nodes.filter
            (fun n => !(isExecuted ([] : List (NodeId × List SlotValue)) n.id)) =
            g.nodes :=
          List.filter_eq_self.mpr (fun n _ => by rw [hexec_nil]; rfl)
        rw [hfe] at hsum
        have hsum2 : edgeTotal g =
            ((g.nodes.filter (fun n =>
                !(isExecuted (assocInsert [] ist.id values) n.id))).map
              (fun n => n.edges.output_edges.length)).sum +
            ist.edges.output_edges.length := hsum
        rw [hq1len]
        omega
      · intro iid' hiid'
        left
        have hii : iid' = iid := by
          rw [hin] at hiid'
          exact (Option.some.inj hiid').symm
        rw [hii, ← histid, hex_self]
    obtain ⟨outs', trace', hrun, h1, h2, h3⟩ := runLoop_ok g behave rk hwf hpp hacy
      hfc hob hgb
      (loopMeasure g (assocInsert [] ist.id values) queue1 + 1)
      (assocInsert [] ist.id values) queue1 [ist.id] hinv0 (by omega)
    refine ⟨loopMeasure g (assocInsert [] ist.id values) queue1 + 2,
      outs', trace', ?_, h1, h2, h3⟩
    rw [show run_graph behave
        (loopMeasure g (assocInsert [] ist.id values) queue1 + 2) g gname inputs view =
        runLoop behave (loopMeasure g (assocInsert [] ist.id values) queue1 + 1)
          g (assocInsert [] ist.id values) queue1 [ist.id] from by
      simp only [run_graph, hgin, hchk, henq]]
    exact hrun

/-- Claim C1 counterexample: the claim's premises do not suffice. On a
graph holding a dangling node edge — left behind by `try_add_node_edge`'s
partial-mutation error path, reachable through the public API — that is
acyclic, has every declared input slot connected (vacuously: the only node
declares none), and whose only node's run succeeds setting all (zero) of
its declared output slots, `run_graph` panics for every sufficient fuel
(the `get_node_state(..).unwrap()` over the executed node's output edges),
instead of returning with every node executed once: an
all-edge-endpoints-present premise is needed. -/
theorem c1_dangling_edge_panics :
    Acyclic danglingGraph (fun id => id) ∧
    FullyConnected danglingGraph ∧
    GoodBehavior danglingGraph (fun _ _ => []) ∧
    (∀ fuel, run_graph (fun _ _ => []) (fuel + 2) danglingGraph none [] none =
      .panicked [0]) := by
  refine ⟨by decide, ?_, ?_, fun fuel => by
    show (match runSubs (fun _ _ => []) fuel danglingGraph [] with
      | some (.err e _) => RunResult.err e []
      | some (.panicked _) => RunResult.panicked []
      | some .outOfFuel => RunResult.outOfFuel
      | some (.ok o t) => RunResult.ok o t
      | none => RunResult.panicked [0]) = RunResult.panicked [0]
    rw [runSubs_nil]⟩
  · intro n hn hnotinp
    have hn' : n = ⟨0, some "A", "ANode", [], [], ⟨0, [], [.nodeEdge 99 0]⟩⟩ := by
      rw [show danglingGraph.nodes =
        [⟨0, some "A", "ANode", [], [], ⟨0, [], [.nodeEdge 99 0]⟩⟩] from by decide] at hn
      exact List.mem_singleton.mp hn
    subst hn'
    constructor
    · intro i hi
      simp at hi
    · intro e he
      simp at he
  · intro n hn inputs
    have hn' : n = ⟨0, some "A", "ANode", [], [], ⟨0, [], [.nodeEdge 99 0]⟩⟩ := by
      rw [show danglingGraph.nodes =
        [⟨0, some "A", "ANode", [], [], ⟨0, [], [.nodeEdge 99 0]⟩⟩] from by decide] at hn
      exact List.mem_singleton.mp hn
    subst hn'
    exact ⟨[], rfl, by decide⟩

/-- Witness for C1: the connected producer/consumer pair
`twoNodeGraphConnected` under `twoNodeBehavior` (with rank function the
identity on node ids). `run_graph` completes with both nodes executed
exactly once. -/
theorem c1_run_graph_executes_each_node_once_witness :
    ∃ fuel outs trace,
      run_graph twoNodeBehavior fuel twoNodeGraphConnected none [] none =
        .ok outs trace ∧
      outs.map (·.1) = trace ∧ trace.Nodup ∧
      (∀ id, id ∈ trace ↔ ∃ n ∈ twoNodeGraphConnected.nodes, n.id = id) :=
  c1_run_graph_executes_each_node_once twoNodeGraphConnected twoNodeBehavior
    (fun id => id) [] none none
    (by decide)
    (by decide)
    (by decide)
    (by
      intro n hn hnotinp
      rw [show twoNodeGraphConnected.nodes = [connectedNodeA, connectedNodeB]
        from by decide] at hn
      rcases List.mem_cons.mp hn with rfl | hn'
      · constructor
        · intro i hi
          simp [connectedNodeA] at hi
        · intro e he
          simp [connectedNodeA] at he
      · rw [List.mem_singleton] at hn'
        subst hn'
        constructor
        · intro i hi
          have hi1 : i = 0 := by
            simp [connectedNodeB] at hi
            omega
          subst hi1
          decide
        · intro e he inn ii onn oi heq
          have he' : e = Edge.slotEdge 1 0 0 0 := by
            simpa [connectedNodeB] using he
          rw [he'] at heq
          injection heq with h1 h2 h3 h4
          subst h2
          decide)
    (by
      intro n hn e he inn ii onn oi heq m hm hmid
      rw [show twoNodeGraphConnected.nodes = [connectedNodeA, connectedNodeB]
        from by decide] at hn hm
      rcases List.mem_cons.mp hn with rfl | hn'
      · simp [connectedNodeA] at he
      · rw [List.mem_singleton] at hn'
        subst hn'
        have he' : e = Edge.slotEdge 1 0 0 0 := by
          simpa [connectedNodeB] using he
        rw [he'] at heq
        injection heq with h1 h2 h3 h4
        subst h3
        subst h4
        rcases List.mem_cons.mp hm with rfl | hm'
        · decide
        · rw [List.mem_singleton] at hm'
          subst hm'
          have : connectedNodeB.id = 1 := rfl
          rw [this] at hmid
          cases hmid)
    (by
      intro n hn inputs
      rw [show twoNodeGraphConnected.nodes = [connectedNodeA, connectedNodeB]
        from by decide] at hn
      rcases List.mem_cons.mp hn with rfl | hn'
      · exact ⟨[some (.buffer 42)], rfl, by decide⟩
      · rw [List.mem_singleton] at hn'
        subst hn'
        exact ⟨[some (.imageView 7)], rfl, by decide⟩)
    (by
      intro iid h
      rw [show twoNodeGraphConnected.input_node = none from by decide] at h
      cases h)

end Avalanche
